import Mathlib

/-!
Fengari `lvm.js`: the calling convention, upvalues and arithmetic; and
functions of `lutf8lib.js` and `lbaselib.js`.

A shallow embedding of `src/src/lvm.js` (`moveresults`, `postcall`, `precall`,
`adjust_varargs`, `findupval`, `tonumber` and the dispatch loop `execute` with
its cases), of `utf8_decode`, `u_posrelat` and `codepoint` of
`src/src/lutf8lib.js`, and of `luaB_select` of `src/src/lbaselib.js`, followed
by theorems about them.

Conventions of the embedding

* JavaScript objects that are shared and mutated through references
  (`CallInfo` records, `UpVal` cells) live in a heap (`lua_State.cis`,
  `lua_State.uvs`), and a reference is an index into that heap.
* A JavaScript function that can throw returns the thread state it leaves
  behind together with a `Completion`; a throw does not undo the writes made
  before it.
* `L.stack` is a JavaScript array: reading an absent element gives
  `undefined`, writing past the end extends the array.
* Stack indices and result counts are natural numbers; the wanted-result
  count and the actual-argument count are integers, as `LUA_MULTRET` is
  negative and `L.top - off - 1` can be.
-/

namespace LuaVM

/-- Modelled from the spec: the type tags of `lua.constant_types` (`lua.js` is
not among the sources). The tags are the ones `lvm.js` names plus the
remaining kinds of the spec's Tagged Value. -/
inductive CT where
  | LUA_TNIL
  | LUA_TBOOLEAN
  | LUA_TLIGHTUSERDATA
  | LUA_TNUMFLT
  | LUA_TNUMINT
  | LUA_TSHRSTR
  | LUA_TLNGSTR
  | LUA_TTABLE
  | LUA_TLCL
  | LUA_TLCF
  | LUA_TCCL
  | LUA_TUSERDATA
  | LUA_TTHREAD
deriving DecidableEq, Repr

/-- Modelled from the spec: `lua.LUA_MULTRET` (`lua.js` is not among the
sources), the wanted-result count meaning "all results". `OP_CALL` computes
the wanted count as `i.C - 1` and treats `nresults >= 0` as a fixed count, so
the sentinel is the value `-1` produced by `C = 0`. -/
def LUA_MULTRET : Int := -1

/-- A primitive JavaScript value: the payload of a `TValue`, or the value a
function returns. A finite number is kept as the rational it denotes, so the
arithmetic of the model is exact: it is the JavaScript arithmetic wherever the
exact result is a double (every integer up to `2^53` in magnitude, every power
of two in range); rounding and the sign of zero are not modelled. -/
inductive JSValue where
  | undefined
  | null
  | bool (b : Bool)
  | number (q : Rat)
  | string (s : String)
  | nan
  | infinity (negative : Bool)
deriving DecidableEq, Repr

/-- JavaScript truthiness, as tested by `if (...)`. -/
def JSValue.truthy : JSValue → Bool
  | .undefined => false
  | .null => false
  | .bool b => b
  | .number q => q != 0
  | .string s => s != ""
  | .nan => false
  | .infinity _ => true

/-- A decoded instruction: the opcode number and its operand fields. -/
structure Instruction where
  opcode : Nat
  A : Nat
  B : Nat
  C : Nat
  Bx : Nat
  Ax : Nat
deriving DecidableEq, Repr

/-- An upvalue descriptor of a prototype (`p.upvalues[i]`). -/
structure Upvaldesc where
  instack : Bool
  idx : Nat
deriving DecidableEq, Repr

mutual
/-- What a variable or a stack slot of `lvm.js` can hold: JavaScript
`undefined` (an absent array element), a `new TValue(type, value)`, or an
`LClosure` with its prototype `p` and its array `upvals`, whose elements are
references to `UpVal` cells (`some r`) or `undefined` (`none`). -/
inductive TValue where
  | undefined
  | mk (type : CT) (value : JSValue)
  | LClosure (p : Proto) (upvals : List (Option Nat))
/-- A function prototype, with the fields `lvm.js` reads: `k`, `code`, `p`,
`upvalues`, `numparams`, `is_vararg`, `maxstacksize`. -/
inductive Proto where
  | mk (k : List TValue) (code : List Instruction) (p : List Proto)
      (upvalues : List Upvaldesc) (numparams : Nat) (is_vararg : Bool)
      (maxstacksize : Nat)
end

instance : Inhabited TValue := ⟨TValue.undefined⟩

def Proto.k : Proto → List TValue
  | .mk k _ _ _ _ _ _ => k

def Proto.code : Proto → List Instruction
  | .mk _ code _ _ _ _ _ => code

def Proto.p : Proto → List Proto
  | .mk _ _ p _ _ _ _ => p

def Proto.upvalues : Proto → List Upvaldesc
  | .mk _ _ _ upvalues _ _ _ => upvalues

def Proto.numparams : Proto → Nat
  | .mk _ _ _ _ numparams _ _ => numparams

def Proto.is_vararg : Proto → Bool
  | .mk _ _ _ _ _ is_vararg _ => is_vararg

def Proto.maxstacksize : Proto → Nat
  | .mk _ _ _ _ _ _ maxstacksize => maxstacksize

/-- Modelled from the spec: the `type` property of a value (`lobject.js` is
not among the sources). A `TValue` carries the tag it was built with; an
`LClosure` is the script closure, whose tag is `LUA_TLCL` (the tag `precall`
dispatches on before it reads `func.p`); `undefined` has no properties, and
reading one throws. -/
def TValue.type : TValue → Option CT
  | .undefined => none
  | .mk type _ => some type
  | .LClosure _ _ => some CT.LUA_TLCL

/-- The `p` property of a value: the prototype of an `LClosure`, absent on a
plain `TValue`. -/
def TValue.p : TValue → Option Proto
  | .LClosure p _ => some p
  | _ => none

/-- The module constant `nil = new TValue(CT.LUA_TNIL, null)`. -/
def nil : TValue := TValue.mk CT.LUA_TNIL JSValue.null

/-- What a JavaScript function call leaves: a returned value or a thrown
error. -/
inductive Completion (α : Type) where
  | normal (value : α)
  | thrown (error : String)
deriving DecidableEq, Repr

/-- `L.stack[i]` read with a numeric index. -/
def stackGet (stack : List TValue) (i : Nat) : TValue :=
  stack.getD i TValue.undefined

/-- `L.stack[i] = v` with a numeric index: an assignment past the end of the
array extends it, the skipped elements reading as `undefined`. -/
def stackSet (stack : List TValue) (i : Nat) (v : TValue) : List TValue :=
  if i < stack.length then stack.set i v
  else stack ++ List.replicate (i - stack.length) TValue.undefined ++ [v]

/-- A property key used on `L.stack`: a number, or an object. -/
inductive Key where
  | index (i : Nat)
  | object (o : TValue)

/-- `L.stack[key]`. An object used as a property key is converted to the
string `"[object Object]"`, which names no element of the array, so the read
gives `undefined`. -/
def stackGetKey (stack : List TValue) : Key → TValue
  | .index i => stackGet stack i
  | .object _ => TValue.undefined

/-- The loop `for (; i < bound; i++) body(i)` on a state `s`, given by the
number `count` of iterations left. -/
def forLoopAux {σ : Type} (body : Nat → σ → σ) : Nat → Nat → σ → σ
  | 0, _, s => s
  | count + 1, i, s => forLoopAux body count (i + 1) (body i s)

/-- The loop `for (; i < bound; i++) body(i)`: it runs `bound - i` times when
`i < bound` and not at all otherwise. -/
def forLoop {σ : Type} (i bound : Nat) (body : Nat → σ → σ) (s : σ) : σ :=
  forLoopAux body (bound - i) i s

/-- Modelled from the spec: an Activation Record, the `CallInfo` of
`lstate.js` (not among the sources), with the fields `lvm.js` reads and
writes. `base` and `savedpc` stand for `u.l.base` and `u.l.savedpc`;
`previous` and `next` are references into `lua_State.cis`. -/
structure CallInfo where
  func : TValue
  funcOff : Nat
  top : Nat
  previous : Option Nat
  next : Option Nat
  nresults : Int
  base : Nat
  savedpc : List Instruction
  pcOff : Nat

/-- Modelled from the spec: `new CallInfo(off)` (`lstate.js` is not among the
sources). The record remembers the stack index of the called function, which
`postcall` reads back as `ci.funcOff`, and its saved pc starts at instruction
0; the other fields are assigned by `precall` before they are read. -/
def CallInfo.new (off : Nat) : CallInfo :=
  { func := TValue.undefined, funcOff := off, top := 0, previous := none,
    next := none, nresults := 0, base := 0, savedpc := [], pcOff := 0 }

/-- Modelled from the spec: an Upvalue cell, the `UpVal` of `lfunc.js` (not
among the sources), with the fields `lvm.js` reads and writes: `v`, the stack
index the cell refers to, `refcount`, and `u.open.next` and `u.open.touched`
(`next` is a reference into `lua_State.uvs`, `none` for `null`). -/
structure UpVal where
  v : Nat
  refcount : Nat
  next : Option Nat
  touched : Bool
deriving DecidableEq, Repr

/-- Modelled from the spec: the Thread State `L` (`lstate.js` is not among the
sources), with the fields `lvm.js` uses: the register stack, its top, the
current frame `ci` (a reference, `none` for `null`), the call depth `ciOff`,
the heap `cis` of `CallInfo` records, the head `openupval` of the list of open
upvalues (a reference, `none` for `null`) and the heap `uvs` of `UpVal`
cells. -/
structure lua_State where
  stack : List TValue
  top : Nat
  ci : Option Nat
  ciOff : Int
  cis : List CallInfo
  openupval : Option Nat := none
  uvs : List UpVal := []

/-- `RA(base, i)`. -/
def RA (base : Nat) (i : Instruction) : Nat := base + i.A

/-- `moveresults(firstResult, res, nres, wanted)`. It never throws; the result
is the state it leaves and the boolean it returns. -/
def moveresults (L : lua_State) (firstResult res nres : Nat) (wanted : Int) :
    lua_State × Bool :=
  if wanted = 0 then
    (L, true)
  else if wanted = 1 then
    let firstResult : Key := if nres = 0 then Key.object nil else Key.index firstResult
    ({ L with stack := stackSet L.stack res (stackGetKey L.stack firstResult) }, true)
  else if wanted = LUA_MULTRET then
    let stack := forLoop 0 nres
      (fun i st => stackSet st (res + i) (stackGet st (firstResult + i))) L.stack
    ({ L with stack := stack, top := res + nres }, false)
  else if wanted ≤ (nres : Int) then
    let stack := forLoop 0 wanted.toNat
      (fun i st => stackSet st (res + i) (stackGet st (firstResult + i))) L.stack
    let stack := forLoop wanted.toNat wanted.toNat
      (fun i st => stackSet st (res + i) nil) stack
    ({ L with stack := stack }, true)
  else
    (L, true)

/-- `postcall(ci, firstResult, nres)`, `ci` being a reference to a `CallInfo`.
Reading a property of a reference that denotes no record throws. -/
def postcall (L : lua_State) (ci firstResult nres : Nat) :
    lua_State × Completion Bool :=
  match L.cis[ci]? with
  | none => (L, Completion.thrown "TypeError")
  | some fr =>
    let wanted := fr.nresults
    let res := fr.funcOff
    let L := { L with ci := fr.previous, ciOff := L.ciOff - 1 }
    let r := moveresults L firstResult res nres wanted
    (r.1, Completion.normal r.2)

/-- The statement `L.stack[L.top++] = v`. -/
def push (L : lua_State) (v : TValue) : lua_State :=
  { L with stack := stackSet L.stack L.top v, top := L.top + 1 }

/-- `L.stack[i]` read with an integer index: a negative number names no
element of the array. -/
def stackGetInt (stack : List TValue) (i : Int) : TValue :=
  if i < 0 then TValue.undefined else stackGet stack i.toNat

/-- `L.stack[i] = v` with an integer index: with a negative number the
assignment changes no element of the array. -/
def stackSetInt (stack : List TValue) (i : Int) (v : TValue) : List TValue :=
  if i < 0 then stack else stackSet stack i.toNat v

/-- The body of the first loop of `adjust_varargs`:
`L.stack[L.top++] = L.stack[fixed + i]; L.stack[fixed + i] = nil`. -/
def adjust_varargs_move (fixed : Int) (i : Nat) (L : lua_State) : lua_State :=
  let L := push L (stackGetInt L.stack (fixed + i))
  { L with stack := stackSetInt L.stack (fixed + i) nil }

/-- `adjust_varargs(p, actual)`: the state it leaves and the base it returns.
The first loop, `for (i = 0; i < nfixargs && i < actual; i++)`, runs
`min(nfixargs, actual)` times (not at all when `actual` is negative); the
second goes on from there up to `nfixargs`. -/
def adjust_varargs (L : lua_State) (p : Proto) (actual : Int) : lua_State × Nat :=
  let nfixargs := p.numparams
  let fixed : Int := (L.top : Int) - actual
  let base := L.top
  let moved := min nfixargs actual.toNat
  let L := forLoop 0 moved (adjust_varargs_move fixed) L
  let L := forLoop moved nfixargs (fun _ L => push L nil) L
  (L, base)

/-- The last part of the `LUA_TLCL` case of `precall`, from the comment
`// next_ci` on: the step to the next `CallInfo` and the assignments to the
local `ci`. `L` is the state after the argument adjustment, `base` the base it
computed. On the reuse branch (`L.ci.next` is an object) `L.ci` is moved to the
successor but the local `ci` is never assigned, so `ci.nresults = nresults`
throws. -/
def precall_next_ci (L : lua_State) (off : Nat) (func : TValue) (nresults : Int)
    (p : Proto) (base : Nat) : lua_State × Completion JSValue :=
  let fsize := p.maxstacksize
  match L.ci with
  | none => (L, Completion.thrown "TypeError")
  | some cur =>
    match L.cis[cur]? with
    | none => (L, Completion.thrown "TypeError")
    | some curInfo =>
      match curInfo.next with
      | some nxt =>
        ({ L with ci := some nxt }, Completion.thrown "TypeError")
      | none =>
        let ci := L.cis.length
        let info : CallInfo :=
          { CallInfo.new off with
            previous := some cur, next := none, nresults := nresults, func := func,
            base := base, top := base + fsize, savedpc := p.code }
        let cis := (L.cis.set cur { curInfo with next := some ci }) ++ [info]
        ({ L with cis := cis, ci := some ci, ciOff := L.ciOff + 1, top := base + fsize },
          Completion.normal JSValue.undefined)

/-- The argument adjustment of the `LUA_TLCL` case of `precall`: the state it
leaves and the base. For a prototype that is not vararg it is the loop
`for (; n < p.numparams; n++) L.stack[L.top++] = nil`, which runs
`p.numparams - n` times when `n < p.numparams`. -/
def precall_adjust (L : lua_State) (off : Nat) (p : Proto) : lua_State × Nat :=
  let n : Int := (L.top : Int) - off - 1
  if p.is_vararg then adjust_varargs L p n
  else (forLoopAux (fun _ L => push L nil) ((p.numparams : Int) - n).toNat 0 L, off + 1)

/-- `precall(off, func, nresults)`. The function has no `return` statement, so
when it does not throw it returns `undefined`. -/
def precall (L : lua_State) (off : Nat) (func : TValue) (nresults : Int) :
    lua_State × Completion JSValue :=
  match func.type with
  | none => (L, Completion.thrown "TypeError")
  | some CT.LUA_TCCL => (L, Completion.thrown "LUA_TCCL not implemeted yet")
  | some CT.LUA_TLCF => (L, Completion.thrown "LUA_TLCF not implemeted yet")
  | some CT.LUA_TLCL =>
    match func.p with
    | none => (L, Completion.thrown "TypeError")
    | some p =>
      let r := precall_adjust L off p
      precall_next_ci r.1 off func nresults p r.2
  | some _ => (L, Completion.normal JSValue.undefined)

/-- How a `case` of the dispatch loop ends. -/
inductive Control where
  | break_switch
  | continue_newframe
  | return_execute
deriving DecidableEq, Repr

/-- The `OP_CALL` case of `execute`, run in the frame `ci` with base `base` on
the instruction `i`. -/
def OP_CALL (L : lua_State) (ci base : Nat) (i : Instruction) :
    lua_State × Completion Control :=
  let ra := RA base i
  let b := i.B
  let nresults : Int := (i.C : Int) - 1
  let L := if b ≠ 0 then { L with top := ra + b } else L
  match precall L ra (stackGet L.stack ra) nresults with
  | (L, Completion.thrown e) => (L, Completion.thrown e)
  | (L, Completion.normal r) =>
    if r.truthy then
      match L.cis[ci]? with
      | none => (L, Completion.thrown "TypeError")
      | some fr =>
        let L := if nresults ≥ 0 then { L with top := fr.top } else L
        (L, Completion.normal Control.break_switch)
    else (L, Completion.normal Control.continue_newframe)

/-! ## JavaScript operators and built-ins used by the arithmetic cases -/

/-- The digits after the decimal point of `r / d` (with `r < d`), at most
`fuel` of them. -/
def fractionDigits : Nat → Nat → Nat → List Char
  | 0, _, _ => []
  | fuel + 1, r, d =>
    if r = 0 then [] else Char.ofNat (48 + r * 10 / d) :: fractionDigits fuel (r * 10 % d) d

/-- `Number::toString` on a finite number. For an integer below `10^21` in
magnitude it is the decimal digits, as in JavaScript; for another number the
model prints its decimal expansion up to 17 fractional digits, which is what
JavaScript prints only when that expansion is short. -/
def Number_toString (q : Rat) : String :=
  let n := q.num.natAbs
  (if q.num < 0 then "-" else "") ++ toString (n / q.den) ++
    (if n % q.den = 0 then "" else "." ++ String.mk (fractionDigits 17 (n % q.den) q.den))

/-- The abstract operation `ToString` on a primitive value. -/
def ToString : JSValue → String
  | .undefined => "undefined"
  | .null => "null"
  | .bool b => if b then "true" else "false"
  | .number q => Number_toString q
  | .string s => s
  | .nan => "NaN"
  | .infinity negative => if negative then "-Infinity" else "Infinity"

/-- A character that `parseFloat` and `ToNumber` skip: JavaScript white space
and line terminators. -/
def isStrWhiteSpaceChar (c : Char) : Bool :=
  let n := c.toNat
  n = 9 || n = 10 || n = 11 || n = 12 || n = 13 || n = 32 || n = 160 || n = 5760 ||
  (8192 ≤ n && n ≤ 8202) || n = 8232 || n = 8233 || n = 8239 || n = 8287 || n = 12288 ||
  n = 65279

/-- The number written by a list of digits in base `b` (letters count from
10). -/
def digitsValue (b : Nat) (cs : List Char) : Nat :=
  cs.foldl (fun acc c =>
    acc * b + (if c.isDigit then c.toNat - 48 else c.toLower.toNat - 87)) 0

/-- An `ExponentPart` at the start of `cs`: its value and what follows it, or
0 and `cs` when there is none. -/
def scanExponent (cs : List Char) : Int × List Char :=
  match cs with
  | c :: r =>
    if c = Char.ofNat 101 || c = Char.ofNat 69 then
      let negative := r.head? = some (Char.ofNat 45)
      let r1 := if r.head? = some (Char.ofNat 45) || r.head? = some (Char.ofNat 43)
        then r.drop 1 else r
      let ds := r1.takeWhile Char.isDigit
      if ds = [] then (0, cs)
      else ((if negative then -(digitsValue 10 ds : Int) else digitsValue 10 ds),
        r1.dropWhile Char.isDigit)
    else (0, cs)
  | [] => (0, cs)

/-- The longest `StrUnsignedDecimalLiteral` at the start of `cs` (`Infinity`,
or digits with an optional fraction and exponent): its value and what follows
it, or `none` when no prefix of `cs` is one. -/
def scanUnsignedDecimal (cs : List Char) : Option (JSValue × List Char) :=
  if cs.take 8 = "Infinity".toList then some (JSValue.infinity false, cs.drop 8)
  else
    let ip := cs.takeWhile Char.isDigit
    let r1 := cs.dropWhile Char.isDigit
    let hasDot := r1.head? = some (Char.ofNat 46)
    let fp := if hasDot then (r1.drop 1).takeWhile Char.isDigit else []
    let r2 := if hasDot then (r1.drop 1).dropWhile Char.isDigit else r1
    if ip = [] ∧ fp = [] then none
    else
      let mantissa : Rat := (digitsValue 10 ip : Rat) + (digitsValue 10 fp : Rat) / 10 ^ fp.length
      let e := scanExponent r2
      some (JSValue.number (mantissa * 10 ^ e.1), e.2)

/-- The sign at the start of a `StrDecimalLiteral`: whether it is `-`, and
what follows it. -/
def scanSign (cs : List Char) : Bool × List Char :=
  if cs.head? = some (Char.ofNat 45) then (true, cs.drop 1)
  else if cs.head? = some (Char.ofNat 43) then (false, cs.drop 1)
  else (false, cs)

/-- The negation of a numeric value. -/
def numNeg : JSValue → JSValue
  | .number q => JSValue.number (-q)
  | .infinity negative => JSValue.infinity (!negative)
  | _ => JSValue.nan

/-- The global `parseFloat` on a string: the value of the longest prefix,
after leading white space, that is a `StrDecimalLiteral`, and `NaN` when
there is none. -/
def parseFloat (s : String) : JSValue :=
  let sg := scanSign (s.toList.dropWhile isStrWhiteSpaceChar)
  match scanUnsignedDecimal sg.2 with
  | none => JSValue.nan
  | some (v, _) => if sg.1 then numNeg v else v

/-- `ToNumber` on a string: white space is trimmed at both ends; the empty
string is 0; the rest must be, as a whole, a `StrDecimalLiteral` or a
hexadecimal, octal or binary integer; anything else is `NaN`. -/
def StringToNumber (s : String) : JSValue :=
  let cs := ((s.toList.dropWhile isStrWhiteSpaceChar).reverse.dropWhile
    isStrWhiteSpaceChar).reverse
  let radix (c : Char) : Nat :=
    if c.toLower = Char.ofNat 120 then 16 else if c.toLower = Char.ofNat 111 then 8
    else if c.toLower = Char.ofNat 98 then 2 else 0
  let inRadix (b : Nat) (c : Char) : Bool :=
    (c.isDigit && c.toNat - 48 < b) ||
      (b = 16 && 97 ≤ c.toLower.toNat && c.toLower.toNat ≤ 102)
  match cs with
  | [] => JSValue.number 0
  | c0 :: c1 :: ds =>
    if c0 = Char.ofNat 48 ∧ radix c1 ≠ 0 then
      if ds ≠ [] ∧ ds.all (inRadix (radix c1)) then JSValue.number (digitsValue (radix c1) ds)
      else JSValue.nan
    else
      let sg := scanSign cs
      match scanUnsignedDecimal sg.2 with
      | some (v, []) => if sg.1 then numNeg v else v
      | _ => JSValue.nan
  | _ =>
    let sg := scanSign cs
    match scanUnsignedDecimal sg.2 with
    | some (v, []) => if sg.1 then numNeg v else v
    | _ => JSValue.nan

/-- The abstract operation `ToNumber` on a primitive value. -/
def ToNumber : JSValue → JSValue
  | .undefined => JSValue.nan
  | .null => JSValue.number 0
  | .bool b => JSValue.number (if b then 1 else 0)
  | .number q => JSValue.number q
  | .string s => StringToNumber s
  | .nan => JSValue.nan
  | .infinity negative => JSValue.infinity negative

/-- The sum of two numeric values. -/
def numAdd : JSValue → JSValue → JSValue
  | .number x, .number y => JSValue.number (x + y)
  | .infinity a, .infinity b => if a = b then JSValue.infinity a else JSValue.nan
  | .infinity a, .number _ => JSValue.infinity a
  | .number _, .infinity b => JSValue.infinity b
  | _, _ => JSValue.nan

/-- The product of two numeric values. -/
def numMul : JSValue → JSValue → JSValue
  | .number x, .number y => JSValue.number (x * y)
  | .infinity a, .infinity b => JSValue.infinity (a != b)
  | .infinity a, .number y =>
    if y = 0 then JSValue.nan else JSValue.infinity (a != decide (y < 0))
  | .number x, .infinity b =>
    if x = 0 then JSValue.nan else JSValue.infinity (b != decide (x < 0))
  | _, _ => JSValue.nan

/-- Whether a primitive value is a string. -/
def JSValue.isString : JSValue → Bool
  | .string _ => true
  | _ => false

/-- The JavaScript operator `a + b` on primitive values: concatenation of the
`ToString` of both when either is a string, the sum of the `ToNumber` of both
otherwise. -/
def jsAdd (a b : JSValue) : JSValue :=
  if a.isString || b.isString then JSValue.string (ToString a ++ ToString b)
  else numAdd (ToNumber a) (ToNumber b)

/-- The JavaScript operator `a * b` on primitive values. -/
def jsMul (a b : JSValue) : JSValue :=
  numMul (ToNumber a) (ToNumber b)

/-! ## Upvalues, varargs, tail call and return -/

/-- The `upvals` property of a value: the array of an `LClosure`, absent on
anything else. -/
def TValue.upvals : TValue → Option (List (Option Nat))
  | .LClosure _ upvals => some upvals
  | _ => none

/-- How the `while` loop of `findupval` ends when it does not throw: with
`return p` inside the loop, or by leaving the loop with the variable `pp`. -/
inductive UpvalSearch where
  | found (p : Nat)
  | notFound (pp : Option Nat)
deriving DecidableEq, Repr

/-- The loop `while (pp !== null && pp.v >= level)` of `findupval`, started
with `pp`. Each turn of the loop consumes one unit of `fuel`; the result is
`none` when the fuel runs out. -/
def findupval_loop (uvs : List UpVal) (level : Nat) :
    Nat → Option Nat → Option (Completion UpvalSearch)
  | 0, _ => none
  | fuel + 1, pp =>
    match pp with
    | none => some (Completion.normal (UpvalSearch.notFound none))
    | some r =>
      match uvs[r]? with
      | none => some (Completion.thrown "TypeError")
      | some p =>
        if p.v ≥ level then
          if p.v = level then some (Completion.normal (UpvalSearch.found r))
          else findupval_loop uvs level fuel p.next
        else some (Completion.normal (UpvalSearch.notFound (some r)))

/-- `findupval(level)`: the state it leaves and the reference it returns. The
loop gets one unit of fuel more than there are cells: a walk along `next`
that takes more turns has come back to a cell it visited, and the JavaScript
loop does not terminate; the result is then `none`. A new cell is allocated
at the end of the heap; the assignment `pp = uv` changes the local variable
only, so neither `L.openupval` nor the `next` of a cell is modified. -/
def findupval (L : lua_State) (level : Nat) : Option (lua_State × Completion Nat) :=
  match findupval_loop L.uvs level (L.uvs.length + 1) L.openupval with
  | none => none
  | some (Completion.thrown e) => some (L, Completion.thrown e)
  | some (Completion.normal (UpvalSearch.found p)) => some (L, Completion.normal p)
  | some (Completion.normal (UpvalSearch.notFound pp)) =>
    let uv : UpVal := { v := level, refcount := 0, next := pp, touched := true }
    some ({ L with uvs := L.uvs ++ [uv] }, Completion.normal L.uvs.length)

/-- The loop `for (let i = 0; i < nup; i++)` of `OP_CLOSURE` over the upvalue
descriptors that are left, `i` being the index of the first of them and
`upvals` the array `ncl.upvals` so far: the state, the array and the error
thrown, if any. -/
def OP_CLOSURE_loop (clUpvals : List (Option Nat)) (base : Nat) :
    List Upvaldesc → Nat → lua_State → List (Option Nat) →
      Option (lua_State × List (Option Nat) × Option String)
  | [], _, L, upvals => some (L, upvals, none)
  | d :: ds, i, L, upvals =>
    if d.instack then
      match findupval L (base + d.idx) with
      | none => none
      | some (L, Completion.thrown e) => some (L, upvals, some e)
      | some (L, Completion.normal r) =>
        OP_CLOSURE_loop clUpvals base ds (i + 1) L (upvals.set i (some r))
    else
      OP_CLOSURE_loop clUpvals base ds (i + 1) L (upvals.set i (clUpvals.getD d.idx none))

/-- The `OP_CLOSURE` case of `execute`, run by the closure `cl` in a frame
with base `base`. `new LClosure(nup)` has an array of `nup` upvalue slots,
all `undefined`. The new closure is an object that the loop fills through
its reference after it was stored in `R[A]`: the slot holds the closure with
the array as the loop leaves it. The result is `none` when a `findupval`
does not terminate. -/
def OP_CLOSURE (L : lua_State) (cl : TValue) (base : Nat) (i : Instruction) :
    Option (lua_State × Completion Control) :=
  let ra := RA base i
  match cl.p, cl.upvals with
  | some clp, some clUpvals =>
    match clp.p[i.Bx]? with
    | none => some (L, Completion.thrown "TypeError")
    | some p =>
      let nup := p.upvalues.length
      let uv := p.upvalues
      match OP_CLOSURE_loop clUpvals base uv 0 L (List.replicate nup none) with
      | none => none
      | some (L, upvals, err) =>
        let L := { L with stack := stackSet L.stack ra (TValue.LClosure p upvals) }
        match err with
        | some e => some (L, Completion.thrown e)
        | none => some (L, Completion.normal Control.break_switch)
  | _, _ => some (L, Completion.thrown "TypeError")

/-- The stack index `cl.upvals[b].v`, when `cl.upvals[b]` is a cell. -/
def upvalIndex (L : lua_State) (cl : TValue) (b : Nat) : Option Nat :=
  match cl.upvals with
  | none => none
  | some upvals =>
    match upvals.getD b none with
    | none => none
    | some r =>
      match L.uvs[r]? with
      | none => none
      | some uv => some uv.v

/-- The `OP_GETUPVAL` case of `execute`:
`L.stack[ra] = L.stack[cl.upvals[i.B].v]`. -/
def OP_GETUPVAL (L : lua_State) (cl : TValue) (base : Nat) (i : Instruction) :
    lua_State × Completion Control :=
  let ra := RA base i
  match upvalIndex L cl i.B with
  | none => (L, Completion.thrown "TypeError")
  | some v =>
    ({ L with stack := stackSet L.stack ra (stackGet L.stack v) },
      Completion.normal Control.break_switch)

/-- The `OP_SETUPVAL` case of `execute`:
`L.stack[cl.upvals[i.B].v] = L.stack[ra]`. -/
def OP_SETUPVAL (L : lua_State) (cl : TValue) (base : Nat) (i : Instruction) :
    lua_State × Completion Control :=
  let ra := RA base i
  match upvalIndex L cl i.B with
  | none => (L, Completion.thrown "TypeError")
  | some v =>
    ({ L with stack := stackSet L.stack v (stackGet L.stack ra) },
      Completion.normal Control.break_switch)

/-- The `OP_VARARG` case of `execute`, run in the frame `ci` by the closure
`cl` with base `base`. After `if (n < 0) n = 0` the count `n` is a natural
number, and after `if (b < 0) b = n` so is `b`. The first loop,
`for (j = 0; j < b && j < n; j++)`, runs `min(b, n)` times and the second goes
on from there up to `b`. -/
def OP_VARARG (L : lua_State) (ci : Nat) (cl : TValue) (base : Nat) (i : Instruction) :
    lua_State × Completion Control :=
  let ra := RA base i
  match L.cis[ci]?, cl.p with
  | some fr, some p =>
    let b : Int := (i.B : Int) - 1
    let n : Int := (base : Int) - fr.funcOff - p.numparams - 1
    let n : Nat := if n < 0 then 0 else n.toNat
    let all := decide (b < 0)
    let b : Nat := if all then n else b.toNat
    let base := if all then fr.base else base
    let ra := if all then RA base i else ra
    let L := if all then { L with top := ra + n } else L
    let stack := forLoop 0 (min b n)
      (fun j st => stackSet st (ra + j) (stackGetInt st ((base : Int) - n + j))) L.stack
    let stack := forLoop (min b n) b (fun j st => stackSet st (ra + j) nil) stack
    ({ L with stack := stack }, Completion.normal Control.break_switch)
  | _, _ => (L, Completion.thrown "TypeError")

/-- The `OP_RETURN` case of `execute`, run in the frame `ci` with base `base`.
The count of results `L.top - ra` is taken as a natural number: the model
covers the runs with `B ≠ 0` or `ra ≤ L.top`; with `B = 0` and `L.top < ra`
the code passes a negative count to `postcall`, where the model passes 0. -/
def OP_RETURN (L : lua_State) (ci base : Nat) (i : Instruction) :
    lua_State × Completion Control :=
  let ra := RA base i
  match postcall L ci ra (if i.B ≠ 0 then i.B - 1 else L.top - ra) with
  | (L, Completion.thrown e) => (L, Completion.thrown e)
  | (L, Completion.normal b) =>
    match L.ci with
    | none => (L, Completion.normal Control.return_execute)
    | some ci =>
      if b then
        match L.cis[ci]? with
        | none => (L, Completion.thrown "TypeError")
        | some fr => ({ L with top := fr.top }, Completion.normal Control.continue_newframe)
      else (L, Completion.normal Control.continue_newframe)

/-- The `else` branch of the `OP_TAILCALL` case, taken when `precall` returned
a falsy value: the called frame `nci = L.ci` is put in place of the caller
frame `oci = nci.previous`. -/
def OP_TAILCALL_replace (L : lua_State) : lua_State × Completion Control :=
  match L.ci with
  | none => (L, Completion.thrown "TypeError")
  | some nciRef =>
    match L.cis[nciRef]? with
    | none => (L, Completion.thrown "TypeError")
    | some nci =>
      match nci.previous with
      | none => (L, Completion.thrown "TypeError")
      | some ociRef =>
        match L.cis[ociRef]?, nci.func.p with
        | some oci, some nfuncp =>
          let nfuncOff := nci.funcOff
          let ofuncOff := oci.funcOff
          let lim := nci.base + nfuncp.numparams
          -- for (let aux = 0; nfuncOff + aux < lim; aux++)
          let stack := forLoop 0 (lim - nfuncOff)
            (fun aux st => stackSet st (ofuncOff + aux) (stackGet st (nfuncOff + aux))) L.stack
          let obase := ((ofuncOff : Int) + ((nci.base : Int) - nfuncOff)).toNat
          let top := ((ofuncOff : Int) + ((L.top : Int) - nfuncOff)).toNat
          let oci := { oci with base := obase, top := top, savedpc := nci.savedpc,
                                pcOff := nci.pcOff }
          let L := { L with stack := stack, top := top, cis := L.cis.set ociRef oci,
                            ci := some ociRef, ciOff := L.ciOff - 1 }
          match (stackGet L.stack ofuncOff).p with
          | none => (L, Completion.thrown "TypeError")
          | some fp =>
            if L.top = oci.base + fp.maxstacksize then
              (L, Completion.normal Control.continue_newframe)
            else (L, Completion.thrown "AssertionError")
        | _, _ => (L, Completion.thrown "TypeError")

/-- The `OP_TAILCALL` case of `execute`, run in the frame `ci` with base
`base`. -/
def OP_TAILCALL (L : lua_State) (ci base : Nat) (i : Instruction) :
    lua_State × Completion Control :=
  let ra := RA base i
  let L := if i.B ≠ 0 then { L with top := ra + i.B } else L
  match precall L ra (stackGet L.stack ra) LUA_MULTRET with
  | (L, Completion.thrown e) => (L, Completion.thrown e)
  | (L, Completion.normal r) =>
    if r.truthy then
      match L.cis[ci]? with
      | none => (L, Completion.thrown "TypeError")
      | some _ => (L, Completion.normal Control.break_switch)
    else OP_TAILCALL_replace L

/-! ## Operands and arithmetic -/

/-- The `value` property of a value: the payload of a `TValue`; an `LClosure`
is built without a payload (`null`); `undefined` has no properties. -/
def TValue.value : TValue → Option JSValue
  | .undefined => none
  | .mk _ value => some value
  | .LClosure _ _ => some JSValue.null

/-- Modelled from the spec: `OC.ISK` (`lopcodes.js` is not among the sources):
whether an operand has the high-bit flag `BITRK = 1 << 8` that marks an index
into the constant pool. -/
def ISK (x : Nat) : Bool := x.testBit 8

/-- Modelled from the spec: `OC.INDEXK` (`lopcodes.js` is not among the
sources): the operand without the flag `BITRK`. -/
def INDEXK (x : Nat) : Nat := if x.testBit 8 then x - 256 else x

/-- An element `k[j]` of the constant pool, `undefined` when absent. -/
def constGet (k : List TValue) (j : Nat) : TValue := k.getD j TValue.undefined

/-- `RKB(base, k, i)`. -/
def RKB (L : lua_State) (base : Nat) (k : List TValue) (i : Instruction) : TValue :=
  if ISK i.B then constGet k (INDEXK i.B) else stackGet L.stack (base + i.B)

/-- `RKC(base, k, i)`. -/
def RKC (L : lua_State) (base : Nat) (k : List TValue) (i : Instruction) : TValue :=
  if ISK i.C then constGet k (INDEXK i.C) else stackGet L.stack (base + i.C)

/-- `LuaVM.tonumber(v)`: a `TValue`, or `none` for the value `false`; reading
`v.type` throws when `v` is `undefined`. -/
def tonumber (v : TValue) : Completion (Option TValue) :=
  match v.type, v.value with
  | some type, some value =>
    if type = CT.LUA_TNUMFLT then
      Completion.normal (some (TValue.mk type value))
    else if type = CT.LUA_TNUMINT then
      Completion.normal (some (TValue.mk CT.LUA_TNUMFLT value))
    else if type = CT.LUA_TSHRSTR ∨ type = CT.LUA_TLNGSTR then
      Completion.normal (some (TValue.mk CT.LUA_TNUMFLT (parseFloat (ToString value))))
    else Completion.normal none
  | _, _ => Completion.thrown "TypeError"

/-- The message of the error the arithmetic cases throw, built from two
payloads. -/
def binaryOperationError (v1 v2 : JSValue) : String :=
  "Can\x27t perform binary operation on " ++ ToString v1 ++ " and " ++ ToString v2

/-- The `OP_ADD` case of `execute`, run with the constants `k` in a frame with
base `base`. -/
def OP_ADD (L : lua_State) (k : List TValue) (base : Nat) (i : Instruction) :
    lua_State × Completion Control :=
  let ra := RA base i
  let op1 := RKB L base k i
  let op2 := RKC L base k i
  match tonumber op1, tonumber op2 with
  | Completion.normal numberop1, Completion.normal numberop2 =>
    match op1.type, op2.type, op1.value, op2.value with
    | some type1, some type2, some value1, some value2 =>
      if type1 = CT.LUA_TNUMINT ∧ type2 = CT.LUA_TNUMINT then
        ({ L with stack := stackSet L.stack ra (TValue.mk CT.LUA_TNUMINT (jsAdd value1 value2)) },
          Completion.normal Control.break_switch)
      else if numberop1.isSome ∧ numberop2.isSome then
        ({ L with stack := stackSet L.stack ra (TValue.mk CT.LUA_TNUMFLT (jsAdd value1 value2)) },
          Completion.normal Control.break_switch)
      else (L, Completion.thrown (binaryOperationError value1 value2))
    | _, _, _, _ => (L, Completion.thrown "TypeError")
  | _, _ => (L, Completion.thrown "TypeError")

/-- The `OP_MUL` case of `execute`, run with the constants `k` in a frame with
base `base`. On its second and third branch the first operand is read as
`k[i.B].value`, the constant at the raw field `B`. -/
def OP_MUL (L : lua_State) (k : List TValue) (base : Nat) (i : Instruction) :
    lua_State × Completion Control :=
  let ra := RA base i
  let op1 := RKB L base k i
  let op2 := RKC L base k i
  match tonumber op1, tonumber op2 with
  | Completion.normal numberop1, Completion.normal numberop2 =>
    match op1.type, op2.type, op1.value, op2.value with
    | some type1, some type2, some value1, some value2 =>
      if type1 = CT.LUA_TNUMINT ∧ type2 = CT.LUA_TNUMINT then
        ({ L with stack := stackSet L.stack ra (TValue.mk CT.LUA_TNUMINT (jsMul value1 value2)) },
          Completion.normal Control.break_switch)
      else if numberop1.isSome ∧ numberop2.isSome then
        match (constGet k i.B).value with
        | none => (L, Completion.thrown "TypeError")
        | some kB =>
          ({ L with stack := stackSet L.stack ra (TValue.mk CT.LUA_TNUMFLT (jsMul kB value2)) },
            Completion.normal Control.break_switch)
      else
        match (constGet k i.B).value, (constGet k i.C).value with
        | some kB, some kC => (L, Completion.thrown (binaryOperationError kB kC))
        | _, _ => (L, Completion.thrown "TypeError")
    | _, _, _, _ => (L, Completion.thrown "TypeError")
  | _, _ => (L, Completion.thrown "TypeError")

/-! ## The remaining arithmetic, bitwise and unary cases -/

/-- The JavaScript operator `a - b` on primitive values. -/
def jsSub (a b : JSValue) : JSValue :=
  numAdd (ToNumber a) (numNeg (ToNumber b))

/-- The JavaScript operator `-a` on a primitive value. -/
def jsNeg (a : JSValue) : JSValue :=
  numNeg (ToNumber a)

/-- The quotient of two numeric values. A finite number divided by zero is an
infinity with the sign of the dividend (zero is taken as `+0`), and `0 / 0` is
`NaN`. -/
def numDiv : JSValue → JSValue → JSValue
  | .number x, .number y =>
    if y = 0 then (if x = 0 then JSValue.nan else JSValue.infinity (decide (x < 0)))
    else JSValue.number (x / y)
  | .infinity _, .infinity _ => JSValue.nan
  | .infinity a, .number y => JSValue.infinity (a != decide (y < 0))
  | .number _, .infinity _ => JSValue.number 0
  | _, _ => JSValue.nan

/-- The JavaScript operator `a / b` on primitive values. -/
def jsDiv (a b : JSValue) : JSValue :=
  numDiv (ToNumber a) (ToNumber b)

/-- The integer part of a rational number: rounding toward zero. -/
def ratTrunc (q : Rat) : Int := if q < 0 then -⌊-q⌋ else ⌊q⌋

/-- The remainder of two numeric values: `x - y * trunc(x / y)`, which is zero
or has the sign of the dividend `x`; `NaN` when the divisor is zero or the
dividend is infinite, and the dividend itself when only the divisor is
infinite. -/
def numMod : JSValue → JSValue → JSValue
  | .number x, .number y =>
    if y = 0 then JSValue.nan else JSValue.number (x - y * (ratTrunc (x / y) : Rat))
  | .number x, .infinity _ => JSValue.number x
  | _, _ => JSValue.nan

/-- The JavaScript operator `a % b` on primitive values. -/
def jsMod (a b : JSValue) : JSValue :=
  numMod (ToNumber a) (ToNumber b)

/-- `Math.floor` on a numeric value. -/
def Math_floor : JSValue → JSValue
  | .number q => JSValue.number ((⌊q⌋ : Int) : Rat)
  | v => ToNumber v

/-- The wrap of an integer to a signed 32-bit integer: the last step of the
abstract operation `ToInt32`. -/
def ToInt32 (x : Int) : Int := (x + 2147483648) % 4294967296 - 2147483648

/-- The integer a primitive value denotes in a bitwise operator, before the
wrap to 32 bits: `ToNumber`, then rounding toward zero; `NaN` and the
infinities give 0. -/
def ToIntegerOrZero (v : JSValue) : Int :=
  match ToNumber v with
  | .number q => ratTrunc q
  | _ => 0

/-- The operator `a & b` on integers: both operands are wrapped to 32 bits. -/
def int32And (a b : Int) : Int := Int.land (ToInt32 a) (ToInt32 b)

/-- The operator `a | b` on integers. -/
def int32Or (a b : Int) : Int := Int.lor (ToInt32 a) (ToInt32 b)

/-- The operator `a ^ b` on integers. -/
def int32Xor (a b : Int) : Int := Int.xor (ToInt32 a) (ToInt32 b)

/-- The operator `a << n` on integers: the shift count is `n` modulo 32 and the
result is wrapped to 32 bits. -/
def int32Shl (a n : Int) : Int := ToInt32 (ToInt32 a * 2 ^ (ToInt32 n % 32).toNat)

/-- The operator `a >> n` on integers: the sign-propagating shift of the
32-bit value by `n` modulo 32. -/
def int32Shr (a n : Int) : Int := ToInt32 a / 2 ^ (ToInt32 n % 32).toNat

/-- The operator `~a` on integers. -/
def int32Not (a : Int) : Int := -(ToInt32 a) - 1

/-- The JavaScript operator `a & b` on primitive values. -/
def jsBitAnd (a b : JSValue) : JSValue :=
  JSValue.number (int32And (ToIntegerOrZero a) (ToIntegerOrZero b))

/-- The JavaScript operator `a | b` on primitive values. -/
def jsBitOr (a b : JSValue) : JSValue :=
  JSValue.number (int32Or (ToIntegerOrZero a) (ToIntegerOrZero b))

/-- The JavaScript operator `a ^ b` on primitive values. -/
def jsBitXor (a b : JSValue) : JSValue :=
  JSValue.number (int32Xor (ToIntegerOrZero a) (ToIntegerOrZero b))

/-- The JavaScript operator `a << b` on primitive values. -/
def jsShl (a b : JSValue) : JSValue :=
  JSValue.number (int32Shl (ToIntegerOrZero a) (ToIntegerOrZero b))

/-- The JavaScript operator `a >> b` on primitive values. -/
def jsShr (a b : JSValue) : JSValue :=
  JSValue.number (int32Shr (ToIntegerOrZero a) (ToIntegerOrZero b))

/-- The JavaScript operator `~a` on a primitive value. -/
def jsBitNot (a : JSValue) : JSValue :=
  JSValue.number (int32Not (ToIntegerOrZero a))

/-- The message of the error the unary cases throw. -/
def unaryOperationError (v : JSValue) : String :=
  "Can\x27t perform unary operation on " ++ ToString v

/-- The `throw` of the cases whose message reads both operands from the
constant pool, as `k[i.B].value` and `k[i.C].value`: reading `value` of an
absent constant throws a `TypeError` instead. -/
def throwBinaryOnConstants (L : lua_State) (k : List TValue) (i : Instruction) :
    lua_State × Completion Control :=
  match (constGet k i.B).value, (constGet k i.C).value with
  | some kB, some kC => (L, Completion.thrown (binaryOperationError kB kC))
  | _, _ => (L, Completion.thrown "TypeError")

/-- The `OP_SUB` case of `execute`. The message of its error reads the second
operand as `k[i.C].value`. -/
def OP_SUB (L : lua_State) (k : List TValue) (base : Nat) (i : Instruction) :
    lua_State × Completion Control :=
  let ra := RA base i
  let op1 := RKB L base k i
  let op2 := RKC L base k i
  match tonumber op1, tonumber op2 with
  | Completion.normal numberop1, Completion.normal numberop2 =>
    match op1.type, op2.type, op1.value, op2.value with
    | some type1, some type2, some value1, some value2 =>
      if type1 = CT.LUA_TNUMINT ∧ type2 = CT.LUA_TNUMINT then
        ({ L with stack := stackSet L.stack ra (TValue.mk CT.LUA_TNUMINT (jsSub value1 value2)) },
          Completion.normal Control.break_switch)
      else if numberop1.isSome ∧ numberop2.isSome then
        ({ L with stack := stackSet L.stack ra (TValue.mk CT.LUA_TNUMFLT (jsSub value1 value2)) },
          Completion.normal Control.break_switch)
      else
        match (constGet k i.C).value with
        | some kC => (L, Completion.thrown (binaryOperationError value1 kC))
        | none => (L, Completion.thrown "TypeError")
    | _, _, _, _ => (L, Completion.thrown "TypeError")
  | _, _ => (L, Completion.thrown "TypeError")

/-- The `OP_MOD` case of `execute`. On its second branch the dividend is read
as `k[i.B].value`. -/
def OP_MOD (L : lua_State) (k : List TValue) (base : Nat) (i : Instruction) :
    lua_State × Completion Control :=
  let ra := RA base i
  let op1 := RKB L base k i
  let op2 := RKC L base k i
  match tonumber op1, tonumber op2 with
  | Completion.normal numberop1, Completion.normal numberop2 =>
    match op1.type, op2.type, op1.value, op2.value with
    | some type1, some type2, some value1, some value2 =>
      if type1 = CT.LUA_TNUMINT ∧ type2 = CT.LUA_TNUMINT then
        ({ L with stack := stackSet L.stack ra (TValue.mk CT.LUA_TNUMINT (jsMod value1 value2)) },
          Completion.normal Control.break_switch)
      else if numberop1.isSome ∧ numberop2.isSome then
        match (constGet k i.B).value with
        | none => (L, Completion.thrown "TypeError")
        | some kB =>
          ({ L with stack := stackSet L.stack ra (TValue.mk CT.LUA_TNUMFLT (jsMod kB value2)) },
            Completion.normal Control.break_switch)
      else throwBinaryOnConstants L k i
    | _, _, _, _ => (L, Completion.thrown "TypeError")
  | _, _ => (L, Completion.thrown "TypeError")

/-- The `OP_POW` case of `execute`. `Math_pow` stands for the built-in
`Math.pow`, whose results are not rational numbers in general. -/
def OP_POW (Math_pow : JSValue → JSValue → JSValue) (L : lua_State) (k : List TValue)
    (base : Nat) (i : Instruction) : lua_State × Completion Control :=
  let ra := RA base i
  let op1 := RKB L base k i
  let op2 := RKC L base k i
  match tonumber op1, tonumber op2 with
  | Completion.normal numberop1, Completion.normal numberop2 =>
    if numberop1.isSome ∧ numberop2.isSome then
      match op1.value, op2.value with
      | some value1, some value2 =>
        ({ L with
            stack := stackSet L.stack ra (TValue.mk CT.LUA_TNUMFLT (Math_pow value1 value2)) },
          Completion.normal Control.break_switch)
      | _, _ => (L, Completion.thrown "TypeError")
    else throwBinaryOnConstants L k i
  | _, _ => (L, Completion.thrown "TypeError")

/-- The `OP_DIV` case of `execute`. The dividend is read as `k[i.B].value`. -/
def OP_DIV (L : lua_State) (k : List TValue) (base : Nat) (i : Instruction) :
    lua_State × Completion Control :=
  let ra := RA base i
  let op1 := RKB L base k i
  let op2 := RKC L base k i
  match tonumber op1, tonumber op2 with
  | Completion.normal numberop1, Completion.normal numberop2 =>
    if numberop1.isSome ∧ numberop2.isSome then
      match (constGet k i.B).value, op2.value with
      | some kB, some value2 =>
        ({ L with stack := stackSet L.stack ra (TValue.mk CT.LUA_TNUMFLT (jsDiv kB value2)) },
          Completion.normal Control.break_switch)
      | _, _ => (L, Completion.thrown "TypeError")
    else throwBinaryOnConstants L k i
  | _, _ => (L, Completion.thrown "TypeError")

/-- The `OP_IDIV` case of `execute`. -/
def OP_IDIV (L : lua_State) (k : List TValue) (base : Nat) (i : Instruction) :
    lua_State × Completion Control :=
  let ra := RA base i
  let op1 := RKB L base k i
  let op2 := RKC L base k i
  match tonumber op1, tonumber op2 with
  | Completion.normal numberop1, Completion.normal numberop2 =>
    match op1.type, op2.type, op1.value, op2.value with
    | some type1, some type2, some value1, some value2 =>
      if type1 = CT.LUA_TNUMINT ∧ type2 = CT.LUA_TNUMINT then
        ({ L with
            stack := stackSet L.stack ra
              (TValue.mk CT.LUA_TNUMINT (Math_floor (jsDiv value1 value2))) },
          Completion.normal Control.break_switch)
      else if numberop1.isSome ∧ numberop2.isSome then
        ({ L with
            stack := stackSet L.stack ra
              (TValue.mk CT.LUA_TNUMFLT (Math_floor (jsDiv value1 value2))) },
          Completion.normal Control.break_switch)
      else throwBinaryOnConstants L k i
    | _, _, _, _ => (L, Completion.thrown "TypeError")
  | _, _ => (L, Completion.thrown "TypeError")

/-- The five cases `OP_BAND`, `OP_BOR`, `OP_BXOR`, `OP_SHL`, `OP_SHR` of
`execute` have the same body but for the JavaScript operator `op` applied to
the two payloads. -/
def bitwiseCase (op : JSValue → JSValue → JSValue) (L : lua_State) (k : List TValue)
    (base : Nat) (i : Instruction) : lua_State × Completion Control :=
  let ra := RA base i
  let op1 := RKB L base k i
  let op2 := RKC L base k i
  match tonumber op1, tonumber op2 with
  | Completion.normal _, Completion.normal _ =>
    match op1.type, op2.type, op1.value, op2.value with
    | some type1, some type2, some value1, some value2 =>
      if type1 = CT.LUA_TNUMINT ∧ type2 = CT.LUA_TNUMINT then
        ({ L with stack := stackSet L.stack ra (TValue.mk CT.LUA_TNUMINT (op value1 value2)) },
          Completion.normal Control.break_switch)
      else throwBinaryOnConstants L k i
    | _, _, _, _ => (L, Completion.thrown "TypeError")
  | _, _ => (L, Completion.thrown "TypeError")

/-- The `OP_BAND` case of `execute`. -/
def OP_BAND (L : lua_State) (k : List TValue) (base : Nat) (i : Instruction) :
    lua_State × Completion Control :=
  bitwiseCase jsBitAnd L k base i

/-- The `OP_BOR` case of `execute`. -/
def OP_BOR (L : lua_State) (k : List TValue) (base : Nat) (i : Instruction) :
    lua_State × Completion Control :=
  bitwiseCase jsBitOr L k base i

/-- The `OP_BXOR` case of `execute`. -/
def OP_BXOR (L : lua_State) (k : List TValue) (base : Nat) (i : Instruction) :
    lua_State × Completion Control :=
  bitwiseCase jsBitXor L k base i

/-- The `OP_SHL` case of `execute`. -/
def OP_SHL (L : lua_State) (k : List TValue) (base : Nat) (i : Instruction) :
    lua_State × Completion Control :=
  bitwiseCase jsShl L k base i

/-- The `OP_SHR` case of `execute`. -/
def OP_SHR (L : lua_State) (k : List TValue) (base : Nat) (i : Instruction) :
    lua_State × Completion Control :=
  bitwiseCase jsShr L k base i

/-- The `OP_UNM` case of `execute`: the operand is the register `R[B]`. -/
def OP_UNM (L : lua_State) (base : Nat) (i : Instruction) : lua_State × Completion Control :=
  let ra := RA base i
  let op := stackGet L.stack (base + i.B)
  match tonumber op with
  | Completion.normal numberop =>
    match op.type, op.value with
    | some type, some value =>
      if type = CT.LUA_TNUMINT then
        ({ L with stack := stackSet L.stack ra (TValue.mk CT.LUA_TNUMINT (jsNeg value)) },
          Completion.normal Control.break_switch)
      else if numberop.isSome then
        ({ L with stack := stackSet L.stack ra (TValue.mk CT.LUA_TNUMFLT (jsNeg value)) },
          Completion.normal Control.break_switch)
      else (L, Completion.thrown (unaryOperationError value))
    | _, _ => (L, Completion.thrown "TypeError")
  | Completion.thrown e => (L, Completion.thrown e)

/-- The `OP_BNOT` case of `execute`: the operand is the register `R[B]`. -/
def OP_BNOT (L : lua_State) (base : Nat) (i : Instruction) : lua_State × Completion Control :=
  let ra := RA base i
  let op := stackGet L.stack (base + i.B)
  match tonumber op with
  | Completion.normal _ =>
    match op.type, op.value with
    | some type, some value =>
      if type = CT.LUA_TNUMINT then
        ({ L with stack := stackSet L.stack ra (TValue.mk CT.LUA_TNUMINT (jsBitNot value)) },
          Completion.normal Control.break_switch)
      else (L, Completion.thrown (unaryOperationError value))
    | _, _ => (L, Completion.thrown "TypeError")
  | Completion.thrown e => (L, Completion.thrown e)

/-- The `OP_NOT` case of `execute`: `R[A]` receives the boolean
`!!((op.type === LUA_TBOOLEAN && !op.value) || op.type === LUA_TNIL)`, `op`
being the register `R[B]`; reading `op.type` throws when the register holds
`undefined`. -/
def OP_NOT (L : lua_State) (base : Nat) (i : Instruction) : lua_State × Completion Control :=
  let ra := RA base i
  let op := stackGet L.stack (base + i.B)
  match op.type, op.value with
  | some type, some value =>
    let b : Bool := (decide (type = CT.LUA_TBOOLEAN) && !value.truthy) ||
      decide (type = CT.LUA_TNIL)
    ({ L with stack := stackSet L.stack ra (TValue.mk CT.LUA_TBOOLEAN (JSValue.bool b)) },
      Completion.normal Control.break_switch)
  | _, _ => (L, Completion.thrown "TypeError")

/-! ## The dispatch loop -/

/-- The names of the instructions: the strings that `execute` compares
`OC.OpCodes[i.opcode]` with, one for each `case` of its `switch`. -/
inductive OpCode where
  | OP_MOVE | OP_LOADK | OP_LOADKX | OP_LOADBOOL | OP_LOADNIL | OP_GETUPVAL | OP_SETUPVAL
  | OP_GETTABUP | OP_SETTABUP | OP_GETTABLE | OP_SETTABLE | OP_NEWTABLE | OP_SELF
  | OP_ADD | OP_SUB | OP_MUL | OP_MOD | OP_POW | OP_DIV | OP_IDIV
  | OP_BAND | OP_BOR | OP_BXOR | OP_SHL | OP_SHR | OP_UNM | OP_BNOT | OP_NOT
  | OP_LEN | OP_CONCAT | OP_JMP | OP_EQ | OP_LT | OP_LE | OP_TEST | OP_TESTSET
  | OP_CALL | OP_TAILCALL | OP_RETURN | OP_FORLOOP | OP_FORPREP | OP_TFORCALL
  | OP_TFORLOOP | OP_SETLIST | OP_CLOSURE | OP_VARARG | OP_EXTRAARG
deriving DecidableEq, Repr

/-- Modelled from the spec: the value `new Table()` (`lobject.js` is not among
the sources): a fresh, empty table. `lvm.js` stores it and never reads its
contents. -/
def newTable : TValue := TValue.mk CT.LUA_TTABLE JSValue.undefined

/-- The statement `ci.pcOff++` on the frame `ci`. -/
def advancePc (L : lua_State) (ci : Nat) : lua_State :=
  match L.cis[ci]? with
  | none => L
  | some fr => { L with cis := L.cis.set ci { fr with pcOff := fr.pcOff + 1 } }

/-- The `OP_LOADKX` case of `execute`, run in the frame `ci`: the next
instruction must be an `OP_EXTRAARG`, whose field `Ax` indexes the constant;
it is skipped. `OpCodes` is the table `OC.OpCodes`. -/
def OP_LOADKX (OpCodes : Nat → Option OpCode) (L : lua_State) (ci : Nat) (k : List TValue)
    (base : Nat) (i : Instruction) : lua_State × Completion Control :=
  let ra := RA base i
  match L.cis[ci]? with
  | none => (L, Completion.thrown "TypeError")
  | some fr =>
    match fr.savedpc[fr.pcOff]? with
    | none => (L, Completion.thrown "TypeError")
    | some extra =>
      if OpCodes extra.opcode = some OpCode.OP_EXTRAARG then
        let L := advancePc L ci
        ({ L with stack := stackSet L.stack ra (constGet k extra.Ax) },
          Completion.normal Control.break_switch)
      else (L, Completion.thrown "AssertionError")

/-- The `OP_LOADBOOL` case of `execute`, run in the frame `ci`. -/
def OP_LOADBOOL (L : lua_State) (ci base : Nat) (i : Instruction) :
    lua_State × Completion Control :=
  let ra := RA base i
  let v := TValue.mk CT.LUA_TBOOLEAN (JSValue.bool (decide (i.B ≠ 0)))
  let L := { L with stack := stackSet L.stack ra v }
  let L := if i.C ≠ 0 then advancePc L ci else L
  (L, Completion.normal Control.break_switch)

/-- The `OP_LOADNIL` case of `execute`: the loop
`for (let j = 0; j <= i.B; j++) L.stack[ra + j] = nil`. -/
def OP_LOADNIL (L : lua_State) (base : Nat) (i : Instruction) : lua_State × Completion Control :=
  let ra := RA base i
  ({ L with stack := forLoop 0 (i.B + 1) (fun j st => stackSet st (ra + j) nil) L.stack },
    Completion.normal Control.break_switch)

/-- One turn of the loop `for (;;)` of `execute`: the instruction at the saved
pc of the current frame is fetched, the pc is advanced, and the `case` of the
instruction is run. `OpCodes` is the table `OC.OpCodes` of `lopcodes.js`,
which is not among the sources, and `Math_pow` the built-in `Math.pow`. A
`case` with an empty body, and an opcode that names no `case`, leave the
`switch` at once. The result is `none` when the turn does not terminate. -/
def execute_step (OpCodes : Nat → Option OpCode) (Math_pow : JSValue → JSValue → JSValue)
    (L : lua_State) : Option (lua_State × Completion Control) :=
  match L.ci with
  | none => some (L, Completion.thrown "TypeError")
  | some ci =>
    match L.cis[ci]? with
    | none => some (L, Completion.thrown "TypeError")
    | some fr =>
      let cl := fr.func
      match cl.p with
      | none => some (L, Completion.thrown "TypeError")
      | some clp =>
        let k := clp.k
        let base := fr.base
        let L := advancePc L ci
        match fr.savedpc[fr.pcOff]? with
        | none => some (L, Completion.thrown "TypeError")
        | some i =>
          let ra := RA base i
          match OpCodes i.opcode with
          | some OpCode.OP_MOVE =>
            some ({ L with stack := stackSet L.stack ra (stackGet L.stack (base + i.B)) },
              Completion.normal Control.break_switch)
          | some OpCode.OP_LOADK =>
            some ({ L with stack := stackSet L.stack ra (constGet k i.Bx) },
              Completion.normal Control.break_switch)
          | some OpCode.OP_LOADKX => some (OP_LOADKX OpCodes L ci k base i)
          | some OpCode.OP_LOADBOOL => some (OP_LOADBOOL L ci base i)
          | some OpCode.OP_LOADNIL => some (OP_LOADNIL L base i)
          | some OpCode.OP_GETUPVAL => some (OP_GETUPVAL L cl base i)
          | some OpCode.OP_SETUPVAL => some (OP_SETUPVAL L cl base i)
          | some OpCode.OP_NEWTABLE =>
            some ({ L with stack := stackSet L.stack ra newTable },
              Completion.normal Control.break_switch)
          | some OpCode.OP_ADD => some (OP_ADD L k base i)
          | some OpCode.OP_SUB => some (OP_SUB L k base i)
          | some OpCode.OP_MUL => some (OP_MUL L k base i)
          | some OpCode.OP_MOD => some (OP_MOD L k base i)
          | some OpCode.OP_POW => some (OP_POW Math_pow L k base i)
          | some OpCode.OP_DIV => some (OP_DIV L k base i)
          | some OpCode.OP_IDIV => some (OP_IDIV L k base i)
          | some OpCode.OP_BAND => some (OP_BAND L k base i)
          | some OpCode.OP_BOR => some (OP_BOR L k base i)
          | some OpCode.OP_BXOR => some (OP_BXOR L k base i)
          | some OpCode.OP_SHL => some (OP_SHL L k base i)
          | some OpCode.OP_SHR => some (OP_SHR L k base i)
          | some OpCode.OP_UNM => some (OP_UNM L base i)
          | some OpCode.OP_BNOT => some (OP_BNOT L base i)
          | some OpCode.OP_NOT => some (OP_NOT L base i)
          | some OpCode.OP_CALL => some (OP_CALL L ci base i)
          | some OpCode.OP_TAILCALL => some (OP_TAILCALL L ci base i)
          | some OpCode.OP_RETURN => some (OP_RETURN L ci base i)
          | some OpCode.OP_CLOSURE => OP_CLOSURE L cl base i
          | some OpCode.OP_VARARG => some (OP_VARARG L ci cl base i)
          | _ => some (L, Completion.normal Control.break_switch)

/-- `execute()`: the loop `for (;;)`, each turn of which consumes one unit of
`fuel`. A `break` out of the `switch` and a `continue newframe` both start the
next turn; `return` ends the loop. The result is the state `execute` leaves
and how it ended, and `none` when it has not ended within the fuel. -/
def execute (OpCodes : Nat → Option OpCode) (Math_pow : JSValue → JSValue → JSValue) :
    Nat → lua_State → Option (lua_State × Completion Unit)
  | 0, _ => none
  | fuel + 1, L =>
    match execute_step OpCodes Math_pow L with
    | none => none
    | some (L, Completion.thrown e) => some (L, Completion.thrown e)
    | some (L, Completion.normal Control.return_execute) => some (L, Completion.normal ())
    | some (L, Completion.normal _) => execute OpCodes Math_pow fuel L

/-! ## `lutf8lib.js` -/

/-- The constant `MAXUNICODE`. -/
def MAXUNICODE : Int := 0x10FFFF

/-- `u_posrelat(pos, len)`. -/
def u_posrelat (pos : Int) (len : Nat) : Int :=
  if pos ≥ 0 then pos
  else if 0 - pos > (len : Int) then 0
  else (len : Int) + pos + 1

/-- The object `\x7b string, code \x7d` that `utf8_decode` returns. -/
structure Utf8Decoded where
  string : List Nat
  code : Int
deriving DecidableEq, Repr

/-- The loop `while (c & 0x40)` of `utf8_decode`, on the bytes after the ones
read so far: the values of `c`, `res` and `count` when the loop ends, or `none`
when it ends with `return null`. A byte read past the end of the array is
`undefined`, which the operator `&` takes as 0. -/
def utf8_decode_loop : List Nat → Int → Int → Nat → Option (Int × Int × Nat)
  | [], c, res, count =>
    if int32And c 0x40 ≠ 0 then none else some (c, res, count)
  | cc :: rest, c, res, count =>
    if int32And c 0x40 ≠ 0 then
      if int32And cc 0xC0 ≠ 0x80 then none
      else utf8_decode_loop rest (int32Shl c 1)
        (int32Or (int32Shl res 6) (int32And cc 0x3F)) (count + 1)
    else some (c, res, count)

/-- `utf8_decode(s)` on an array of bytes: `none` is `null`. On the empty array
`c` is `undefined`: the comparison `c < 0x80` is false and the bitwise
operators take it as 0. -/
def utf8_decode (s : List Nat) : Option Utf8Decoded :=
  let limits : List Int := [0xFF, 0x7F, 0x7FF, 0xFFFF]
  let ascii := match s.head? with
    | some c => decide (c < 0x80)
    | none => false
  let c : Int := ((s.head?.getD 0 : Nat) : Int)
  if ascii then some { string := s.drop 1, code := c }
  else
    match utf8_decode_loop (s.drop 1) c 0 0 with
    | none => none
    | some (c, res, count) =>
      let res := int32Or res (int32Shl (int32And c 0x7F) ((count * 5 : Nat) : Int))
      let tooSmall := match limits[count]? with
        | some limit => decide (res ≤ limit)
        | none => false
      if count > 3 ∨ res > MAXUNICODE ∨ tooSmall then none
      else some { string := (s.drop count).drop 1, code := res }

/-- What `utf8_decode` returns on an array whose first byte is not below
`0x80`, from what the loop returned: the part of `utf8_decode` after the
loop. -/
def utf8_decode_finish (s : List Nat) : Option (Int × Int × Nat) → Option Utf8Decoded
  | none => none
  | some (c, res, count) =>
    if count > 3 ∨ int32Or res (int32Shl (int32And c 0x7F) ((count * 5 : Nat) : Int)) > MAXUNICODE ∨
        (match ([0xFF, 0x7F, 0x7FF, 0xFFFF] : List Int)[count]? with
          | some limit =>
            decide (int32Or res (int32Shl (int32And c 0x7F) ((count * 5 : Nat) : Int)) ≤ limit)
          | none => false) = true then none
    else some { string := (s.drop count).drop 1,
                code := int32Or res (int32Shl (int32And c 0x7F) ((count * 5 : Nat) : Int)) }

/-- The shortest-form UTF-8 encoding of a code point, in 1 to 4 bytes: the
encoding that `utf8_decode` is compared with. It is not part of
`lutf8lib.js`. -/
def utf8_encode (cp : Nat) : List Nat :=
  if cp < 0x80 then [cp]
  else if cp < 0x800 then [0xC0 + cp / 64, 0x80 + cp % 64]
  else if cp < 0x10000 then [0xE0 + cp / 4096, 0x80 + cp / 64 % 64, 0x80 + cp % 64]
  else [0xF0 + cp / 262144, 0x80 + cp / 4096 % 64, 0x80 + cp / 64 % 64, 0x80 + cp % 64]

/-- `Number.MAX_SAFE_INTEGER`. -/
def MAX_SAFE_INTEGER : Int := 9007199254740991

/-- Modelled from the spec: `lauxlib.luaL_optinteger(L, arg, def)`
(`lauxlib.js` is not among the sources): the integer argument, or `def` when
the argument is absent. -/
def luaL_optinteger (arg : Option Int) (d : Int) : Int := arg.getD d

/-- The loop `for (s = s.slice(posi - 1); n < pose - posi;)` of `codepoint`,
given by the number `count` of turns left: `n` goes up by one each turn, so the
loop runs `pose - posi` times unless it ends with an error. `pushed` are the
integers pushed so far. -/
def codepoint_loop : Nat → List Nat → List Int → Nat → List Int × Completion Nat
  | 0, _, pushed, n => (pushed, Completion.normal n)
  | count + 1, s, pushed, n =>
    match utf8_decode s with
    | none => (pushed, Completion.thrown "invalid UTF-8 code")
    | some dec => codepoint_loop count dec.string (pushed ++ [dec.code]) (n + 1)

/-- `codepoint(L)`, the function `utf8.codepoint`, on its arguments: the
bytes `s` of the string argument and the optional integers `i` and `j`. The
result is the list of the integers it pushes, in order, and the count it
returns. Modelled from the spec: the calls into `lauxlib.js` and `lapi.js`,
which are not among the sources: `luaL_argcheck` and `luaL_error` raise an
error with the given message, `lua_pushinteger` pushes, and `luaL_checkstack`
raises an error when the stack cannot grow by `n` slots, which
`canGrow n` decides. -/
def codepoint (canGrow : Int → Bool) (s : List Nat) (i j : Option Int) :
    List Int × Completion Nat :=
  let posi := u_posrelat (luaL_optinteger i 1) s.length
  let pose := u_posrelat (luaL_optinteger j posi) s.length
  if ¬ posi ≥ 1 then ([], Completion.thrown "out of range")
  else if ¬ pose ≤ (s.length : Int) then ([], Completion.thrown "out of range")
  else if posi > pose then ([], Completion.normal 0)
  else if pose - posi ≥ MAX_SAFE_INTEGER then ([], Completion.thrown "string slice too long")
  else
    let n := (pose - posi) + 1
    if ¬ canGrow n then ([], Completion.thrown "string slice too long")
    else codepoint_loop (pose - posi).toNat (s.drop (posi - 1).toNat) [] 0

/-! ## `lbaselib.js` -/

/-- Modelled from the spec: the argument at index `idx` of a native function
(`lapi.js` is not among the sources): the arguments of the call are the stack
slots 1 to `lua_gettop(L)`; an index past them names no value. -/
def lua_arg (args : List TValue) (idx : Nat) : TValue :=
  if idx = 0 then TValue.undefined else stackGet args (idx - 1)

/-- Modelled from the spec: `lapi.lua_gettop(L)` (`lapi.js` is not among the
sources), the number of arguments of the call. -/
def lua_gettop (args : List TValue) : Int := args.length

/-- Modelled from the spec: `lapi.lua_type(L, idx) === CT.LUA_TSTRING`
(`lapi.js` is not among the sources): whether the basic type of the argument
is string, which covers both string tags. -/
def lua_type_is_string (args : List TValue) (idx : Nat) : Bool :=
  match (lua_arg args idx).type with
  | some CT.LUA_TSHRSTR => true
  | some CT.LUA_TLNGSTR => true
  | _ => false

/-- Modelled from the spec: `lapi.lua_tostring(L, idx)` (`lapi.js` is not among
the sources) on a string argument: its contents as a JavaScript string. -/
def lua_tostring (args : List TValue) (idx : Nat) : Option String :=
  match (lua_arg args idx).value with
  | some (JSValue.string s) => some s
  | _ => none

/-- Modelled from the spec: `lauxlib.luaL_checkinteger(L, idx)` (`lauxlib.js`
is not among the sources): the integer an argument with a number tag and an
integral payload denotes, and an argument error otherwise. -/
def luaL_checkinteger (args : List TValue) (idx : Nat) : Completion Int :=
  match lua_arg args idx with
  | TValue.mk CT.LUA_TNUMINT (JSValue.number q) =>
    if q.den = 1 then Completion.normal q.num else Completion.thrown "number expected"
  | TValue.mk CT.LUA_TNUMFLT (JSValue.number q) =>
    if q.den = 1 then Completion.normal q.num else Completion.thrown "number expected"
  | _ => Completion.thrown "number expected"

/-- `luaB_select(L)`, the function `select`, on the arguments `args` of the
call (the selector first): the values it pushes and the count of results it
returns. `lua_pushinteger` pushes an integer-tagged value and `luaL_argcheck`
raises an error with the given message. -/
def luaB_select (args : List TValue) : List TValue × Completion Int :=
  let n := lua_gettop args
  if lua_type_is_string args 1 ∧ lua_tostring args 1 = some "#" then
    ([TValue.mk CT.LUA_TNUMINT (JSValue.number ((n - 1 : Int) : Rat))], Completion.normal 1)
  else
    match luaL_checkinteger args 1 with
    | Completion.thrown e => ([], Completion.thrown e)
    | Completion.normal i =>
      let i := if i < 0 then n + i else if i > n then n else i
      if ¬ 1 ≤ i then ([], Completion.thrown "index out of range")
      else ([], Completion.normal (n - i))

/-- Modelled from the spec: the results of a native function that returned the
count `nret` are the `nret` values on top of the stack, which holds the
arguments of the call followed by the values the function pushed. -/
def nativeResults (args pushed : List TValue) (nret : Nat) : List TValue :=
  (args ++ pushed).drop ((args ++ pushed).length - nret)

/-! ## Sample states used by the concrete evaluations -/

/-- The integer-tagged value `n`. -/
def int (n : Int) : TValue := TValue.mk CT.LUA_TNUMINT (JSValue.number n)

/-- A thread whose stack holds the three values 10, 20, 30, with top 3 and no
frame. -/
def exStack3 : lua_State :=
  { stack := [int 10, int 20, int 30], top := 3, ci := none, ciOff := 0, cis := [] }

/-- A prototype that is not vararg, with two parameters and three stack
slots. -/
def exProto : Proto :=
  Proto.mk [] [⟨0, 0, 0, 0, 0, 0⟩] [] [] 2 false 3

/-- The frame of the caller in the sample states, with no successor. -/
def exFrame : CallInfo :=
  { CallInfo.new 0 with top := 4, base := 0 }

/-- A thread about to call the closure in slot 0 with the single argument 7:
its current frame has no successor record. -/
def exCall : lua_State :=
  { stack := [TValue.LClosure exProto [], int 7], top := 2, ci := some 0, ciOff := 0,
    cis := [exFrame] }

/-- The same thread after an earlier call from the current frame has returned:
the record of that call is still linked as the successor of the current
frame. -/
def exCallAgain : lua_State :=
  { stack := [TValue.LClosure exProto [], int 7], top := 2, ci := some 0, ciOff := 0,
    cis := [{ exFrame with next := some 1 },
            { CallInfo.new 0 with previous := some 0, func := TValue.LClosure exProto [],
                                  base := 1, top := 4, nresults := 1 }] }

/-- A thread whose slot 0 holds the nil value, which is not callable. -/
def exCallNil : lua_State :=
  { stack := [nil, int 7], top := 2, ci := some 0, ciOff := 0, cis := [exFrame] }

/-- The instruction `CALL 0 2 2`: call `R[0]` with one argument, one result
wanted (the opcode number does not matter to `OP_CALL`). -/
def exCallInstr : Instruction :=
  { opcode := 36, A := 0, B := 2, C := 2, Bx := 0, Ax := 0 }

/-- A thread running a callee: frame 1, called from frame 0 through slot 0
with one result wanted, holds its results 20, 30 from slot 1 on. -/
def exReturn : lua_State :=
  { stack := [int 10, int 20, int 30], top := 3, ci := some 1, ciOff := 1,
    cis := [{ exFrame with next := some 1 },
            { CallInfo.new 0 with previous := some 0, base := 1, top := 3, nresults := 1 }] }

/-- The float-tagged value `q`. -/
def flt (q : Rat) : TValue := TValue.mk CT.LUA_TNUMFLT (JSValue.number q)

/-- The string-tagged value `s`. -/
def str (s : String) : TValue := TValue.mk CT.LUA_TSHRSTR (JSValue.string s)

/-- A thread whose frame has base 0 and whose registers 0 and 1 hold `a` and
`b`. -/
def exArith (a b : TValue) : lua_State :=
  { stack := [a, b], top := 3, ci := some 0, ciOff := 0, cis := [exFrame] }

/-- An arithmetic instruction `R[2] := R[0] op R[1]`: both operand fields name
registers (the opcode number does not matter to the cases). -/
def exArithInstr : Instruction :=
  { opcode := 13, A := 2, B := 0, C := 1, Bx := 0, Ax := 0 }

/-- The stack indices of the cells of the list of open upvalues that starts
at `pp`, in list order; `fuel` bounds the walk. -/
def openupvalIndices (uvs : List UpVal) : Nat → Option Nat → List Nat
  | 0, _ => []
  | fuel + 1, pp =>
    match pp with
    | none => []
    | some r =>
      match uvs[r]? with
      | none => []
      | some p => p.v :: openupvalIndices uvs fuel p.next

/-- A nested prototype with one upvalue, captured from register 0 of the
enclosing frame. -/
def exInnerProto : Proto :=
  Proto.mk [] [] [] [{ instack := true, idx := 0 }] 0 false 2

/-- A prototype with two nested prototypes, both capturing its register 0. -/
def exOuterProto : Proto :=
  Proto.mk [] [] [exInnerProto, exInnerProto] [] 0 false 4

/-- A closure of `exOuterProto`. -/
def exOuter : TValue := TValue.LClosure exOuterProto []

/-- An open upvalue cell for stack index `v`, as `findupval` creates it after
a search that ended at the end of the list. -/
def exCell (v : Nat) : UpVal := { v := v, refcount := 0, next := none, touched := true }

/-- A thread running `exOuter` in a frame with base 1: register 0 (stack index
1) holds 5, and no upvalue is open. -/
def exUpval : lua_State :=
  { stack := [exOuter, int 5], top := 5, ci := some 0, ciOff := 0,
    cis := [{ exFrame with func := exOuter, base := 1, top := 5 }] }

/-- The instruction `CLOSURE 1 0`: `R[1] :=` closure of nested prototype 0. -/
def exClosureA : Instruction :=
  { opcode := 44, A := 1, B := 0, C := 0, Bx := 0, Ax := 0 }

/-- The instruction `CLOSURE 2 1`: `R[2] :=` closure of nested prototype 1. -/
def exClosureB : Instruction :=
  { opcode := 44, A := 2, B := 0, C := 0, Bx := 1, Ax := 0 }

/-- The thread `exUpval` after `CLOSURE 1 0`. -/
def exUpvalA : lua_State :=
  { exUpval with
    stack := [exOuter, int 5, TValue.LClosure exInnerProto [some 0]], uvs := [exCell 1] }

/-- A thread whose list of open upvalues has the single cell for stack index
5. -/
def exOpen5 : lua_State :=
  { exUpval with openupval := some 0, uvs := [exCell 5] }

/-- A thread running a callee in frame 1 (function slot 1, base 2), called from
frame 0 with no result wanted: the callee's register 0 (stack index 2) holds 5
and was captured by the closure in stack index 3, through the upvalue cell
0. -/
def exCaptured : lua_State :=
  { stack := [exOuter, exOuter, int 5, TValue.LClosure exInnerProto [some 0]],
    top := 4, ci := some 1, ciOff := 1,
    cis := [{ exFrame with func := exOuter, base := 1, top := 6, next := some 1 },
            { CallInfo.new 1 with func := exOuter, previous := some 0, base := 2, top := 6,
                                  nresults := 0 }],
    uvs := [exCell 2] }

/-- The instruction `RETURN 0 1`: return no value. -/
def exReturnInstr : Instruction :=
  { opcode := 38, A := 0, B := 1, C := 0, Bx := 0, Ax := 0 }

/-- The instruction `GETUPVAL 4 0`: `R[4] :=` upvalue 0. -/
def exGetupvalInstr : Instruction :=
  { opcode := 5, A := 4, B := 0, C := 0, Bx := 0, Ax := 0 }

/-- The thread `exUpvalA` after `CLOSURE 2 1`. -/
def exUpvalAB : lua_State :=
  { exUpval with
    stack := [exOuter, int 5, TValue.LClosure exInnerProto [some 0],
              TValue.LClosure exInnerProto [some 1]],
    uvs := [exCell 1, exCell 1] }

/-- The thread `exUpvalAB` later on, the value 42 being in stack index 4. -/
def exUpvalRun : lua_State :=
  { exUpvalAB with stack := exUpvalAB.stack ++ [int 42] }

/-- The instruction `SETUPVAL 0 0`: upvalue 0 `:= R[0]`. -/
def exSetupvalInstr : Instruction :=
  { opcode := 9, A := 0, B := 0, C := 0, Bx := 0, Ax := 0 }

/-- A thread running the closure of `exProto` in frame 0 (function slot 0,
base 1), about to tail-call the closure in register 0 with the argument in
register 1, which is that closure again. -/
def exTail : lua_State :=
  { stack := [TValue.LClosure exProto [], TValue.LClosure exProto [],
              TValue.LClosure exProto []],
    top := 3, ci := some 0, ciOff := 0,
    cis := [{ exFrame with func := TValue.LClosure exProto [], base := 1, top := 4 }] }

/-- The instruction `TAILCALL 0 2 0`: tail-call `R[0]` with one argument. -/
def exTailInstr : Instruction :=
  { opcode := 37, A := 0, B := 2, C := 0, Bx := 0, Ax := 0 }

/-- A vararg prototype with one fixed parameter and four stack slots. -/
def exVarargProto : Proto :=
  Proto.mk [] [] [] [] 1 true 4

/-- A thread about to call the vararg closure in slot 0 with the three
arguments 10, 20, 30. -/
def exVarargCall : lua_State :=
  { stack := [TValue.LClosure exVarargProto [], int 10, int 20, int 30], top := 4,
    ci := some 0, ciOff := 0, cis := [exFrame] }

/-- The instruction `VARARG 1 0`: `R[1], ... :=` all variable arguments. -/
def exVarargInstr : Instruction :=
  { opcode := 45, A := 1, B := 0, C := 0, Bx := 0, Ax := 0 }

/-- A native function in slot 0 (tag `LUA_TLCF`) with the arguments `"#"`, 1,
2, 3 above it, in a frame with base 0. -/
def exSelectCall : lua_State :=
  { stack := [TValue.mk CT.LUA_TLCF JSValue.undefined, str "#", int 1, int 2, int 3],
    top := 5, ci := some 0, ciOff := 0, cis := [exFrame] }

/-- The instruction `CALL R0` with 4 arguments (`B = 5`) and all results
wanted (`C = 0`). -/
def exSelectCallInstr : Instruction :=
  { opcode := 36, A := 0, B := 5, C := 0, Bx := 0, Ax := 0 }

/-- Modelled from the spec: a table `OC.OpCodes` for the sample runs
(`lopcodes.js` is not among the sources): the instruction names in the
numbering of Lua 5.3. -/
def exOpCodes (n : Nat) : Option OpCode :=
  [OpCode.OP_MOVE, OpCode.OP_LOADK, OpCode.OP_LOADKX, OpCode.OP_LOADBOOL, OpCode.OP_LOADNIL,
    OpCode.OP_GETUPVAL, OpCode.OP_GETTABUP, OpCode.OP_GETTABLE, OpCode.OP_SETTABUP,
    OpCode.OP_SETUPVAL, OpCode.OP_SETTABLE, OpCode.OP_NEWTABLE, OpCode.OP_SELF,
    OpCode.OP_ADD, OpCode.OP_SUB, OpCode.OP_MUL, OpCode.OP_MOD, OpCode.OP_POW, OpCode.OP_DIV,
    OpCode.OP_IDIV, OpCode.OP_BAND, OpCode.OP_BOR, OpCode.OP_BXOR, OpCode.OP_SHL,
    OpCode.OP_SHR, OpCode.OP_UNM, OpCode.OP_BNOT, OpCode.OP_NOT, OpCode.OP_LEN,
    OpCode.OP_CONCAT, OpCode.OP_JMP, OpCode.OP_EQ, OpCode.OP_LT, OpCode.OP_LE, OpCode.OP_TEST,
    OpCode.OP_TESTSET, OpCode.OP_CALL, OpCode.OP_TAILCALL, OpCode.OP_RETURN,
    OpCode.OP_FORLOOP, OpCode.OP_FORPREP, OpCode.OP_TFORCALL, OpCode.OP_TFORLOOP,
    OpCode.OP_SETLIST, OpCode.OP_CLOSURE, OpCode.OP_VARARG, OpCode.OP_EXTRAARG][n]?

/-- A stand-in for `Math.pow` in the sample runs, none of which reaches it. -/
def exMathPow (_ _ : JSValue) : JSValue := JSValue.nan

/-- A thread running, as its bottom frame, a closure with the constants `k`
and the code `code`: the closure is in slot 0, the registers `regs` follow
it from the base 1 on, and `nresults` results are wanted. -/
def exRun (k : List TValue) (code : List Instruction) (regs : List TValue) (nresults : Int) :
    lua_State :=
  { stack := TValue.LClosure (Proto.mk k code [] [] 2 false 3) [] :: regs, top := 4,
    ci := some 0, ciOff := 0,
    cis := [{ func := TValue.LClosure (Proto.mk k code [] [] 2 false 3) [], funcOff := 0,
              top := 4, previous := none, next := none, nresults := nresults, base := 1,
              savedpc := code, pcOff := 0 }] }

/-- The instruction `BAND R2 := R0 & R1`. -/
def exBandInstr : Instruction :=
  { opcode := 20, A := 2, B := 0, C := 1, Bx := 0, Ax := 0 }

/-- The instruction `RETURN R2` with one value (`B = 2`). -/
def exReturnOneInstr : Instruction :=
  { opcode := 38, A := 2, B := 2, C := 0, Bx := 0, Ax := 0 }

/-- A unary instruction `R[2] := op R[b]`. -/
def exUnaryInstr (b : Nat) : Instruction :=
  { opcode := 27, A := 2, B := b, C := 0, Bx := 0, Ax := 0 }

/-- The instruction `LOADK R0 := K0`. -/
def exLoadkInstr : Instruction :=
  { opcode := 1, A := 0, B := 0, C := 0, Bx := 0, Ax := 0 }

/-- The prototype of a function `g` with one parameter, two stack slots, the
constant 42 and the code `LOADK R0 := K0`. -/
def exCalleeProto : Proto :=
  Proto.mk [int 42] [exLoadkInstr] [] [] 1 false 2

/-- The prototype of a function `f` with the constant 7, whose code is the
tail call `TAILCALL R0` with one argument. -/
def exCallerProto : Proto :=
  Proto.mk [int 7] [exTailInstr] [] [] 0 false 3

/-- A thread running `f` in frame 0 (function slot 0, base 1), about to
tail-call `g`, which is in register 0, with the argument 5 in register 1. -/
def exTailFG : lua_State :=
  { stack := [TValue.LClosure exCallerProto [], TValue.LClosure exCalleeProto [], int 5],
    top := 3, ci := some 0, ciOff := 0,
    cis := [{ exFrame with func := TValue.LClosure exCallerProto [], base := 1, top := 4,
                           savedpc := [exTailInstr], pcOff := 1 }] }

/-! ## The stack as an array -/

theorem stackGet_stackSet (s : List TValue) (i : Nat) (v : TValue) (j : Nat) :
    stackGet (stackSet s i v) j = if j = i then v else stackGet s j := by
  unfold stackGet stackSet
  by_cases h : i < s.length
  · simp only [h, if_true, List.getD_eq_getElem?_getD, List.getElem?_set]
    by_cases hj : j = i
    · subst hj; simp [h]
    · have : i ≠ j := fun e => hj e.symm
      simp [hj, this]
  · simp only [h, if_false, List.getD_eq_getElem?_getD]
    by_cases hj : j = i
    · subst hj
      have hl : (s ++ List.replicate (j - s.length) TValue.undefined).length = j := by
        simp; omega
      rw [List.getElem?_append_right (by omega)]
      simp [hl]
    · simp only [hj, if_false]
      by_cases hjs : j < s.length
      · rw [List.append_assoc, List.getElem?_append_left hjs]
      · rw [List.getElem?_eq_none (l := s) (by omega)]
        by_cases hji : j < i
        · rw [List.getElem?_append_left (by simp; omega), List.getElem?_append_right (by omega)]
          rw [List.getElem?_replicate]
          split <;> rfl
        · rw [List.getElem?_eq_none (by simp; omega)]

/-- The copying loop of `moveresults`, started at `i` for `count` iterations:
when no slot is written before it is read, the slots `res + i ..` receive the
values that were at `firstResult + i ..`, and every other slot is kept. -/
theorem copyLoop_get (firstResult res : Nat) :
    ∀ (count i : Nat) (st : List TValue),
      (∀ a b, i ≤ a → a < b → b < i + count → res + a ≠ firstResult + b) →
      ∀ j, stackGet (forLoopAux
          (fun i st => stackSet st (res + i) (stackGet st (firstResult + i))) count i st) j
        = if res + i ≤ j ∧ j < res + i + count then stackGet st (firstResult + (j - res))
          else stackGet st j := by
  intro count
  induction count with
  | zero =>
    intro i st _ j
    have : ¬ (res + i ≤ j ∧ j < res + i) := by omega
    simp [forLoopAux, this]
  | succ count ih =>
    intro i st hclob j
    have hclob1 : ∀ a b, i + 1 ≤ a → a < b → b < i + 1 + count →
        res + a ≠ firstResult + b := fun a b h1 h2 h3 => hclob a b (by omega) h2 (by omega)
    simp only [forLoopAux]
    rw [ih (i + 1) _ hclob1 j]
    by_cases hin : res + (i + 1) ≤ j ∧ j < res + (i + 1) + count
    · have hin2 : res + i ≤ j ∧ j < res + i + (count + 1) := by omega
      have hne : firstResult + (j - res) ≠ res + i := by
        have := hclob i (j - res) (Nat.le_refl i) (by omega) (by omega)
        omega
      simp only [hin, hin2, and_self, if_true, stackGet_stackSet, hne, if_false]
    · simp only [hin, if_false, stackGet_stackSet]
      by_cases hj : j = res + i
      · have hin2 : res + i ≤ j ∧ j < res + i + (count + 1) := by omega
        have hsub : j - res = i := by omega
        simp only [hj, if_true, hin2, hsub]
        simp
      · have hin2 : ¬ (res + i ≤ j ∧ j < res + i + (count + 1)) := by omega
        simp only [hj, if_false, hin2]

/-- The whole copying loop `for (i = 0; i < n; i++)`. -/
theorem copyLoop_forLoop_get (firstResult res n : Nat) (st : List TValue)
    (h : res ≤ firstResult ∨ firstResult + n ≤ res) (j : Nat) :
    stackGet (forLoop 0 n
        (fun i st => stackSet st (res + i) (stackGet st (firstResult + i))) st) j
      = if res ≤ j ∧ j < res + n then stackGet st (firstResult + (j - res))
        else stackGet st j := by
  have hclob : ∀ a b, 0 ≤ a → a < b → b < 0 + n → res + a ≠ firstResult + b := by
    intro a b _ h2 h3
    omega
  have := copyLoop_get firstResult res n 0 st hclob j
  simpa [forLoop] using this

/-- A loop whose start is its bound does not run. -/
theorem forLoop_self {σ : Type} (i : Nat) (body : Nat → σ → σ) (s : σ) :
    forLoop i i body s = s := by
  simp [forLoop, forLoopAux]

/-! ## `moveresults` -/

/-- C1, evaluated where the code departs from it: with wanted = 2 and one
available result (the value 20 at index 1, destination index 0) `moveresults`
takes the branch `wanted <= nres` as false and writes nothing: the stack is
still 10, 20, 30, so slot 0 did not receive the result and slot 1 did not
receive nil. -/
theorem moveresults_fewer_available_writes_nothing :
    moveresults exStack3 1 0 1 2 = (exStack3, true) ∧
    stackGet (moveresults exStack3 1 0 1 2).1.stack 0 = int 10 ∧
    stackGet (moveresults exStack3 1 0 1 2).1.stack 1 = int 20 := by
  refine ⟨rfl, rfl, rfl⟩

/-- C2: with a fixed wanted count `N ≥ 2`, at least `N` available results and
`res ≤ firstResult`, `moveresults` leaves in `stack[res + i]` the value that
was in `stack[firstResult + i]`, for each `i < N`; it keeps every slot
outside `res .. res + N - 1` and returns true. -/
theorem moveresults_fixed_keeps_first_wanted (L : lua_State)
    (firstResult res nres N : Nat) (hN : 2 ≤ N) (hM : N ≤ nres)
    (hres : res ≤ firstResult) :
    (∀ i, i < N →
      stackGet (moveresults L firstResult res nres (N : Int)).1.stack (res + i)
        = stackGet L.stack (firstResult + i)) ∧
    (∀ j, j < res ∨ res + N ≤ j →
      stackGet (moveresults L firstResult res nres (N : Int)).1.stack j
        = stackGet L.stack j) ∧
    (moveresults L firstResult res nres (N : Int)).2 = true := by
  have h0 : ¬ ((N : Int) = 0) := by omega
  have h1 : ¬ ((N : Int) = 1) := by omega
  have hm : ¬ ((N : Int) = LUA_MULTRET) := by unfold LUA_MULTRET; omega
  have hle : (N : Int) ≤ (nres : Int) := by omega
  have hst : (moveresults L firstResult res nres (N : Int)).1.stack
      = forLoop 0 N (fun i st => stackSet st (res + i) (stackGet st (firstResult + i)))
          L.stack := by
    simp [moveresults, h0, h1, hm, hle, forLoop_self]
  refine ⟨?_, ?_, ?_⟩
  · intro i hi
    rw [hst, copyLoop_forLoop_get firstResult res N L.stack (Or.inl hres)]
    have : res ≤ res + i ∧ res + i < res + N := by omega
    simp [this]
  · intro j hj
    rw [hst, copyLoop_forLoop_get firstResult res N L.stack (Or.inl hres)]
    have : ¬ (res ≤ j ∧ j < res + N) := by omega
    simp [this]
  · simp [moveresults, h0, h1, hm, hle]

theorem moveresults_fixed_keeps_first_wanted_witness :
    (∀ i, i < 2 →
      stackGet (moveresults exStack3 1 0 2 ((2 : Nat) : Int)).1.stack (0 + i)
        = stackGet exStack3.stack (1 + i)) ∧
    (∀ j, j < 0 ∨ 0 + 2 ≤ j →
      stackGet (moveresults exStack3 1 0 2 ((2 : Nat) : Int)).1.stack j
        = stackGet exStack3.stack j) ∧
    (moveresults exStack3 1 0 2 ((2 : Nat) : Int)).2 = true :=
  moveresults_fixed_keeps_first_wanted exStack3 1 0 2 2 (by decide) (by decide) (by decide)

/-- C3, evaluated where the code departs from it: with wanted = 1 and no
available result, `moveresults` replaces the index `firstResult` by the object
`nil` and stores `L.stack[nil]`, which is `undefined`: slot `res` holds
`undefined`, not the nil value. -/
theorem moveresults_one_wanted_none_available_stores_undefined :
    stackGet (moveresults exStack3 1 0 0 1).1.stack 0 = TValue.undefined ∧
    (moveresults exStack3 1 0 0 1).1.stack = [TValue.undefined, int 20, int 30] := by
  refine ⟨rfl, rfl⟩

/-- C4 as stated fails: with wanted = 0, destination index 0 and stack top 3,
the top is still 3 after `moveresults`, not the destination index. -/
theorem moveresults_zero_wanted_top_not_res :
    (moveresults exStack3 1 0 1 0).1.top = 3 ∧ (moveresults exStack3 1 0 1 0).1.top ≠ 0 := by
  refine ⟨rfl, by decide⟩

/-- C4, amended: with wanted = 0, `moveresults` leaves the whole thread state
as it was (no stack slot written, stack top unchanged) and returns true, for
every stack, destination, first result and available count. -/
theorem moveresults_zero_wanted_unchanged (L : lua_State) (firstResult res nres : Nat) :
    moveresults L firstResult res nres 0 = (L, true) := by
  simp [moveresults]

/-- C5: with wanted = `LUA_MULTRET`, `moveresults` copies the `nres` available
results to `stack[res ..]` in order (the forward copy is exact when the
destination does not start inside the results: `res ≤ firstResult`, or the
destination lies after them), sets the stack top to `res + nres` and returns
false; for every other wanted value it returns true. -/
theorem moveresults_multret_copies_all (L : lua_State) (firstResult res nres : Nat)
    (wanted : Int) (hres : res ≤ firstResult ∨ firstResult + nres ≤ res) :
    (∀ i, i < nres →
      stackGet (moveresults L firstResult res nres LUA_MULTRET).1.stack (res + i)
        = stackGet L.stack (firstResult + i)) ∧
    (∀ j, j < res ∨ res + nres ≤ j →
      stackGet (moveresults L firstResult res nres LUA_MULTRET).1.stack j
        = stackGet L.stack j) ∧
    (moveresults L firstResult res nres LUA_MULTRET).1.top = res + nres ∧
    (moveresults L firstResult res nres LUA_MULTRET).2 = false ∧
    (wanted ≠ LUA_MULTRET → (moveresults L firstResult res nres wanted).2 = true) := by
  have hst : (moveresults L firstResult res nres LUA_MULTRET).1.stack
      = forLoop 0 nres (fun i st => stackSet st (res + i) (stackGet st (firstResult + i)))
          L.stack := by
    simp [moveresults, LUA_MULTRET]
  refine ⟨?_, ?_, ?_, ?_, ?_⟩
  · intro i hi
    rw [hst, copyLoop_forLoop_get firstResult res nres L.stack hres]
    have : res ≤ res + i ∧ res + i < res + nres := by omega
    simp [this]
  · intro j hj
    rw [hst, copyLoop_forLoop_get firstResult res nres L.stack hres]
    have : ¬ (res ≤ j ∧ j < res + nres) := by omega
    simp [this]
  · simp [moveresults, LUA_MULTRET]
  · simp [moveresults, LUA_MULTRET]
  · intro hw
    unfold moveresults
    split_ifs <;> rfl

theorem moveresults_multret_copies_all_witness :
    (∀ i, i < 2 →
      stackGet (moveresults exStack3 1 0 2 LUA_MULTRET).1.stack (0 + i)
        = stackGet exStack3.stack (1 + i)) ∧
    (∀ j, j < 0 ∨ 0 + 2 ≤ j →
      stackGet (moveresults exStack3 1 0 2 LUA_MULTRET).1.stack j
        = stackGet exStack3.stack j) ∧
    (moveresults exStack3 1 0 2 LUA_MULTRET).1.top = 0 + 2 ∧
    (moveresults exStack3 1 0 2 LUA_MULTRET).2 = false ∧
    ((3 : Int) ≠ LUA_MULTRET → (moveresults exStack3 1 0 2 3).2 = true) :=
  moveresults_multret_copies_all exStack3 1 0 2 3 (Or.inl (by decide))

/-! ## `precall` -/

/-- A loop whose body leaves the frame chain alone leaves it alone. -/
theorem forLoopAux_frames (body : Nat → lua_State → lua_State)
    (hbody : ∀ i L, (body i L).ci = L.ci ∧ (body i L).cis = L.cis ∧
      (body i L).ciOff = L.ciOff) :
    ∀ (count i : Nat) (L : lua_State),
      (forLoopAux body count i L).ci = L.ci ∧ (forLoopAux body count i L).cis = L.cis ∧
      (forLoopAux body count i L).ciOff = L.ciOff := by
  intro count
  induction count with
  | zero => intro i L; simp [forLoopAux]
  | succ count ih =>
    intro i L
    simp only [forLoopAux]
    obtain ⟨h1, h2, h3⟩ := ih (i + 1) (body i L)
    obtain ⟨g1, g2, g3⟩ := hbody i L
    exact ⟨h1.trans g1, h2.trans g2, h3.trans g3⟩

/-- The loop `for (; n < p.numparams; n++) L.stack[L.top++] = nil` run `count`
times: the `count` slots from the old top on hold nil, the other slots are
kept, and the top has advanced by `count`. -/
theorem padLoop_spec :
    ∀ (count i : Nat) (L : lua_State),
      (forLoopAux (fun _ L => push L nil) count i L).top = L.top + count ∧
      ∀ j, stackGet (forLoopAux (fun _ L => push L nil) count i L).stack j
        = if L.top ≤ j ∧ j < L.top + count then nil else stackGet L.stack j := by
  intro count
  induction count with
  | zero =>
    intro i L
    refine ⟨by simp [forLoopAux], fun j => ?_⟩
    have : ¬ (L.top ≤ j ∧ j < L.top) := by omega
    simp [forLoopAux, this]
  | succ count ih =>
    intro i L
    simp only [forLoopAux]
    obtain ⟨htop, hget⟩ := ih (i + 1) (push L nil)
    refine ⟨by rw [htop]; simp [push]; omega, fun j => ?_⟩
    rw [hget j]
    simp only [push, stackGet_stackSet]
    by_cases hj : j = L.top
    · subst hj
      have h1 : ¬ (L.top + 1 ≤ L.top ∧ L.top < L.top + 1 + count) := by omega
      have h2 : L.top ≤ L.top ∧ L.top < L.top + (count + 1) := by omega
      simp [h1, h2]
    · by_cases hin : L.top + 1 ≤ j ∧ j < L.top + 1 + count
      · have h2 : L.top ≤ j ∧ j < L.top + (count + 1) := by omega
        simp [hin, h2]
      · have h2 : ¬ (L.top ≤ j ∧ j < L.top + (count + 1)) := by omega
        simp [hin, h2, hj]

theorem push_frames (v : TValue) (L : lua_State) :
    (push L v).ci = L.ci ∧ (push L v).cis = L.cis ∧ (push L v).ciOff = L.ciOff := by
  simp [push]

/-- The frame chain is not touched by `adjust_varargs`, which returns the old
top as the base. -/
theorem adjust_varargs_frames (L : lua_State) (p : Proto) (actual : Int) :
    (adjust_varargs L p actual).1.ci = L.ci ∧ (adjust_varargs L p actual).1.cis = L.cis ∧
    (adjust_varargs L p actual).1.ciOff = L.ciOff ∧ (adjust_varargs L p actual).2 = L.top := by
  obtain ⟨a1, a2, a3⟩ := forLoopAux_frames (adjust_varargs_move ((L.top : Int) - actual))
    (fun i L1 => by simp [adjust_varargs_move, push])
    (min p.numparams actual.toNat - 0) 0 L
  obtain ⟨b1, b2, b3⟩ := forLoopAux_frames (fun _ L1 => push L1 nil)
    (fun i L1 => push_frames nil L1) (p.numparams - min p.numparams actual.toNat)
    (min p.numparams actual.toNat)
    (forLoopAux (adjust_varargs_move ((L.top : Int) - actual))
      (min p.numparams actual.toNat - 0) 0 L)
  exact ⟨b1.trans a1, b2.trans a2, b3.trans a3, rfl⟩

theorem precall_adjust_frames (L : lua_State) (off : Nat) (p : Proto) :
    (precall_adjust L off p).1.ci = L.ci ∧ (precall_adjust L off p).1.cis = L.cis ∧
    (precall_adjust L off p).1.ciOff = L.ciOff ∧
    (precall_adjust L off p).2 = if p.is_vararg then L.top else off + 1 := by
  unfold precall_adjust
  by_cases hv : p.is_vararg = true
  · simpa [hv] using adjust_varargs_frames L p ((L.top : Int) - off - 1)
  · obtain ⟨a1, a2, a3⟩ := forLoopAux_frames (fun _ L1 => push L1 nil)
      (fun i L1 => push_frames nil L1)
      ((p.numparams : Int) - ((L.top : Int) - off - 1)).toNat 0 L
    simp [hv, a1, a2, a3]

/-- The step to the next record writes no stack slot. -/
theorem precall_next_ci_stack (L : lua_State) (off : Nat) (func : TValue) (nresults : Int)
    (p : Proto) (base : Nat) :
    (precall_next_ci L off func nresults p base).1.stack = L.stack := by
  unfold precall_next_ci
  cases L.ci with
  | none => rfl
  | some cur =>
    simp only
    cases L.cis[cur]? with
    | none => rfl
    | some curInfo =>
      simp only
      cases curInfo.next <;> rfl

/-- The step to the next record when the current frame has no successor. -/
theorem precall_next_ci_fresh (L : lua_State) (off : Nat) (func : TValue) (nresults : Int)
    (p : Proto) (base cur : Nat) (curInfo : CallInfo)
    (hci : L.ci = some cur) (hcur : L.cis[cur]? = some curInfo)
    (hnext : curInfo.next = none) :
    precall_next_ci L off func nresults p base =
      ({ L with
          cis := (L.cis.set cur { curInfo with next := some L.cis.length }) ++
            [{ func := func, funcOff := off, top := base + p.maxstacksize,
               previous := some cur, next := none, nresults := nresults, base := base,
               savedpc := p.code, pcOff := 0 }],
          ci := some L.cis.length, ciOff := L.ciOff + 1, top := base + p.maxstacksize },
        Completion.normal JSValue.undefined) := by
  unfold precall_next_ci
  simp only [hci, hcur, hnext, CallInfo.new]

/-- The step to the next record when the current frame has a successor. -/
theorem precall_next_ci_reuse (L : lua_State) (off : Nat) (func : TValue) (nresults : Int)
    (p : Proto) (base cur nxt : Nat) (curInfo : CallInfo)
    (hci : L.ci = some cur) (hcur : L.cis[cur]? = some curInfo)
    (hnext : curInfo.next = some nxt) :
    precall_next_ci L off func nresults p base =
      ({ L with ci := some nxt }, Completion.thrown "TypeError") := by
  unfold precall_next_ci
  simp only [hci, hcur, hnext]

theorem precall_LClosure (L : lua_State) (off : Nat) (p : Proto) (upvals : List (Option Nat))
    (nresults : Int) :
    precall L off (TValue.LClosure p upvals) nresults =
      precall_next_ci (precall_adjust L off p).1 off (TValue.LClosure p upvals) nresults p
        (precall_adjust L off p).2 := by
  simp [precall, TValue.type, TValue.p]

/-- C6: `precall` on a script closure that is not vararg, with `N = numparams`
declared parameters and `n < N` actual arguments (`L.top = off + 1 + n`):
afterwards the slots `off + 1 + i` hold the actual arguments unchanged for
`i < n` and nil for `n ≤ i < N`; and when the current frame has no successor
record, `precall` returns and the new current frame (the record at the end of the
heap) has base `off + 1`, so these slots are its registers `base + i`. -/
theorem precall_pads_missing_arguments (L : lua_State) (off n : Nat) (p : Proto)
    (upvals : List (Option Nat)) (nresults : Int)
    (hv : p.is_vararg = false) (htop : L.top = off + 1 + n) (hn : n < p.numparams) :
    (∀ i, i < n →
      stackGet (precall L off (TValue.LClosure p upvals) nresults).1.stack (off + 1 + i)
        = stackGet L.stack (off + 1 + i)) ∧
    (∀ i, n ≤ i → i < p.numparams →
      stackGet (precall L off (TValue.LClosure p upvals) nresults).1.stack (off + 1 + i)
        = nil) ∧
    (∀ cur curInfo, L.ci = some cur → L.cis[cur]? = some curInfo → curInfo.next = none →
      (precall L off (TValue.LClosure p upvals) nresults).2
        = Completion.normal JSValue.undefined ∧
      (precall L off (TValue.LClosure p upvals) nresults).1.ci = some L.cis.length ∧
      ((precall L off (TValue.LClosure p upvals) nresults).1.cis[L.cis.length]?).map
        CallInfo.base = some (off + 1)) := by
  have hcount : ((p.numparams : Int) - ((L.top : Int) - off - 1)).toNat = p.numparams - n := by
    rw [htop]; omega
  have hadj : (precall_adjust L off p).1
      = forLoopAux (fun _ L => push L nil) (p.numparams - n) 0 L := by
    simp [precall_adjust, hv, hcount]
  have hst : (precall L off (TValue.LClosure p upvals) nresults).1.stack
      = (forLoopAux (fun _ L => push L nil) (p.numparams - n) 0 L).stack := by
    rw [precall_LClosure, precall_next_ci_stack, hadj]
  obtain ⟨_, hget⟩ := padLoop_spec (p.numparams - n) 0 L
  refine ⟨?_, ?_, ?_⟩
  · intro i hi
    rw [hst, hget]
    have : ¬ (L.top ≤ off + 1 + i ∧ off + 1 + i < L.top + (p.numparams - n)) := by omega
    simp [this]
  · intro i h1 h2
    rw [hst, hget]
    have : L.top ≤ off + 1 + i ∧ off + 1 + i < L.top + (p.numparams - n) := by omega
    simp [this]
  · intro cur curInfo hci hcur hnext
    obtain ⟨a1, a2, _, a4⟩ := precall_adjust_frames L off p
    rw [precall_LClosure,
      precall_next_ci_fresh _ off _ nresults p _ cur curInfo (a1.trans hci)
        (by rw [a2]; exact hcur) hnext]
    refine ⟨rfl, by simp [a2], ?_⟩
    simp only [a2]
    rw [List.getElem?_append_right (by simp)]
    simp [a4, hv]

theorem precall_pads_missing_arguments_witness :
    (∀ i, i < 1 →
      stackGet (precall exCall 0 (TValue.LClosure exProto []) 1).1.stack (0 + 1 + i)
        = stackGet exCall.stack (0 + 1 + i)) ∧
    (∀ i, 1 ≤ i → i < exProto.numparams →
      stackGet (precall exCall 0 (TValue.LClosure exProto []) 1).1.stack (0 + 1 + i)
        = nil) ∧
    (∀ cur curInfo, exCall.ci = some cur → exCall.cis[cur]? = some curInfo →
      curInfo.next = none →
      (precall exCall 0 (TValue.LClosure exProto []) 1).2
        = Completion.normal JSValue.undefined ∧
      (precall exCall 0 (TValue.LClosure exProto []) 1).1.ci = some exCall.cis.length ∧
      ((precall exCall 0 (TValue.LClosure exProto []) 1).1.cis[exCall.cis.length]?).map
        CallInfo.base = some (0 + 1)) :=
  precall_pads_missing_arguments exCall 0 1 exProto [] 1 rfl rfl (by decide)

/-- C7: `precall` on a script closure when the current frame `cur` has no
successor record returns (with `undefined`) after allocating a new record: the
new record is the current frame, the call depth has grown by one, the old
current frame has it as successor, and the new record has the old current
frame as `previous`, the caller-supplied `nresults`, the callee as `func`, the
callee slot as `funcOff`, base `off + 1` for a prototype that is not vararg
(the old stack top, where `adjust_varargs` moves the fixed parameters, for a
vararg one), top `base + maxstacksize`, which is also the new stack top, the
prototype's code as `savedpc`, and pc 0. -/
theorem precall_allocates_record (L : lua_State) (off : Nat) (p : Proto)
    (upvals : List (Option Nat)) (nresults : Int) (cur : Nat) (curInfo : CallInfo)
    (hci : L.ci = some cur) (hcur : L.cis[cur]? = some curInfo)
    (hnext : curInfo.next = none) :
    (precall L off (TValue.LClosure p upvals) nresults).2
      = Completion.normal JSValue.undefined ∧
    (precall L off (TValue.LClosure p upvals) nresults).1.ci = some L.cis.length ∧
    (precall L off (TValue.LClosure p upvals) nresults).1.ciOff = L.ciOff + 1 ∧
    (precall L off (TValue.LClosure p upvals) nresults).1.top
      = (if p.is_vararg then L.top else off + 1) + p.maxstacksize ∧
    (precall L off (TValue.LClosure p upvals) nresults).1.cis[cur]?
      = some { curInfo with next := some L.cis.length } ∧
    (precall L off (TValue.LClosure p upvals) nresults).1.cis[L.cis.length]?
      = some { func := TValue.LClosure p upvals, funcOff := off,
               top := (if p.is_vararg then L.top else off + 1) + p.maxstacksize,
               previous := some cur, next := none, nresults := nresults,
               base := if p.is_vararg then L.top else off + 1,
               savedpc := p.code, pcOff := 0 } := by
  obtain ⟨a1, a2, a3, a4⟩ := precall_adjust_frames L off p
  have hlt : cur < L.cis.length := by
    by_contra hge
    rw [List.getElem?_eq_none (by omega)] at hcur
    cases hcur
  rw [precall_LClosure,
    precall_next_ci_fresh _ off _ nresults p _ cur curInfo (a1.trans hci)
      (by rw [a2]; exact hcur) hnext]
  refine ⟨rfl, by simp [a2], by simp [a3], by simp [a4], ?_, ?_⟩
  · simp only [a2]
    rw [List.getElem?_append_left (by simpa using hlt)]
    simp [hlt]
  · simp only [a2, a4]
    rw [List.getElem?_append_right (by simp)]
    simp

theorem precall_allocates_record_witness :
    (precall exCall 0 (TValue.LClosure exProto []) 1).2
      = Completion.normal JSValue.undefined ∧
    (precall exCall 0 (TValue.LClosure exProto []) 1).1.ci = some exCall.cis.length ∧
    (precall exCall 0 (TValue.LClosure exProto []) 1).1.ciOff = exCall.ciOff + 1 ∧
    (precall exCall 0 (TValue.LClosure exProto []) 1).1.top
      = (if exProto.is_vararg then exCall.top else 0 + 1) + exProto.maxstacksize ∧
    (precall exCall 0 (TValue.LClosure exProto []) 1).1.cis[0]?
      = some { exFrame with next := some exCall.cis.length } ∧
    (precall exCall 0 (TValue.LClosure exProto []) 1).1.cis[exCall.cis.length]?
      = some { func := TValue.LClosure exProto [], funcOff := 0,
               top := (if exProto.is_vararg then exCall.top else 0 + 1) + exProto.maxstacksize,
               previous := some 0, next := none, nresults := 1,
               base := if exProto.is_vararg then exCall.top else 0 + 1,
               savedpc := exProto.code, pcOff := 0 } :=
  precall_allocates_record exCall 0 exProto [] 1 0 exFrame rfl rfl rfl

/-- C8, evaluated where the code departs from it: when the current frame
already has a successor record (left by an earlier call that returned),
`precall` on a script closure moves `L.ci` to that record and then throws a
`TypeError`, its local `ci` being unassigned on that branch: the record is
not set up (its `nresults`, `base` and `savedpc` are those of the earlier
call) and no second call can be made. -/
theorem precall_reuse_throws :
    (precall exCallAgain 0 (TValue.LClosure exProto []) 2).2
      = Completion.thrown "TypeError" ∧
    (precall exCallAgain 0 (TValue.LClosure exProto []) 2).1.ci = some 1 ∧
    (precall exCallAgain 0 (TValue.LClosure exProto []) 2).1.cis = exCallAgain.cis := by
  refine ⟨rfl, rfl, rfl⟩

/-- C9, evaluated where the code departs from it: `precall` on the nil value
throws nothing: it returns `undefined` and leaves the thread as it was; and
`OP_CALL` on a slot holding nil, reading that falsy result as "a script frame
was entered", ends with `continue newframe` and no error. -/
theorem precall_non_callable_returns :
    precall exCallNil 0 nil 1 = (exCallNil, Completion.normal JSValue.undefined) ∧
    (OP_CALL exCallNil 0 0 exCallInstr).2 = Completion.normal Control.continue_newframe ∧
    (OP_CALL exCallNil 0 0 exCallInstr).1.ci = exCallNil.ci := by
  refine ⟨rfl, rfl, rfl⟩

/-! ## `postcall` -/

/-- The frame chain plays no part in `moveresults`: its stack, top and return
value depend on the stack and top only, and it keeps the frame chain. -/
theorem moveresults_frames (L : lua_State) (ci : Option Nat) (ciOff : Int)
    (firstResult res nres : Nat) (wanted : Int) :
    (moveresults { L with ci := ci, ciOff := ciOff } firstResult res nres wanted).1.stack
      = (moveresults L firstResult res nres wanted).1.stack ∧
    (moveresults { L with ci := ci, ciOff := ciOff } firstResult res nres wanted).1.top
      = (moveresults L firstResult res nres wanted).1.top ∧
    (moveresults { L with ci := ci, ciOff := ciOff } firstResult res nres wanted).2
      = (moveresults L firstResult res nres wanted).2 ∧
    (moveresults { L with ci := ci, ciOff := ciOff } firstResult res nres wanted).1.ci = ci ∧
    (moveresults { L with ci := ci, ciOff := ciOff } firstResult res nres wanted).1.ciOff
      = ciOff := by
  unfold moveresults
  split_ifs <;> simp

/-- C10: `postcall(ci, firstResult, nres)` on a frame `fr` returns after
setting the current frame to `fr.previous` (and lowering the call depth by
one), and its stack, its stack top and its return value are those of
`moveresults(firstResult, fr.funcOff, nres, fr.nresults)`. -/
theorem postcall_pops_and_moves (L : lua_State) (ci firstResult nres : Nat)
    (fr : CallInfo) (hfr : L.cis[ci]? = some fr) :
    (postcall L ci firstResult nres).1.ci = fr.previous ∧
    (postcall L ci firstResult nres).1.ciOff = L.ciOff - 1 ∧
    (postcall L ci firstResult nres).1.stack
      = (moveresults L firstResult fr.funcOff nres fr.nresults).1.stack ∧
    (postcall L ci firstResult nres).1.top
      = (moveresults L firstResult fr.funcOff nres fr.nresults).1.top ∧
    (postcall L ci firstResult nres).2
      = Completion.normal (moveresults L firstResult fr.funcOff nres fr.nresults).2 := by
  obtain ⟨h1, h2, h3, h4, h5⟩ :=
    moveresults_frames L fr.previous (L.ciOff - 1) firstResult fr.funcOff nres fr.nresults
  simp only [postcall, hfr]
  exact ⟨h4, h5, h1, h2, by rw [h3]⟩

theorem postcall_pops_and_moves_witness :
    (postcall exReturn 1 1 2).1.ci = some 0 ∧
    (postcall exReturn 1 1 2).1.ciOff = exReturn.ciOff - 1 ∧
    (postcall exReturn 1 1 2).1.stack = (moveresults exReturn 1 0 2 1).1.stack ∧
    (postcall exReturn 1 1 2).1.top = (moveresults exReturn 1 0 2 1).1.top ∧
    (postcall exReturn 1 1 2).2 = Completion.normal (moveresults exReturn 1 0 2 1).2 :=
  postcall_pops_and_moves exReturn 1 1 2
    { CallInfo.new 0 with previous := some 0, base := 1, top := 3, nresults := 1 } rfl

/-! ## Arithmetic -/

theorem jsAdd_number (x y : Rat) :
    jsAdd (JSValue.number x) (JSValue.number y) = JSValue.number (x + y) := by
  simp [jsAdd, JSValue.isString, ToNumber, numAdd]

theorem jsMul_number (x y : Rat) :
    jsMul (JSValue.number x) (JSValue.number y) = JSValue.number (x * y) := by
  simp [jsMul, ToNumber, numMul]

/-- `OP_ADD` on two integer-tagged operands takes its first branch. -/
theorem OP_ADD_int (L : lua_State) (k : List TValue) (base : Nat) (i : Instruction)
    (v1 v2 : JSValue) (h1 : RKB L base k i = TValue.mk CT.LUA_TNUMINT v1)
    (h2 : RKC L base k i = TValue.mk CT.LUA_TNUMINT v2) :
    OP_ADD L k base i =
      ({ L with
          stack := stackSet L.stack (RA base i) (TValue.mk CT.LUA_TNUMINT (jsAdd v1 v2)) },
        Completion.normal Control.break_switch) := by
  simp [OP_ADD, h1, h2, tonumber, TValue.type, TValue.value]

/-- `tonumber` on a string-tagged value never returns `false`. -/
theorem tonumber_string (type : CT) (value : JSValue)
    (h : type = CT.LUA_TSHRSTR ∨ type = CT.LUA_TLNGSTR) :
    tonumber (TValue.mk type value)
      = Completion.normal (some (TValue.mk CT.LUA_TNUMFLT (parseFloat (ToString value)))) := by
  rcases h with h | h <;> subst h <;> simp [tonumber, TValue.type, TValue.value]

/-- `OP_MUL` on two float-tagged operands takes its second branch, whose first
factor is the payload of the constant `k[i.B]`. -/
theorem OP_MUL_float (L : lua_State) (k : List TValue) (base : Nat) (i : Instruction)
    (v1 v2 : JSValue) (h1 : RKB L base k i = TValue.mk CT.LUA_TNUMFLT v1)
    (h2 : RKC L base k i = TValue.mk CT.LUA_TNUMFLT v2) :
    OP_MUL L k base i =
      match (constGet k i.B).value with
      | none => (L, Completion.thrown "TypeError")
      | some kB =>
        ({ L with
            stack := stackSet L.stack (RA base i) (TValue.mk CT.LUA_TNUMFLT (jsMul kB v2)) },
          Completion.normal Control.break_switch) := by
  simp [OP_MUL, h1, h2, tonumber, TValue.type, TValue.value]

/-- C17 as stated fails: on the integer-tagged operands `2^62` and `2^62`
`OP_ADD` writes the integer-tagged value `2^63`, which is not below `2^63`:
the sum is not wrapped to 64 bits (nor to a narrower width); and on `2^30` and
`2^30` it writes `2^31`, which is not wrapped to 32 bits. -/
theorem OP_ADD_int_not_wrapped :
    stackGet (OP_ADD (exArith (int (2 ^ 62)) (int (2 ^ 62))) [] 0 exArithInstr).1.stack 2
      = TValue.mk CT.LUA_TNUMINT (JSValue.number 9223372036854775808) ∧
    ¬ ((9223372036854775808 : Rat) < 2 ^ 63) ∧
    stackGet (OP_ADD (exArith (int (2 ^ 30)) (int (2 ^ 30))) [] 0 exArithInstr).1.stack 2
      = TValue.mk CT.LUA_TNUMINT (JSValue.number 2147483648) ∧
    ¬ ((2147483648 : Rat) < 2 ^ 31) := by
  refine ⟨?_, by norm_num, ?_, by norm_num⟩
  · rw [OP_ADD_int (exArith (int (2 ^ 62)) (int (2 ^ 62))) [] 0 exArithInstr
      (JSValue.number ((2 ^ 62 : Int) : Rat)) (JSValue.number ((2 ^ 62 : Int) : Rat)) rfl rfl,
      jsAdd_number]
    simp only [stackGet_stackSet, exArithInstr, RA]
    norm_num
  · rw [OP_ADD_int (exArith (int (2 ^ 30)) (int (2 ^ 30))) [] 0 exArithInstr
      (JSValue.number ((2 ^ 30 : Int) : Rat)) (JSValue.number ((2 ^ 30 : Int) : Rat)) rfl rfl,
      jsAdd_number]
    simp only [stackGet_stackSet, exArithInstr, RA]
    norm_num

/-- C17, amended: on integer-tagged operands whose payloads are the integers
`a` and `b`, with `a`, `b` and `a + b` at most `2^53` in magnitude (so that
the sum of the two JavaScript numbers is exact), `OP_ADD` completes and
writes to `R[A]` the integer-tagged value whose payload is the sum `a + b`
itself; no other slot is written. -/
theorem OP_ADD_int_exact_sum (L : lua_State) (k : List TValue) (base : Nat)
    (i : Instruction) (a b : Int)
    (h1 : RKB L base k i = int a) (h2 : RKC L base k i = int b)
    (_ha : |a| ≤ 2 ^ 53) (_hb : |b| ≤ 2 ^ 53) (_hab : |a + b| ≤ 2 ^ 53) :
    OP_ADD L k base i =
      ({ L with stack := stackSet L.stack (RA base i) (int (a + b)) },
        Completion.normal Control.break_switch) := by
  rw [OP_ADD_int L k base i _ _ h1 h2, jsAdd_number]
  simp [int]

theorem OP_ADD_int_exact_sum_witness :
    OP_ADD (exArith (int 1) (int 2)) [] 0 exArithInstr =
      ({ exArith (int 1) (int 2) with
          stack := stackSet (exArith (int 1) (int 2)).stack (RA 0 exArithInstr) (int (1 + 2)) },
        Completion.normal Control.break_switch) :=
  OP_ADD_int_exact_sum (exArith (int 1) (int 2)) [] 0 exArithInstr 1 2 rfl rfl
    (by decide) (by decide) (by decide)

/-- C18, evaluated where the code departs from it: on the string `"10"` and
the integer 1 `OP_ADD` throws nothing and writes a float-tagged value whose
payload is `op1.value + op2.value`, the string `"101"`, not the number 11. -/
theorem OP_ADD_numeric_string_concatenates :
    (OP_ADD (exArith (str "10") (int 1)) [] 0 exArithInstr).2
      = Completion.normal Control.break_switch ∧
    stackGet (OP_ADD (exArith (str "10") (int 1)) [] 0 exArithInstr).1.stack 2
      = TValue.mk CT.LUA_TNUMFLT (JSValue.string "101") := by
  refine ⟨rfl, rfl⟩

/-- C19, evaluated where the code departs from it: `OP_MUL` on two registers
holding the floats 2.5 and 2 reads its first factor from `k[i.B]`, the
constant at the raw field `B = 0`: with an empty constant pool it throws a
`TypeError` and writes nothing, and with the constant 10 in `k[0]` it writes
20, not the product 5 of the registers. -/
theorem OP_MUL_float_reads_constant :
    OP_MUL (exArith (flt (5 / 2)) (flt 2)) [] 0 exArithInstr
      = (exArith (flt (5 / 2)) (flt 2), Completion.thrown "TypeError") ∧
    RKB (exArith (flt (5 / 2)) (flt 2)) 0 [flt 10] exArithInstr = flt (5 / 2) ∧
    stackGet (OP_MUL (exArith (flt (5 / 2)) (flt 2)) [flt 10] 0 exArithInstr).1.stack 2
      = flt 20 := by
  refine ⟨rfl, rfl, ?_⟩
  rw [OP_MUL_float (exArith (flt (5 / 2)) (flt 2)) [flt 10] 0 exArithInstr
    (JSValue.number (5 / 2)) (JSValue.number 2) rfl rfl]
  simp only [constGet, exArithInstr, List.getD_cons_zero, flt, TValue.value, jsMul_number,
    stackGet_stackSet, RA]
  norm_num

/-- C20, evaluated where the code departs from it: `tonumber` on a string
never returns the failure value `false`: it returns a float-tagged value whose
payload is whatever `parseFloat` gives, `NaN` for `"abc"` and for `""`; so
`OP_ADD` on `"abc"` and the integer 1 throws nothing and writes the
float-tagged value with payload `"abc1"`. -/
theorem tonumber_accepts_every_string :
    (∀ s : String, tonumber (str s)
      = Completion.normal (some (TValue.mk CT.LUA_TNUMFLT (parseFloat s)))) ∧
    parseFloat "abc" = JSValue.nan ∧ parseFloat "" = JSValue.nan ∧
    (OP_ADD (exArith (str "abc") (int 1)) [] 0 exArithInstr).2
      = Completion.normal Control.break_switch ∧
    stackGet (OP_ADD (exArith (str "abc") (int 1)) [] 0 exArithInstr).1.stack 2
      = TValue.mk CT.LUA_TNUMFLT (JSValue.string "abc1") := by
  refine ⟨fun s => ?_, rfl, rfl, rfl, rfl⟩
  exact tonumber_string CT.LUA_TSHRSTR (JSValue.string s) (Or.inl rfl)

/-! ## Upvalues -/

/-- C13, evaluated where the code departs from it: with no upvalue open,
`findupval(1)` creates cell 0 and leaves `L.openupval` empty, so a second
`findupval(1)` finds nothing and creates cell 1: the two calls return
different cells. Accordingly the two closures that `CLOSURE 1 0` and
`CLOSURE 2 1` create in one frame, both capturing register 0, hold the
different cells 0 and 1. -/
theorem findupval_twice_returns_distinct_cells :
    findupval exUpval 1
      = some ({ exUpval with uvs := [exCell 1] }, Completion.normal 0) ∧
    findupval { exUpval with uvs := [exCell 1] } 1
      = some ({ exUpval with uvs := [exCell 1, exCell 1] }, Completion.normal 1) ∧
    OP_CLOSURE exUpval exOuter 1 exClosureA
      = some (exUpvalA, Completion.normal Control.break_switch) ∧
    (OP_CLOSURE exUpvalA exOuter 1 exClosureB).map (fun r => r.1.stack)
      = some [exOuter, int 5, TValue.LClosure exInnerProto [some 0],
          TValue.LClosure exInnerProto [some 1]] := by
  refine ⟨rfl, rfl, rfl, rfl⟩

/-- C14, evaluated where the code departs from it: `findupval` never stores
into `L.openupval` nor into the `next` of a cell. With an empty list,
`findupval(1)` leaves the list empty; with the list of the single cell for
index 5, `findupval(3)` creates a cell for index 3 and leaves the list as it
was, the indices along it being 5 alone: the list holds no upvalue for the
level. -/
theorem findupval_does_not_insert :
    (findupval exUpval 1).map (fun r => r.1.openupval) = some none ∧
    findupval exOpen5 3
      = some ({ exOpen5 with uvs := [exCell 5, exCell 3] }, Completion.normal 1) ∧
    (findupval exOpen5 3).map (fun r => openupvalIndices r.1.uvs 3 r.1.openupval)
      = some [5] := by
  refine ⟨rfl, rfl, rfl⟩

/-- C16 as stated fails: `OP_RETURN` pops frame 1 (base 2) and closes nothing:
the upvalue cell that captured stack index 2 is unchanged. The slot held 5 at
the return; after a later write of 99 to the slot, `OP_GETUPVAL` through the
upvalue reads 99. -/
theorem OP_RETURN_leaves_upvalue_open :
    (OP_RETURN exCaptured 1 2 exReturnInstr).2
      = Completion.normal Control.continue_newframe ∧
    (OP_RETURN exCaptured 1 2 exReturnInstr).1.ci = some 0 ∧
    (OP_RETURN exCaptured 1 2 exReturnInstr).1.uvs = [exCell 2] ∧
    stackGet (OP_RETURN exCaptured 1 2 exReturnInstr).1.stack 2 = int 5 ∧
    stackGet (OP_GETUPVAL
        { (OP_RETURN exCaptured 1 2 exReturnInstr).1 with
          stack := stackSet (OP_RETURN exCaptured 1 2 exReturnInstr).1.stack 2 (int 99) }
        (TValue.LClosure exInnerProto [some 0]) 1 exGetupvalInstr).1.stack 5 = int 99 := by
  refine ⟨rfl, rfl, rfl, rfl, rfl⟩

theorem moveresults_upvalues (L : lua_State) (firstResult res nres : Nat) (wanted : Int) :
    (moveresults L firstResult res nres wanted).1.uvs = L.uvs ∧
    (moveresults L firstResult res nres wanted).1.openupval = L.openupval := by
  unfold moveresults
  split_ifs <;> simp

/-- No upvalue cell and no link of the open list is written by `OP_RETURN`. -/
theorem OP_RETURN_upvalues (L : lua_State) (ci base : Nat) (i : Instruction) :
    (OP_RETURN L ci base i).1.uvs = L.uvs ∧
    (OP_RETURN L ci base i).1.openupval = L.openupval := by
  unfold OP_RETURN postcall
  cases hfr : L.cis[ci]? with
  | none => simp
  | some fr =>
    simp only
    repeat' split
    all_goals simp [moveresults_upvalues]

theorem upvalIndex_of_cell (L : lua_State) (p : Proto) (upvals : List (Option Nat))
    (b r : Nat) (u : UpVal) (hr : upvals[b]? = some (some r)) (hu : L.uvs[r]? = some u) :
    upvalIndex L (TValue.LClosure p upvals) b = some u.v := by
  simp [upvalIndex, TValue.upvals, List.getD_eq_getElem?_getD, hr, hu]

/-- A cell that the search of `findupval` returns refers to the level. -/
theorem findupval_loop_found (uvs : List UpVal) (level : Nat) :
    ∀ (fuel : Nat) (pp : Option Nat) (r : Nat),
      findupval_loop uvs level fuel pp = some (Completion.normal (UpvalSearch.found r)) →
      ∃ u, uvs[r]? = some u ∧ u.v = level := by
  intro fuel
  induction fuel with
  | zero => intro pp r h; simp [findupval_loop] at h
  | succ fuel ih =>
    intro pp r h
    cases pp with
    | none => simp [findupval_loop] at h
    | some q =>
      cases hq : uvs[q]? with
      | none => simp [findupval_loop, hq] at h
      | some p =>
        simp only [findupval_loop, hq] at h
        by_cases hge : p.v ≥ level
        · by_cases heq : p.v = level
          · simp [hge, heq] at h
            subst h
            exact ⟨p, hq, heq⟩
          · simp only [hge, heq, if_true, if_false] at h
            exact ih p.next r h
        · simp [hge] at h

/-- What `findupval` guarantees when it returns the cell `r`: the stack is
untouched, the cell refers to the level, and every cell that existed is
kept. -/
theorem findupval_spec (L L1 : lua_State) (level r : Nat)
    (h : findupval L level = some (L1, Completion.normal r)) :
    L1.stack = L.stack ∧ (∃ u, L1.uvs[r]? = some u ∧ u.v = level) ∧
    (∀ (j : Nat) (u : UpVal), L.uvs[j]? = some u → L1.uvs[j]? = some u) := by
  unfold findupval at h
  cases hl : findupval_loop L.uvs level (L.uvs.length + 1) L.openupval with
  | none => simp [hl] at h
  | some c =>
    cases c with
    | thrown e => simp [hl] at h
    | normal sr =>
      cases sr with
      | found p =>
        simp only [hl, Option.some.injEq, Prod.mk.injEq, Completion.normal.injEq] at h
        obtain ⟨hL, hp⟩ := h
        subst hL; subst hp
        exact ⟨rfl, findupval_loop_found L.uvs level _ _ p hl, fun j u hj => hj⟩
      | notFound pp =>
        simp only [hl, Option.some.injEq, Prod.mk.injEq, Completion.normal.injEq] at h
        obtain ⟨hL, hp⟩ := h
        subst hL; subst hp
        refine ⟨rfl, ⟨{ v := level, refcount := 0, next := pp, touched := true }, by simp, rfl⟩,
          fun j u hj => ?_⟩
        have hlt : j < L.uvs.length := by
          by_contra hge
          rw [List.getElem?_eq_none (by omega)] at hj
          cases hj
        simp only
        rw [List.getElem?_append_left hlt]
        exact hj

/-- What the loop of `OP_CLOSURE` guarantees when it ends without an error: the
stack is untouched, every cell that existed is kept, the array keeps its
length and its elements before `i`, and the element for each descriptor
marked in-stack is a cell that refers to `base + idx`. -/
theorem OP_CLOSURE_loop_spec (clUpvals : List (Option Nat)) (base : Nat) :
    ∀ (ds : List Upvaldesc) (i : Nat) (L : lua_State) (acc : List (Option Nat))
      (L1 : lua_State) (acc1 : List (Option Nat)),
      OP_CLOSURE_loop clUpvals base ds i L acc = some (L1, acc1, none) →
      L1.stack = L.stack ∧ (∀ (j : Nat) (u : UpVal), L.uvs[j]? = some u → L1.uvs[j]? = some u) ∧
      acc1.length = acc.length ∧ (∀ j : Nat, j < i → acc1[j]? = acc[j]?) ∧
      (∀ (m : Nat) (d : Upvaldesc), ds[m]? = some d → d.instack = true → i + m < acc.length →
        ∃ r u, acc1[i + m]? = some (some r) ∧ L1.uvs[r]? = some u ∧ u.v = base + d.idx) := by
  intro ds
  induction ds with
  | nil =>
    intro i L acc L1 acc1 h
    simp only [OP_CLOSURE_loop, Option.some.injEq, Prod.mk.injEq, and_true] at h
    obtain ⟨hL, hacc⟩ := h
    subst hL; subst hacc
    exact ⟨rfl, fun j u hj => hj, rfl, fun j _ => rfl, fun m d hd => by simp at hd⟩
  | cons d ds ih =>
    intro i L acc L1 acc1 h
    by_cases hin : d.instack = true
    · simp only [OP_CLOSURE_loop, hin, if_true] at h
      cases hf : findupval L (base + d.idx) with
      | none => simp [hf] at h
      | some res =>
        obtain ⟨L2, c⟩ := res
        cases c with
        | thrown e => simp [hf] at h
        | normal r =>
          simp only [hf] at h
          obtain ⟨f1, ⟨u, fu, fv⟩, f3⟩ := findupval_spec L L2 (base + d.idx) r hf
          obtain ⟨g1, g2, g3, g4, g5⟩ := ih (i + 1) L2 (acc.set i (some r)) L1 acc1 h
          refine ⟨g1.trans f1, fun j u0 hj => g2 j u0 (f3 j u0 hj), by simpa using g3,
            fun j hj => ?_, fun m d0 hd hd0 hm => ?_⟩
          · rw [g4 j (by omega), List.getElem?_set_ne (by omega)]
          · cases m with
            | zero =>
              simp only [List.getElem?_cons_zero, Option.some.injEq] at hd
              subst hd
              refine ⟨r, u, ?_, g2 r u fu, fv⟩
              rw [Nat.add_zero, g4 i (by omega), List.getElem?_set_eq_of_lt _ (by omega)]
            | succ m =>
              simp only [List.getElem?_cons_succ] at hd
              have := g5 m d0 hd hd0 (by simp; omega)
              rwa [show i + 1 + m = i + (m + 1) by omega] at this
    · simp only [OP_CLOSURE_loop, hin] at h
      obtain ⟨g1, g2, g3, g4, g5⟩ :=
        ih (i + 1) L (acc.set i (clUpvals.getD d.idx none)) L1 acc1 h
      refine ⟨g1, g2, by simpa using g3, fun j hj => ?_, fun m d0 hd hd0 hm => ?_⟩
      · rw [g4 j (by omega), List.getElem?_set_ne (by omega)]
      · cases m with
        | zero =>
          simp only [List.getElem?_cons_zero, Option.some.injEq] at hd
          subst hd
          exact absurd hd0 hin
        | succ m =>
          simp only [List.getElem?_cons_succ] at hd
          have := g5 m d0 hd hd0 (by simp; omega)
          rwa [show i + 1 + m = i + (m + 1) by omega] at this

/-- What `OP_CLOSURE` guarantees when it completes: `R[A]` holds a closure of
the nested prototype, every cell that existed is kept, and the upvalue of the
closure for each descriptor marked in-stack is a cell that refers to
`base + idx`. -/
theorem OP_CLOSURE_spec (L L1 : lua_State) (cl : TValue) (clp p : Proto) (base : Nat)
    (i : Instruction) (c : Control) (hclp : cl.p = some clp) (hp : clp.p[i.Bx]? = some p)
    (h : OP_CLOSURE L cl base i = some (L1, Completion.normal c)) :
    ∃ upvals, stackGet L1.stack (RA base i) = TValue.LClosure p upvals ∧
      (∀ (j : Nat) (u : UpVal), L.uvs[j]? = some u → L1.uvs[j]? = some u) ∧
      (∀ (m : Nat) (d : Upvaldesc), p.upvalues[m]? = some d → d.instack = true →
        ∃ r u, upvals[m]? = some (some r) ∧ L1.uvs[r]? = some u ∧ u.v = base + d.idx) := by
  cases cl with
  | undefined => simp [TValue.p] at hclp
  | mk t v => simp [TValue.p] at hclp
  | LClosure q ups =>
    simp only [TValue.p, Option.some.injEq] at hclp
    subst hclp
    simp only [OP_CLOSURE, TValue.p, TValue.upvals, hp] at h
    cases hloop : OP_CLOSURE_loop ups base p.upvalues 0 L
        (List.replicate p.upvalues.length none) with
    | none => simp [hloop] at h
    | some res =>
      obtain ⟨L2, upvals, err⟩ := res
      cases err with
      | some e => simp [hloop] at h
      | none =>
        simp only [hloop, Option.some.injEq, Prod.mk.injEq, Completion.normal.injEq] at h
        obtain ⟨hL, _⟩ := h
        subst hL
        obtain ⟨_, g2, _, _, g5⟩ := OP_CLOSURE_loop_spec ups base p.upvalues 0 L _ L2 upvals hloop
        refine ⟨upvals, by simp [stackGet_stackSet], g2, fun m d hd hd0 => ?_⟩
        have hm : m < p.upvalues.length := by
          by_contra hge
          rw [List.getElem?_eq_none (by omega)] at hd
          cases hd
        have := g5 m d hd hd0 (by simpa using hm)
        simpa using this

/-- C15: let the closures A and B be created by two `OP_CLOSURE` in the same
frame (base `base`, running closure `cl`), upvalue `uA` of A and upvalue `uB`
of B both capturing the register `x` of that frame. In every later state that
still has the upvalue cells, `OP_SETUPVAL` through upvalue `uA` of A
completes and leaves the stored value `R[A]` in the stack slot `base + x` of
the captured register, and `OP_GETUPVAL` through upvalue `uB` of B then
completes and reads that same value. -/
theorem upvalue_write_through (L L1 L2 L3 : lua_State) (cl : TValue) (clp pA pB : Proto)
    (base baseA baseB uA uB x : Nat) (iA iB iS iG : Instruction)
    (hclp : cl.p = some clp)
    (hpA : clp.p[iA.Bx]? = some pA) (hpB : clp.p[iB.Bx]? = some pB)
    (hdA : pA.upvalues[uA]? = some { instack := true, idx := x })
    (hdB : pB.upvalues[uB]? = some { instack := true, idx := x })
    (hA : OP_CLOSURE L cl base iA = some (L1, Completion.normal Control.break_switch))
    (hB : OP_CLOSURE L1 cl base iB = some (L2, Completion.normal Control.break_switch))
    (hcells : ∀ (j : Nat) (u : UpVal), L2.uvs[j]? = some u → L3.uvs[j]? = some u)
    (hS : iS.B = uA) (hG : iG.B = uB) :
    (OP_SETUPVAL L3 (stackGet L1.stack (RA base iA)) baseA iS).2
      = Completion.normal Control.break_switch ∧
    stackGet (OP_SETUPVAL L3 (stackGet L1.stack (RA base iA)) baseA iS).1.stack (base + x)
      = stackGet L3.stack (RA baseA iS) ∧
    (OP_GETUPVAL (OP_SETUPVAL L3 (stackGet L1.stack (RA base iA)) baseA iS).1
        (stackGet L2.stack (RA base iB)) baseB iG).2
      = Completion.normal Control.break_switch ∧
    stackGet (OP_GETUPVAL (OP_SETUPVAL L3 (stackGet L1.stack (RA base iA)) baseA iS).1
        (stackGet L2.stack (RA base iB)) baseB iG).1.stack (RA baseB iG)
      = stackGet L3.stack (RA baseA iS) := by
  obtain ⟨upA, hclA, _, hupA⟩ := OP_CLOSURE_spec L L1 cl clp pA base iA _ hclp hpA hA
  obtain ⟨upB, hclB, hext, hupB⟩ := OP_CLOSURE_spec L1 L2 cl clp pB base iB _ hclp hpB hB
  obtain ⟨rA, cA, hrA, hcA, hvA⟩ := hupA uA _ hdA rfl
  obtain ⟨rB, cB, hrB, hcB, hvB⟩ := hupB uB _ hdB rfl
  have hA3 : L3.uvs[rA]? = some cA := hcells rA cA (hext rA cA hcA)
  have hB3 : L3.uvs[rB]? = some cB := hcells rB cB hcB
  have hiA : upvalIndex L3 (TValue.LClosure pA upA) iS.B = some (base + x) := by
    rw [hS, upvalIndex_of_cell L3 pA upA uA rA cA hrA hA3, hvA]
  have hset : OP_SETUPVAL L3 (TValue.LClosure pA upA) baseA iS
      = ({ L3 with stack := stackSet L3.stack (base + x) (stackGet L3.stack (RA baseA iS)) },
          Completion.normal Control.break_switch) := by
    simp only [OP_SETUPVAL, hiA]
  have hiB : upvalIndex
      { L3 with stack := stackSet L3.stack (base + x) (stackGet L3.stack (RA baseA iS)) }
      (TValue.LClosure pB upB) iG.B = some (base + x) := by
    rw [hG, upvalIndex_of_cell
      { L3 with stack := stackSet L3.stack (base + x) (stackGet L3.stack (RA baseA iS)) }
      pB upB uB rB cB hrB hB3, hvB]
  rw [hclA, hclB, hset]
  simp only [OP_GETUPVAL, hiB, stackGet_stackSet, if_true, and_self]

/-- C16, amended: `OP_RETURN` closes no upvalue: the upvalue cells and the list
of open upvalues are after it what they were before, so an upvalue that
captured a register of the popped frame still refers to its stack index
`u.v`; after a later write of a value `w` to that stack slot, `OP_GETUPVAL`
through the upvalue completes and reads `w`. -/
theorem OP_RETURN_closes_no_upvalue (L : lua_State) (ci base baseG r : Nat)
    (i iG : Instruction) (p : Proto) (upvals : List (Option Nat)) (u : UpVal) (w : TValue)
    (hr : upvals[iG.B]? = some (some r)) (hu : L.uvs[r]? = some u) :
    (OP_RETURN L ci base i).1.uvs = L.uvs ∧
    (OP_RETURN L ci base i).1.openupval = L.openupval ∧
    (OP_GETUPVAL
        { (OP_RETURN L ci base i).1 with
          stack := stackSet (OP_RETURN L ci base i).1.stack u.v w }
        (TValue.LClosure p upvals) baseG iG).2 = Completion.normal Control.break_switch ∧
    stackGet (OP_GETUPVAL
        { (OP_RETURN L ci base i).1 with
          stack := stackSet (OP_RETURN L ci base i).1.stack u.v w }
        (TValue.LClosure p upvals) baseG iG).1.stack (RA baseG iG) = w := by
  obtain ⟨h1, h2⟩ := OP_RETURN_upvalues L ci base i
  have hi : upvalIndex
      { (OP_RETURN L ci base i).1 with
        stack := stackSet (OP_RETURN L ci base i).1.stack u.v w }
      (TValue.LClosure p upvals) iG.B = some u.v :=
    upvalIndex_of_cell _ p upvals iG.B r u hr (by simpa [h1] using hu)
  refine ⟨h1, h2, ?_, ?_⟩
  · simp only [OP_GETUPVAL, hi]
  · simp only [OP_GETUPVAL, hi, stackGet_stackSet, if_true]

theorem OP_RETURN_closes_no_upvalue_witness :
    (OP_RETURN exCaptured 1 2 exReturnInstr).1.uvs = exCaptured.uvs ∧
    (OP_RETURN exCaptured 1 2 exReturnInstr).1.openupval = exCaptured.openupval ∧
    (OP_GETUPVAL
        { (OP_RETURN exCaptured 1 2 exReturnInstr).1 with
          stack := stackSet (OP_RETURN exCaptured 1 2 exReturnInstr).1.stack (exCell 2).v (int 99) }
        (TValue.LClosure exInnerProto [some 0]) 1 exGetupvalInstr).2
      = Completion.normal Control.break_switch ∧
    stackGet (OP_GETUPVAL
        { (OP_RETURN exCaptured 1 2 exReturnInstr).1 with
          stack := stackSet (OP_RETURN exCaptured 1 2 exReturnInstr).1.stack (exCell 2).v (int 99) }
        (TValue.LClosure exInnerProto [some 0]) 1 exGetupvalInstr).1.stack
        (RA 1 exGetupvalInstr) = int 99 :=
  OP_RETURN_closes_no_upvalue exCaptured 1 2 1 0 exReturnInstr exGetupvalInstr exInnerProto
    [some 0] (exCell 2) (int 99) rfl rfl

theorem upvalue_write_through_witness :
    (OP_SETUPVAL exUpvalRun (stackGet exUpvalA.stack (RA 1 exClosureA)) 4 exSetupvalInstr).2
      = Completion.normal Control.break_switch ∧
    stackGet (OP_SETUPVAL exUpvalRun (stackGet exUpvalA.stack (RA 1 exClosureA)) 4
        exSetupvalInstr).1.stack (1 + 0)
      = stackGet exUpvalRun.stack (RA 4 exSetupvalInstr) ∧
    (OP_GETUPVAL (OP_SETUPVAL exUpvalRun (stackGet exUpvalA.stack (RA 1 exClosureA)) 4
        exSetupvalInstr).1
        (stackGet exUpvalAB.stack (RA 1 exClosureB)) 1 exGetupvalInstr).2
      = Completion.normal Control.break_switch ∧
    stackGet (OP_GETUPVAL (OP_SETUPVAL exUpvalRun (stackGet exUpvalA.stack (RA 1 exClosureA)) 4
        exSetupvalInstr).1
        (stackGet exUpvalAB.stack (RA 1 exClosureB)) 1 exGetupvalInstr).1.stack
        (RA 1 exGetupvalInstr)
      = stackGet exUpvalRun.stack (RA 4 exSetupvalInstr) :=
  upvalue_write_through exUpval exUpvalA exUpvalAB exUpvalRun exOuter exOuterProto
    exInnerProto exInnerProto 1 4 1 0 0 0 exClosureA exClosureB exSetupvalInstr
    exGetupvalInstr rfl rfl rfl rfl rfl rfl rfl (fun _ _ h => h) rfl rfl

/-! ## Tail call -/

/-- C12, evaluated where the code departs from it: a first `OP_TAILCALL` from
frame 0 completes and leaves the current frame (record 0) and the call depth
as they were, but the record that `precall` allocated stays linked as the
successor of frame 0; the second `OP_TAILCALL` from the same frame therefore
takes the reuse branch of `precall`, which moves `L.ci` to that record and
throws a `TypeError`. -/
theorem OP_TAILCALL_second_throws :
    (OP_TAILCALL exTail 0 1 exTailInstr).2 = Completion.normal Control.continue_newframe ∧
    (OP_TAILCALL exTail 0 1 exTailInstr).1.ci = exTail.ci ∧
    (OP_TAILCALL exTail 0 1 exTailInstr).1.ciOff = exTail.ciOff ∧
    stackGet (OP_TAILCALL exTail 0 1 exTailInstr).1.stack 1 = TValue.LClosure exProto [] ∧
    (OP_TAILCALL (OP_TAILCALL exTail 0 1 exTailInstr).1 0 1 exTailInstr).2
      = Completion.thrown "TypeError" ∧
    (OP_TAILCALL (OP_TAILCALL exTail 0 1 exTailInstr).1 0 1 exTailInstr).1.ci = some 1 := by
  refine ⟨rfl, rfl, rfl, rfl, rfl, rfl⟩

/-! ## Varargs -/

theorem stackGetInt_natCast (st : List TValue) (a b : Nat) :
    stackGetInt st ((a : Int) + (b : Int)) = stackGet st (a + b) := by
  have h : ¬ ((a : Int) + (b : Int) < 0) := by omega
  have h2 : ((a : Int) + (b : Int)).toNat = a + b := by omega
  simp [stackGetInt, h, h2]

theorem stackSetInt_natCast (st : List TValue) (a b : Nat) (v : TValue) :
    stackSetInt st ((a : Int) + (b : Int)) v = stackSet st (a + b) v := by
  have h : ¬ ((a : Int) + (b : Int) < 0) := by omega
  have h2 : ((a : Int) + (b : Int)).toNat = a + b := by omega
  simp [stackSetInt, h, h2]

/-- The first loop of `adjust_varargs`, started at `i` for `count` iterations
with the fixed arguments at `fixed`: the top advances by `count`, and a slot
below the old top that is not one of the moved arguments is kept. -/
theorem adjust_varargs_move_spec (fixed : Nat) :
    ∀ (count i : Nat) (L : lua_State),
      (forLoopAux (adjust_varargs_move (fixed : Int)) count i L).top = L.top + count ∧
      ∀ j, j < L.top → ¬ (fixed + i ≤ j ∧ j < fixed + i + count) →
        stackGet (forLoopAux (adjust_varargs_move (fixed : Int)) count i L).stack j
          = stackGet L.stack j := by
  intro count
  induction count with
  | zero => intro i L; simp [forLoopAux]
  | succ count ih =>
    intro i L
    simp only [forLoopAux]
    obtain ⟨htop, hget⟩ := ih (i + 1) (adjust_varargs_move (fixed : Int) i L)
    have htop1 : (adjust_varargs_move (fixed : Int) i L).top = L.top + 1 := by
      simp [adjust_varargs_move, push]
    refine ⟨by rw [htop, htop1]; omega, fun j hj hout => ?_⟩
    rw [hget j (by rw [htop1]; omega) (by omega)]
    simp only [adjust_varargs_move, push, stackGetInt_natCast, stackSetInt_natCast,
      stackGet_stackSet]
    have h1 : ¬ (j = fixed + i) := by omega
    have h2 : ¬ (j = L.top) := by omega
    simp [h1, h2]

/-- The variable arguments are left in place by `adjust_varargs`: with
`actual` arguments below the top, the slots from the one after the last fixed
parameter up to the old top are kept. -/
theorem adjust_varargs_keeps_extra (L : lua_State) (p : Proto) (off actual : Nat)
    (htop : L.top = off + 1 + actual) (j : Nat)
    (h1 : off + 1 + p.numparams ≤ j) (h2 : j < L.top) :
    stackGet (adjust_varargs L p (actual : Int)).1.stack j = stackGet L.stack j := by
  have hfixed : (L.top : Int) - (actual : Int) = ((off + 1 : Nat) : Int) := by
    rw [htop]; push_cast; omega
  simp only [adjust_varargs, forLoop, hfixed, Int.toNat_ofNat, Nat.sub_zero]
  obtain ⟨mtop, mget⟩ := adjust_varargs_move_spec (off + 1) (min p.numparams actual) 0 L
  obtain ⟨_, pget⟩ := padLoop_spec (p.numparams - min p.numparams actual)
    (min p.numparams actual)
    (forLoopAux (adjust_varargs_move ((off + 1 : Nat) : Int)) (min p.numparams actual) 0 L)
  rw [pget j, mtop]
  have hmin : min p.numparams actual ≤ p.numparams := Nat.min_le_left _ _
  have hno : ¬ (L.top + min p.numparams actual ≤ j ∧
      j < L.top + min p.numparams actual + (p.numparams - min p.numparams actual)) := by
    omega
  simp only [hno, if_false]
  exact mget j h2 (by omega)

/-- The loop `for (; j < b; j++) L.stack[ra + j] = nil`, started at `i` for
`count` iterations. -/
theorem nilLoop_get (ra : Nat) :
    ∀ (count i : Nat) (st : List TValue) (j : Nat),
      stackGet (forLoopAux (fun j st => stackSet st (ra + j) nil) count i st) j
        = if ra + i ≤ j ∧ j < ra + i + count then nil else stackGet st j := by
  intro count
  induction count with
  | zero =>
    intro i st j
    have : ¬ (ra + i ≤ j ∧ j < ra + i) := by omega
    simp [forLoopAux, this]
  | succ count ih =>
    intro i st j
    simp only [forLoopAux]
    rw [ih (i + 1) _ j, stackGet_stackSet]
    by_cases hj : j = ra + i
    · have a1 : ¬ (ra + (i + 1) ≤ j ∧ j < ra + (i + 1) + count) := by omega
      have a2 : ra + i ≤ j ∧ j < ra + i + (count + 1) := by omega
      simp [a1, a2, hj]
    · by_cases hin : ra + (i + 1) ≤ j ∧ j < ra + (i + 1) + count
      · have a2 : ra + i ≤ j ∧ j < ra + i + (count + 1) := by omega
        simp [hin, a2]
      · have a2 : ¬ (ra + i ≤ j ∧ j < ra + i + (count + 1)) := by omega
        simp [hin, a2, hj]

/-- What `OP_VARARG` does in a frame `fr` with base `base`, `n` being the
number of variable arguments `base - fr.funcOff - numparams - 1` (0 when that
is negative) and `b` the number of values asked for (`n` when `B = 0`): it
completes, copies the first `min b n` of the `n` slots below the base to
`R[A] ..`, writes nil to the rest of the `b` registers, and sets the top to
`R[A] + n` when `B = 0`. -/
theorem OP_VARARG_spec (L : lua_State) (ci base : Nat) (fr : CallInfo) (p : Proto)
    (upvals : List (Option Nat)) (i : Instruction)
    (hfr : L.cis[ci]? = some fr) (hbase : fr.base = base) :
    (OP_VARARG L ci (TValue.LClosure p upvals) base i).2
      = Completion.normal Control.break_switch ∧
    (∀ j, j < min (if i.B = 0 then base - fr.funcOff - p.numparams - 1 else i.B - 1)
        (base - fr.funcOff - p.numparams - 1) →
      stackGet (OP_VARARG L ci (TValue.LClosure p upvals) base i).1.stack (RA base i + j)
        = stackGet L.stack (base - (base - fr.funcOff - p.numparams - 1) + j)) ∧
    (∀ j, min (if i.B = 0 then base - fr.funcOff - p.numparams - 1 else i.B - 1)
        (base - fr.funcOff - p.numparams - 1) ≤ j →
      j < (if i.B = 0 then base - fr.funcOff - p.numparams - 1 else i.B - 1) →
      stackGet (OP_VARARG L ci (TValue.LClosure p upvals) base i).1.stack (RA base i + j)
        = nil) ∧
    (i.B = 0 → (OP_VARARG L ci (TValue.LClosure p upvals) base i).1.top
      = RA base i + (base - fr.funcOff - p.numparams - 1)) := by
  generalize hn : base - fr.funcOff - p.numparams - 1 = n
  have hnI : (if (base : Int) - fr.funcOff - p.numparams - 1 < 0 then 0
      else ((base : Int) - fr.funcOff - p.numparams - 1).toNat) = n := by
    split_ifs <;> omega
  have hle : n ≤ base := by omega
  have hbody : (fun (j : Nat) (st : List TValue) =>
        stackSet st (RA base i + j) (stackGetInt st ((base : Int) - (n : Int) + (j : Int))))
      = (fun (j : Nat) (st : List TValue) =>
        stackSet st (RA base i + j) (stackGet st (base - n + j))) := by
    funext j st
    have : (base : Int) - (n : Int) + (j : Int) = ((base - n : Nat) : Int) + (j : Int) := by
      omega
    rw [this, stackGetInt_natCast]
  have hra : base - n + n ≤ RA base i := by simp [RA]; omega
  by_cases hB : i.B = 0
  · have hall : decide ((i.B : Int) - 1 < 0) = true := by simp [hB]
    have hst : (OP_VARARG L ci (TValue.LClosure p upvals) base i)
        = ({ L with
              top := RA base i + n,
              stack := forLoop n n (fun j st => stackSet st (RA base i + j) nil)
                (forLoop 0 n (fun j st =>
                  stackSet st (RA base i + j) (stackGet st (base - n + j))) L.stack) },
            Completion.normal Control.break_switch) := by
      simp only [OP_VARARG, hfr, TValue.p, hnI, hall, if_true, hbase, Nat.min_self, hbody]
    rw [hst]
    simp only [hB, if_true, Nat.min_self, forLoop_self]
    refine ⟨trivial, fun j hj => ?_, fun j h1 h2 => by omega, fun _ => trivial⟩
    rw [copyLoop_forLoop_get (base - n) (RA base i) n L.stack (Or.inr hra)]
    have : RA base i ≤ RA base i + j ∧ RA base i + j < RA base i + n := by omega
    simp [this]
  · have hall : decide ((i.B : Int) - 1 < 0) = false := by
      simp only [decide_eq_false_iff_not]; omega
    have hb : ((i.B : Int) - 1).toNat = i.B - 1 := by omega
    have hst : (OP_VARARG L ci (TValue.LClosure p upvals) base i)
        = ({ L with
              stack := forLoop (min (i.B - 1) n) (i.B - 1)
                (fun j st => stackSet st (RA base i + j) nil)
                (forLoop 0 (min (i.B - 1) n) (fun j st =>
                  stackSet st (RA base i + j) (stackGet st (base - n + j))) L.stack) },
            Completion.normal Control.break_switch) := by
      simp only [OP_VARARG, hfr, TValue.p, hnI, hall, hb, Bool.false_eq_true, if_false, hbody]
    rw [hst]
    simp only [hB, if_false]
    have hmin : min (i.B - 1) n ≤ n := Nat.min_le_right _ _
    have hmin2 : min (i.B - 1) n ≤ i.B - 1 := Nat.min_le_left _ _
    have hcopy := fun j => copyLoop_forLoop_get (base - n) (RA base i) (min (i.B - 1) n)
      L.stack (Or.inr (by omega)) j
    refine ⟨trivial, fun j hj => ?_, fun j h1 h2 => ?_, fun h => h.elim⟩
    · simp only [forLoop]
      rw [nilLoop_get]
      have a1 : ¬ (RA base i + min (i.B - 1) n ≤ RA base i + j ∧
          RA base i + j < RA base i + min (i.B - 1) n + (i.B - 1 - min (i.B - 1) n)) := by
        omega
      simp only [a1, if_false]
      have := hcopy (RA base i + j)
      simp only [forLoop] at this
      rw [this]
      have a2 : RA base i ≤ RA base i + j ∧ RA base i + j < RA base i + min (i.B - 1) n := by
        omega
      simp [a2]
    · simp only [forLoop]
      rw [nilLoop_get]
      have a1 : RA base i + min (i.B - 1) n ≤ RA base i + j ∧
          RA base i + j < RA base i + min (i.B - 1) n + (i.B - 1 - min (i.B - 1) n) := by
        omega
      simp [a1]

/-- C11: let a vararg prototype with `numparams` fixed parameters be called by
`precall` with `a` actual arguments (`L.top = off + 1 + a`) from a frame with
no successor record. `precall` returns and the new current frame has base
`off + 1 + a`. `OP_VARARG` run in that frame completes; with `n = a -
numparams` (0 when `a ≤ numparams`) and `b` the number of values asked for
(`n` when `B = 0`, `B - 1` otherwise), it writes to `R[A] + j` the excess
argument that was in `off + 1 + numparams + j` for `j < min b n`, nil for
`min b n ≤ j < b`, and when `B = 0` it sets the stack top to `R[A] + n`. -/
theorem vararg_after_precall (L : lua_State) (off a cur : Nat) (p : Proto)
    (upvals : List (Option Nat)) (nresults : Int) (curInfo : CallInfo) (i : Instruction)
    (hv : p.is_vararg = true) (htop : L.top = off + 1 + a)
    (hci : L.ci = some cur) (hcur : L.cis[cur]? = some curInfo)
    (hnext : curInfo.next = none) :
    (precall L off (TValue.LClosure p upvals) nresults).2
      = Completion.normal JSValue.undefined ∧
    (precall L off (TValue.LClosure p upvals) nresults).1.ci = some L.cis.length ∧
    ((precall L off (TValue.LClosure p upvals) nresults).1.cis[L.cis.length]?).map
      CallInfo.base = some (off + 1 + a) ∧
    (OP_VARARG (precall L off (TValue.LClosure p upvals) nresults).1 L.cis.length
      (TValue.LClosure p upvals) (off + 1 + a) i).2 = Completion.normal Control.break_switch ∧
    (∀ j, j < min (if i.B = 0 then a - p.numparams else i.B - 1) (a - p.numparams) →
      stackGet (OP_VARARG (precall L off (TValue.LClosure p upvals) nresults).1 L.cis.length
        (TValue.LClosure p upvals) (off + 1 + a) i).1.stack (RA (off + 1 + a) i + j)
        = stackGet L.stack (off + 1 + p.numparams + j)) ∧
    (∀ j, min (if i.B = 0 then a - p.numparams else i.B - 1) (a - p.numparams) ≤ j →
      j < (if i.B = 0 then a - p.numparams else i.B - 1) →
      stackGet (OP_VARARG (precall L off (TValue.LClosure p upvals) nresults).1 L.cis.length
        (TValue.LClosure p upvals) (off + 1 + a) i).1.stack (RA (off + 1 + a) i + j) = nil) ∧
    (i.B = 0 →
      (OP_VARARG (precall L off (TValue.LClosure p upvals) nresults).1 L.cis.length
        (TValue.LClosure p upvals) (off + 1 + a) i).1.top
        = RA (off + 1 + a) i + (a - p.numparams)) := by
  obtain ⟨a1, a2, _, a4⟩ := precall_adjust_frames L off p
  have hbase : (precall_adjust L off p).2 = off + 1 + a := by rw [a4]; simp [hv, htop]
  have hadj : (precall_adjust L off p).1 = (adjust_varargs L p (a : Int)).1 := by
    have : (L.top : Int) - (off : Int) - 1 = (a : Int) := by rw [htop]; push_cast; omega
    simp [precall_adjust, hv, this]
  have hP : precall L off (TValue.LClosure p upvals) nresults
      = ({ (precall_adjust L off p).1 with
            cis := ((precall_adjust L off p).1.cis.set cur
                { curInfo with next := some (precall_adjust L off p).1.cis.length }) ++
              [{ func := TValue.LClosure p upvals, funcOff := off,
                 top := (precall_adjust L off p).2 + p.maxstacksize,
                 previous := some cur, next := none, nresults := nresults,
                 base := (precall_adjust L off p).2, savedpc := p.code, pcOff := 0 }],
            ci := some (precall_adjust L off p).1.cis.length,
            ciOff := (precall_adjust L off p).1.ciOff + 1,
            top := (precall_adjust L off p).2 + p.maxstacksize },
          Completion.normal JSValue.undefined) := by
    rw [precall_LClosure,
      precall_next_ci_fresh _ off _ nresults p _ cur curInfo (a1.trans hci)
        (by rw [a2]; exact hcur) hnext]
  rw [hP]
  simp only [a2, hbase]
  have hfr : (L.cis.set cur { curInfo with next := some L.cis.length } ++
      [({ func := TValue.LClosure p upvals, funcOff := off,
          top := off + 1 + a + p.maxstacksize, previous := some cur, next := none,
          nresults := nresults, base := off + 1 + a, savedpc := p.code,
          pcOff := 0 } : CallInfo)])[L.cis.length]?
      = some { func := TValue.LClosure p upvals, funcOff := off,
               top := off + 1 + a + p.maxstacksize, previous := some cur, next := none,
               nresults := nresults, base := off + 1 + a, savedpc := p.code, pcOff := 0 } := by
    rw [List.getElem?_append_right (by simp)]
    simp
  obtain ⟨v1, v2, v3, v4⟩ := OP_VARARG_spec
    { (precall_adjust L off p).1 with
      cis := (L.cis.set cur { curInfo with next := some L.cis.length }) ++
        [{ func := TValue.LClosure p upvals, funcOff := off,
           top := off + 1 + a + p.maxstacksize, previous := some cur, next := none,
           nresults := nresults, base := off + 1 + a, savedpc := p.code, pcOff := 0 }],
      ci := some L.cis.length,
      ciOff := (precall_adjust L off p).1.ciOff + 1,
      top := off + 1 + a + p.maxstacksize }
    L.cis.length (off + 1 + a) _ p upvals i hfr rfl
  have hn : off + 1 + a - off - p.numparams - 1 = a - p.numparams := by omega
  simp only [hn] at v2 v3 v4
  refine ⟨trivial, trivial, by rw [hfr]; rfl, v1, fun j hj => ?_, v3, v4⟩
  rw [v2 j hj]
  have hjn : j < a - p.numparams := lt_of_lt_of_le hj (Nat.min_le_right _ _)
  have hidx : off + 1 + a - (a - p.numparams) + j = off + 1 + p.numparams + j := by omega
  simp only [hidx, hadj]
  exact adjust_varargs_keeps_extra L p off a htop _ (by omega) (by omega)

theorem vararg_after_precall_witness :
    (precall exVarargCall 0 (TValue.LClosure exVarargProto []) 1).2
      = Completion.normal JSValue.undefined ∧
    (precall exVarargCall 0 (TValue.LClosure exVarargProto []) 1).1.ci
      = some exVarargCall.cis.length ∧
    ((precall exVarargCall 0 (TValue.LClosure exVarargProto []) 1).1.cis[
      exVarargCall.cis.length]?).map CallInfo.base = some (0 + 1 + 3) ∧
    (OP_VARARG (precall exVarargCall 0 (TValue.LClosure exVarargProto []) 1).1
      exVarargCall.cis.length (TValue.LClosure exVarargProto []) (0 + 1 + 3)
      exVarargInstr).2 = Completion.normal Control.break_switch ∧
    (∀ j, j < min (if exVarargInstr.B = 0 then 3 - exVarargProto.numparams
        else exVarargInstr.B - 1) (3 - exVarargProto.numparams) →
      stackGet (OP_VARARG (precall exVarargCall 0 (TValue.LClosure exVarargProto []) 1).1
        exVarargCall.cis.length (TValue.LClosure exVarargProto []) (0 + 1 + 3)
        exVarargInstr).1.stack (RA (0 + 1 + 3) exVarargInstr + j)
        = stackGet exVarargCall.stack (0 + 1 + exVarargProto.numparams + j)) ∧
    (∀ j, min (if exVarargInstr.B = 0 then 3 - exVarargProto.numparams
        else exVarargInstr.B - 1) (3 - exVarargProto.numparams) ≤ j →
      j < (if exVarargInstr.B = 0 then 3 - exVarargProto.numparams
        else exVarargInstr.B - 1) →
      stackGet (OP_VARARG (precall exVarargCall 0 (TValue.LClosure exVarargProto []) 1).1
        exVarargCall.cis.length (TValue.LClosure exVarargProto []) (0 + 1 + 3)
        exVarargInstr).1.stack (RA (0 + 1 + 3) exVarargInstr + j) = nil) ∧
    (exVarargInstr.B = 0 →
      (OP_VARARG (precall exVarargCall 0 (TValue.LClosure exVarargProto []) 1).1
        exVarargCall.cis.length (TValue.LClosure exVarargProto []) (0 + 1 + 3)
        exVarargInstr).1.top
        = RA (0 + 1 + 3) exVarargInstr + (3 - exVarargProto.numparams)) :=
  vararg_after_precall exVarargCall 0 3 0 exVarargProto [] 1 exFrame exVarargInstr
    rfl rfl rfl rfl rfl

/-! ## `utf8_decode` -/

/-- A natural number below `2^31` is its own 32-bit wrap. -/
theorem ToInt32_natCast (n : Nat) (h : n < 2147483648) : ToInt32 (n : Int) = n := by
  unfold ToInt32; omega

theorem int32Or_natCast (a b : Nat) (ha : a < 2147483648) (hb : b < 2147483648) :
    int32Or (a : Int) (b : Int) = ((a ||| b : Nat) : Int) := by
  unfold int32Or
  rw [ToInt32_natCast a ha, ToInt32_natCast b hb]
  rfl

theorem int32Shl_natCast (a n : Nat) (hn : n < 32) (h : a * 2 ^ n < 2147483648) :
    int32Shl (a : Int) (n : Int) = ((a * 2 ^ n : Nat) : Int) := by
  have ha : a < 2147483648 := by
    have : 1 ≤ 2 ^ n := Nat.one_le_two_pow
    nlinarith
  unfold int32Shl
  rw [ToInt32_natCast a ha, ToInt32_natCast n (by omega)]
  have : ((n : Int) % 32).toNat = n := by omega
  rw [this]
  have := ToInt32_natCast (a * 2 ^ n) h
  push_cast at this ⊢
  exact this

set_option maxRecDepth 100000 in
/-- The test `(cc & 0xC0) != 0x80` of the loop on a byte: the byte is a
continuation byte exactly when it lies in `0x80..0xBF`. -/
theorem utf8_cont_iff : ∀ cc : Nat, cc < 256 →
    (int32And (cc : Int) 0xC0 = 0x80 ↔ 128 ≤ cc ∧ cc < 192) := by
  decide

set_option maxRecDepth 100000 in
theorem utf8_cont_low : ∀ cc : Nat, cc < 256 → 128 ≤ cc → cc < 192 →
    int32And (cc : Int) 0x3F = ((cc - 128 : Nat) : Int) := by
  decide

theorem Nat_or_low (x y n : Nat) (hy : y < 2 ^ n) : (x * 2 ^ n) ||| y = x * 2 ^ n + y := by
  rw [Nat.mul_comm x, ← Nat.mul_add_lt_is_or hy]

/-- One accumulation `res = (res << 6) | (cc & 0x3F)` on a continuation byte. -/
theorem utf8_acc_step (r cc : Nat) (hr : r < 2 ^ 24) (h1 : 128 ≤ cc) (h2 : cc < 192) :
    int32Or (int32Shl (r : Int) 6) (int32And (cc : Int) 0x3F)
      = ((r * 64 + (cc - 128) : Nat) : Int) := by
  have hs : int32Shl (r : Int) 6 = ((r * 2 ^ 6 : Nat) : Int) :=
    int32Shl_natCast r 6 (by norm_num) (by norm_num at hr ⊢; omega)
  rw [hs, utf8_cont_low cc (by omega) h1 h2,
    int32Or_natCast (r * 2 ^ 6) (cc - 128) (by norm_num at hr ⊢; omega) (by omega),
    Nat_or_low r (cc - 128) 6 (by norm_num; omega)]
  norm_num

theorem utf8_final_or (res h n : Nat) (hres : res < 2 ^ n) (hb : h * 2 ^ n + res < 2147483648) :
    int32Or (res : Int) ((h * 2 ^ n : Nat) : Int) = ((h * 2 ^ n + res : Nat) : Int) := by
  rw [int32Or_natCast res (h * 2 ^ n) (by omega) (by omega), Nat.lor_comm, Nat_or_low h res n hres]

theorem utf8_decode_loop_stop (rest : List Nat) (c res : Int) (count : Nat) (h : int32And c 0x40 = 0) :
    utf8_decode_loop rest c res count = some (c, res, count) := by
  cases rest <;> simp [utf8_decode_loop, h]

theorem utf8_decode_loop_step (cc : Nat) (rest : List Nat) (c res : Int) (count : Nat)
    (h : int32And c 0x40 ≠ 0) (hc : int32And (cc : Int) 0xC0 = 0x80) :
    utf8_decode_loop (cc :: rest) c res count
      = utf8_decode_loop rest (int32Shl c 1)
          (int32Or (int32Shl res 6) (int32And (cc : Int) 0x3F)) (count + 1) := by
  simp [utf8_decode_loop, h, hc]

theorem utf8_decode_loop_nil (c res : Int) (count : Nat) (h : int32And c 0x40 ≠ 0) :
    utf8_decode_loop [] c res count = none := by
  simp [utf8_decode_loop, h]

theorem utf8_decode_loop_bad (cc : Nat) (rest : List Nat) (c res : Int) (count : Nat)
    (h : int32And c 0x40 ≠ 0) (hc : int32And (cc : Int) 0xC0 ≠ 0x80) :
    utf8_decode_loop (cc :: rest) c res count = none := by
  simp [utf8_decode_loop, h, hc]

/-- The loop never lowers `count`. -/
theorem utf8_decode_loop_count_le : ∀ (rest : List Nat) (c res : Int) (count : Nat) (c1 r1 : Int) (n : Nat),
    utf8_decode_loop rest c res count = some (c1, r1, n) → count ≤ n := by
  intro rest
  induction rest with
  | nil =>
    intro c res count c1 r1 n h
    by_cases hb : int32And c 0x40 = 0
    · simp [utf8_decode_loop, hb] at h; omega
    · simp [utf8_decode_loop, hb] at h
  | cons cc rest ih =>
    intro c res count c1 r1 n h
    by_cases hb : int32And c 0x40 = 0
    · simp [utf8_decode_loop, hb] at h; omega
    · by_cases hc : int32And (cc : Int) 0xC0 = 0x80
      · rw [utf8_decode_loop_step cc rest c res count hb hc] at h
        have := ih _ _ _ _ _ _ h
        omega
      · rw [utf8_decode_loop_bad cc rest c res count hb hc] at h
        cases h

set_option maxRecDepth 100000 in
theorem utf8_lead1 : ∀ c0 : Nat, c0 < 256 → 128 ≤ c0 → c0 < 192 →
    int32And (c0 : Int) 0x40 = 0 ∧
    int32Or 0 (int32Shl (int32And (c0 : Int) 0x7F) 0) ≤ 0xFF := by
  decide

set_option maxRecDepth 100000 in
/-- A first byte in `0xC0..0xDF` keeps the loop going for one turn; the bits it
contributes are its low five, shifted by 6. -/
theorem utf8_lead2 : ∀ c0 : Nat, c0 < 256 → 192 ≤ c0 → c0 < 224 →
    int32And (c0 : Int) 0x40 ≠ 0 ∧ int32And (int32Shl (c0 : Int) 1) 0x40 = 0 ∧
    int32Shl (int32And (int32Shl (c0 : Int) 1) 0x7F) 5 = (((c0 - 192) * 2 ^ 6 : Nat) : Int) := by
  decide

set_option maxRecDepth 100000 in
theorem utf8_lead3 : ∀ c0 : Nat, c0 < 256 → 224 ≤ c0 → c0 < 240 →
    int32And (c0 : Int) 0x40 ≠ 0 ∧ int32And (int32Shl (c0 : Int) 1) 0x40 ≠ 0 ∧
    int32And (int32Shl (int32Shl (c0 : Int) 1) 1) 0x40 = 0 ∧
    int32Shl (int32And (int32Shl (int32Shl (c0 : Int) 1) 1) 0x7F) 10
      = (((c0 - 224) * 2 ^ 12 : Nat) : Int) := by
  decide

set_option maxRecDepth 100000 in
theorem utf8_lead4 : ∀ c0 : Nat, c0 < 256 → 240 ≤ c0 → c0 < 248 →
    int32And (c0 : Int) 0x40 ≠ 0 ∧ int32And (int32Shl (c0 : Int) 1) 0x40 ≠ 0 ∧
    int32And (int32Shl (int32Shl (c0 : Int) 1) 1) 0x40 ≠ 0 ∧
    int32And (int32Shl (int32Shl (int32Shl (c0 : Int) 1) 1) 1) 0x40 = 0 ∧
    int32Shl (int32And (int32Shl (int32Shl (int32Shl (c0 : Int) 1) 1) 1) 0x7F) 15
      = (((c0 - 240) * 2 ^ 18 : Nat) : Int) := by
  decide

set_option maxRecDepth 100000 in
theorem utf8_lead5 : ∀ c0 : Nat, c0 < 256 → 248 ≤ c0 →
    int32And (c0 : Int) 0x40 ≠ 0 ∧ int32And (int32Shl (c0 : Int) 1) 0x40 ≠ 0 ∧
    int32And (int32Shl (int32Shl (c0 : Int) 1) 1) 0x40 ≠ 0 ∧
    int32And (int32Shl (int32Shl (int32Shl (c0 : Int) 1) 1) 1) 0x40 ≠ 0 := by
  decide

theorem utf8_decode_ascii (c0 : Nat) (rest : List Nat) (h : c0 < 128) :
    utf8_decode (c0 :: rest) = some { string := rest, code := (c0 : Int) } := by
  simp [utf8_decode, h]

theorem utf8_decode_high (c0 : Nat) (rest : List Nat) (h : 128 ≤ c0) :
    utf8_decode (c0 :: rest)
      = utf8_decode_finish (c0 :: rest) (utf8_decode_loop rest (c0 : Int) 0 0) := by
  have h' : ¬ c0 < 128 := by omega
  simp only [utf8_decode, List.head?_cons, h', decide_False, Option.getD_some, List.drop_succ_cons,
    List.drop_zero]
  cases utf8_decode_loop rest (c0 : Int) 0 0 with
  | none => simp [utf8_decode_finish]
  | some r =>
    obtain ⟨c, res, count⟩ := r
    simp [utf8_decode_finish]

theorem utf8_decode_cont (c0 : Nat) (rest : List Nat) (h0 : c0 < 256) (h1 : 128 ≤ c0)
    (h2 : c0 < 192) : utf8_decode (c0 :: rest) = none := by
  obtain ⟨a1, a2⟩ := utf8_lead1 c0 h0 h1 h2
  rw [utf8_decode_high c0 rest h1, utf8_decode_loop_stop rest _ _ _ a1]
  simp only [utf8_decode_finish]
  norm_num at a2 ⊢
  simp [a2]

theorem utf8_decode_finish_eq (s : List Nat) (c res : Int) (count v limit : Nat)
    (hcount : count ≤ 3)
    (hlim : ([0xFF, 0x7F, 0x7FF, 0xFFFF] : List Int)[count]? = some (limit : Int))
    (hres : int32Or res (int32Shl (int32And c 0x7F) ((count * 5 : Nat) : Int)) = (v : Int)) :
    utf8_decode_finish s (some (c, res, count))
      = if 0x10FFFF < v ∨ v ≤ limit then none
        else some { string := (s.drop count).drop 1, code := (v : Int) } := by
  have hc : ¬ count > 3 := by omega
  simp only [utf8_decode_finish, hres, hlim, hc, false_or, MAXUNICODE]
  by_cases h1 : 0x10FFFF < v
  · have : (v : Int) > 1114111 := by omega
    simp [h1, this]
  · by_cases h2 : v ≤ limit
    · have : (v : Int) ≤ (limit : Int) := by omega
      simp [h2, this]
    · have a : ¬ (v : Int) > 1114111 := by omega
      have b : ¬ (v : Int) ≤ (limit : Int) := by omega
      simp [h1, h2, a, b]

/-- `utf8_decode` on a two-byte sequence. -/
theorem utf8_decode_two (c0 c1 : Nat) (r : List Nat) (h0 : 192 ≤ c0) (h0' : c0 < 224)
    (h1 : 128 ≤ c1) (h1' : c1 < 192) :
    utf8_decode (c0 :: c1 :: r)
      = if (c0 - 192) * 64 + (c1 - 128) ≤ 0x7F then none
        else some { string := r, code := (((c0 - 192) * 64 + (c1 - 128) : Nat) : Int) } := by
  have b0 : c0 < 256 := by omega
  have b1 : c1 < 256 := by omega
  have g0 : 128 ≤ c0 := by omega
  have g1 : c1 - 128 < 2 ^ 6 := by norm_num; omega
  have g2 : (c0 - 192) * 2 ^ 6 + (c1 - 128) < 2147483648 := by norm_num; omega
  have hV : (c0 - 192) * 2 ^ 6 + (c1 - 128) = (c0 - 192) * 64 + (c1 - 128) := by norm_num
  have h3 : ¬ 0x10FFFF < (c0 - 192) * 64 + (c1 - 128) := by omega
  obtain ⟨a1, a2, a3⟩ := utf8_lead2 c0 b0 h0 h0'
  have hc1 := (utf8_cont_iff c1 b1).2 ⟨h1, h1'⟩
  have hacc := utf8_acc_step 0 c1 (by norm_num) h1 h1'
  simp only [Nat.cast_zero, Nat.zero_mul, Nat.zero_add] at hacc
  rw [utf8_decode_high c0 _ g0, utf8_decode_loop_step c1 r _ _ _ a1 hc1, utf8_decode_loop_stop r _ _ _ a2, hacc]
  have hfin := utf8_final_or (c1 - 128) (c0 - 192) 6 g1 g2
  have e5 : ((1 * 5 : Nat) : Int) = 5 := by norm_num
  have hlim : ([0xFF, 0x7F, 0x7FF, 0xFFFF] : List Int)[1]? = some ((0x7F : Nat) : Int) := by
    simp
  rw [utf8_decode_finish_eq _ _ _ 1 ((c0 - 192) * 2 ^ 6 + (c1 - 128)) 0x7F (by norm_num) hlim
    (by rw [e5, a3, hfin])]
  rw [hV]
  simp [h3]

/-- `utf8_decode` on a three-byte sequence. -/
theorem utf8_decode_three (c0 c1 c2 : Nat) (r : List Nat) (h0 : 224 ≤ c0) (h0' : c0 < 240)
    (h1 : 128 ≤ c1) (h1' : c1 < 192) (h2 : 128 ≤ c2) (h2' : c2 < 192) :
    utf8_decode (c0 :: c1 :: c2 :: r)
      = if (c0 - 224) * 4096 + (c1 - 128) * 64 + (c2 - 128) ≤ 0x7FF then none
        else some { string := r,
                    code := (((c0 - 224) * 4096 + (c1 - 128) * 64 + (c2 - 128) : Nat) : Int) } := by
  have b0 : c0 < 256 := by omega
  have b1 : c1 < 256 := by omega
  have b2 : c2 < 256 := by omega
  have g0 : 128 ≤ c0 := by omega
  have g1 : c1 - 128 < 2 ^ 24 := by norm_num; omega
  have g2 : (c1 - 128) * 64 + (c2 - 128) < 2 ^ 12 := by norm_num; omega
  have g3 : (c0 - 224) * 2 ^ 12 + ((c1 - 128) * 64 + (c2 - 128)) < 2147483648 := by
    norm_num; omega
  have hV : (c0 - 224) * 2 ^ 12 + ((c1 - 128) * 64 + (c2 - 128))
      = (c0 - 224) * 4096 + (c1 - 128) * 64 + (c2 - 128) := by norm_num; omega
  have h3 : ¬ 0x10FFFF < (c0 - 224) * 4096 + (c1 - 128) * 64 + (c2 - 128) := by omega
  obtain ⟨a1, a2, a3, a4⟩ := utf8_lead3 c0 b0 h0 h0'
  have hc1 := (utf8_cont_iff c1 b1).2 ⟨h1, h1'⟩
  have hc2 := (utf8_cont_iff c2 b2).2 ⟨h2, h2'⟩
  have hacc1 := utf8_acc_step 0 c1 (by norm_num) h1 h1'
  simp only [Nat.cast_zero, Nat.zero_mul, Nat.zero_add] at hacc1
  have hacc2 := utf8_acc_step (c1 - 128) c2 g1 h2 h2'
  rw [utf8_decode_high c0 _ g0, utf8_decode_loop_step c1 _ _ _ _ a1 hc1, hacc1,
    utf8_decode_loop_step c2 r _ _ _ a2 hc2, hacc2, utf8_decode_loop_stop r _ _ _ a3]
  have hfin := utf8_final_or ((c1 - 128) * 64 + (c2 - 128)) (c0 - 224) 12 g2 g3
  have e5 : ((2 * 5 : Nat) : Int) = 10 := by norm_num
  have hlim : ([0xFF, 0x7F, 0x7FF, 0xFFFF] : List Int)[2]? = some ((0x7FF : Nat) : Int) := by
    simp
  rw [utf8_decode_finish_eq _ _ _ 2
    ((c0 - 224) * 2 ^ 12 + ((c1 - 128) * 64 + (c2 - 128))) 0x7FF (by norm_num) hlim
    (by rw [e5, a4, hfin])]
  rw [hV]
  simp [h3]

/-- `utf8_decode` on a four-byte sequence. -/
theorem utf8_decode_four (c0 c1 c2 c3 : Nat) (r : List Nat) (h0 : 240 ≤ c0) (h0' : c0 < 248)
    (h1 : 128 ≤ c1) (h1' : c1 < 192) (h2 : 128 ≤ c2) (h2' : c2 < 192)
    (h3 : 128 ≤ c3) (h3' : c3 < 192) :
    utf8_decode (c0 :: c1 :: c2 :: c3 :: r)
      = if 0x10FFFF < (c0 - 240) * 262144 + (c1 - 128) * 4096 + (c2 - 128) * 64 + (c3 - 128) ∨
            (c0 - 240) * 262144 + (c1 - 128) * 4096 + (c2 - 128) * 64 + (c3 - 128) ≤ 0xFFFF
        then none
        else some { string := r,
                    code := (((c0 - 240) * 262144 + (c1 - 128) * 4096 + (c2 - 128) * 64 +
                      (c3 - 128) : Nat) : Int) } := by
  have b0 : c0 < 256 := by omega
  have b1 : c1 < 256 := by omega
  have b2 : c2 < 256 := by omega
  have b3 : c3 < 256 := by omega
  have g0 : 128 ≤ c0 := by omega
  have g1 : c1 - 128 < 2 ^ 24 := by norm_num; omega
  have g2 : (c1 - 128) * 64 + (c2 - 128) < 2 ^ 24 := by norm_num; omega
  have g3 : ((c1 - 128) * 64 + (c2 - 128)) * 64 + (c3 - 128) < 2 ^ 18 := by norm_num; omega
  have g4 : (c0 - 240) * 2 ^ 18 + (((c1 - 128) * 64 + (c2 - 128)) * 64 + (c3 - 128))
      < 2147483648 := by norm_num; omega
  have hV : (c0 - 240) * 2 ^ 18 + (((c1 - 128) * 64 + (c2 - 128)) * 64 + (c3 - 128))
      = (c0 - 240) * 262144 + (c1 - 128) * 4096 + (c2 - 128) * 64 + (c3 - 128) := by
    norm_num; omega
  obtain ⟨a1, a2, a3, a4, a5⟩ := utf8_lead4 c0 b0 h0 h0'
  have hc1 := (utf8_cont_iff c1 b1).2 ⟨h1, h1'⟩
  have hc2 := (utf8_cont_iff c2 b2).2 ⟨h2, h2'⟩
  have hc3 := (utf8_cont_iff c3 b3).2 ⟨h3, h3'⟩
  have hacc1 := utf8_acc_step 0 c1 (by norm_num) h1 h1'
  simp only [Nat.cast_zero, Nat.zero_mul, Nat.zero_add] at hacc1
  have hacc2 := utf8_acc_step (c1 - 128) c2 g1 h2 h2'
  have hacc3 := utf8_acc_step ((c1 - 128) * 64 + (c2 - 128)) c3 g2 h3 h3'
  rw [utf8_decode_high c0 _ g0, utf8_decode_loop_step c1 _ _ _ _ a1 hc1, hacc1,
    utf8_decode_loop_step c2 _ _ _ _ a2 hc2, hacc2, utf8_decode_loop_step c3 r _ _ _ a3 hc3, hacc3,
    utf8_decode_loop_stop r _ _ _ a4]
  have hfin := utf8_final_or (((c1 - 128) * 64 + (c2 - 128)) * 64 + (c3 - 128)) (c0 - 240) 18 g3 g4
  have e5 : ((3 * 5 : Nat) : Int) = 15 := by norm_num
  have hlim : ([0xFF, 0x7F, 0x7FF, 0xFFFF] : List Int)[3]? = some ((0xFFFF : Nat) : Int) := by
    simp
  rw [utf8_decode_finish_eq _ _ _ 3
    ((c0 - 240) * 2 ^ 18 + (((c1 - 128) * 64 + (c2 - 128)) * 64 + (c3 - 128))) 0xFFFF
    (by norm_num) hlim (by rw [e5, a5, hfin])]
  rw [hV]
  simp

/-- While the bit `0x40` of `c` is set the loop needs a continuation byte: it
returns `null`, or it consumes one such byte. -/
theorem utf8_decode_loop_need (rest : List Nat) (c res : Int) (count : Nat) (h : int32And c 0x40 ≠ 0)
    (hb : ∀ b ∈ rest, b < 256) :
    utf8_decode_loop rest c res count = none ∨
    ∃ cc r, rest = cc :: r ∧ 128 ≤ cc ∧ cc < 192 ∧ (∀ b ∈ r, b < 256) ∧
      utf8_decode_loop rest c res count
        = utf8_decode_loop r (int32Shl c 1)
            (int32Or (int32Shl res 6) (int32And (cc : Int) 0x3F)) (count + 1) := by
  cases rest with
  | nil => exact Or.inl (utf8_decode_loop_nil c res count h)
  | cons cc r =>
    have hcc : cc < 256 := hb cc (List.mem_cons_self _ _)
    by_cases hc : int32And (cc : Int) 0xC0 = 0x80
    · obtain ⟨h1, h2⟩ := (utf8_cont_iff cc hcc).1 hc
      exact Or.inr ⟨cc, r, rfl, h1, h2, fun b hb1 => hb b (List.mem_cons_of_mem _ hb1),
        utf8_decode_loop_step cc r c res count h hc⟩
    · exact Or.inl (utf8_decode_loop_bad cc r c res count h hc)

theorem utf8_decode_finish_none (s : List Nat) : utf8_decode_finish s none = none := rfl

theorem utf8_decode_finish_count (s : List Nat) (c res : Int) (n : Nat) (h : 3 < n) :
    utf8_decode_finish s (some (c, res, n)) = none := by
  simp [utf8_decode_finish, h]

/-- A first byte of `0xF8` or more asks for at least four continuation bytes,
which `utf8_decode` rejects. -/
theorem utf8_decode_long (c0 : Nat) (rest : List Nat) (h0 : c0 < 256) (h1 : 248 ≤ c0)
    (hb : ∀ b ∈ rest, b < 256) : utf8_decode (c0 :: rest) = none := by
  have g0 : 128 ≤ c0 := by omega
  obtain ⟨a1, a2, a3, a4⟩ := utf8_lead5 c0 h0 h1
  rw [utf8_decode_high c0 rest g0]
  rcases utf8_decode_loop_need rest _ 0 0 a1 hb with e | ⟨c1, r1, -, -, -, hb1, e1⟩
  · rw [e, utf8_decode_finish_none]
  rcases utf8_decode_loop_need r1 _ _ _ a2 hb1 with e | ⟨c2, r2, -, -, -, hb2, e2⟩
  · rw [e1, e, utf8_decode_finish_none]
  rcases utf8_decode_loop_need r2 _ _ _ a3 hb2 with e | ⟨c3, r3, -, -, -, hb3, e3⟩
  · rw [e1, e2, e, utf8_decode_finish_none]
  rcases utf8_decode_loop_need r3 _ _ _ a4 hb3 with e | ⟨c4, r4, -, -, -, -, e4⟩
  · rw [e1, e2, e3, e, utf8_decode_finish_none]
  rw [e1, e2, e3, e4]
  cases hl : utf8_decode_loop r4 _ _ (0 + 1 + 1 + 1 + 1) with
  | none => exact utf8_decode_finish_none _
  | some t =>
    obtain ⟨c, res, n⟩ := t
    have hn := utf8_decode_loop_count_le _ _ _ _ _ _ _ hl
    exact utf8_decode_finish_count _ c res n (Nat.lt_of_lt_of_le (by norm_num) hn)

theorem utf8_decode_nil : utf8_decode [] = none := by decide

theorem utf8_encode_two (c0 c1 : Nat) (h0 : 192 ≤ c0) (h0' : c0 < 224)
    (h1 : 128 ≤ c1) (h1' : c1 < 192) (hv : ¬ (c0 - 192) * 64 + (c1 - 128) ≤ 0x7F) :
    utf8_encode ((c0 - 192) * 64 + (c1 - 128)) = [c0, c1] := by
  have n1 : ¬ (c0 - 192) * 64 + (c1 - 128) < 0x80 := by omega
  have n2 : (c0 - 192) * 64 + (c1 - 128) < 0x800 := by omega
  have q1 : 0xC0 + ((c0 - 192) * 64 + (c1 - 128)) / 64 = c0 := by omega
  have q2 : 0x80 + ((c0 - 192) * 64 + (c1 - 128)) % 64 = c1 := by omega
  rw [utf8_encode, if_neg n1, if_pos n2, q1, q2]

theorem utf8_encode_three (c0 c1 c2 : Nat) (h0 : 224 ≤ c0) (h0' : c0 < 240)
    (h1 : 128 ≤ c1) (h1' : c1 < 192) (h2 : 128 ≤ c2) (h2' : c2 < 192)
    (hv : ¬ (c0 - 224) * 4096 + (c1 - 128) * 64 + (c2 - 128) ≤ 0x7FF) :
    utf8_encode ((c0 - 224) * 4096 + (c1 - 128) * 64 + (c2 - 128)) = [c0, c1, c2] := by
  have n1 : ¬ (c0 - 224) * 4096 + (c1 - 128) * 64 + (c2 - 128) < 0x80 := by omega
  have n2 : ¬ (c0 - 224) * 4096 + (c1 - 128) * 64 + (c2 - 128) < 0x800 := by omega
  have n3 : (c0 - 224) * 4096 + (c1 - 128) * 64 + (c2 - 128) < 0x10000 := by omega
  have q1 : 0xE0 + ((c0 - 224) * 4096 + (c1 - 128) * 64 + (c2 - 128)) / 4096 = c0 := by omega
  have q2 : 0x80 + ((c0 - 224) * 4096 + (c1 - 128) * 64 + (c2 - 128)) / 64 % 64 = c1 := by
    omega
  have q3 : 0x80 + ((c0 - 224) * 4096 + (c1 - 128) * 64 + (c2 - 128)) % 64 = c2 := by omega
  rw [utf8_encode, if_neg n1, if_neg n2, if_pos n3, q1, q2, q3]

theorem utf8_encode_four (c0 c1 c2 c3 : Nat) (h0 : 240 ≤ c0) (h0' : c0 < 248)
    (h1 : 128 ≤ c1) (h1' : c1 < 192) (h2 : 128 ≤ c2) (h2' : c2 < 192)
    (h3 : 128 ≤ c3) (h3' : c3 < 192)
    (hv : ¬ (c0 - 240) * 262144 + (c1 - 128) * 4096 + (c2 - 128) * 64 + (c3 - 128) ≤ 0xFFFF) :
    utf8_encode ((c0 - 240) * 262144 + (c1 - 128) * 4096 + (c2 - 128) * 64 + (c3 - 128))
      = [c0, c1, c2, c3] := by
  have n1 : ¬ (c0 - 240) * 262144 + (c1 - 128) * 4096 + (c2 - 128) * 64 + (c3 - 128) < 0x80 := by
    omega
  have n2 : ¬ (c0 - 240) * 262144 + (c1 - 128) * 4096 + (c2 - 128) * 64 + (c3 - 128) < 0x800 := by
    omega
  have n3 : ¬ (c0 - 240) * 262144 + (c1 - 128) * 4096 + (c2 - 128) * 64 + (c3 - 128)
      < 0x10000 := by omega
  have q1 : 0xF0 + ((c0 - 240) * 262144 + (c1 - 128) * 4096 + (c2 - 128) * 64 + (c3 - 128))
      / 262144 = c0 := by omega
  have q2 : 0x80 + ((c0 - 240) * 262144 + (c1 - 128) * 4096 + (c2 - 128) * 64 + (c3 - 128))
      / 4096 % 64 = c1 := by omega
  have q3 : 0x80 + ((c0 - 240) * 262144 + (c1 - 128) * 4096 + (c2 - 128) * 64 + (c3 - 128))
      / 64 % 64 = c2 := by omega
  have q4 : 0x80 + ((c0 - 240) * 262144 + (c1 - 128) * 4096 + (c2 - 128) * 64 + (c3 - 128))
      % 64 = c3 := by omega
  rw [utf8_encode, if_neg n1, if_neg n2, if_neg n3, q1, q2, q3, q4]

/-- `utf8_decode` inverts `utf8_encode` on every code point up to `0x10FFFF`. -/
theorem utf8_decode_encode (cp : Nat) (rest : List Nat) (h : cp ≤ 0x10FFFF) :
    utf8_decode (utf8_encode cp ++ rest) = some { string := rest, code := (cp : Int) } := by
  by_cases k1 : cp < 0x80
  · rw [utf8_encode, if_pos k1]
    exact utf8_decode_ascii cp rest k1
  by_cases k2 : cp < 0x800
  · have e : (0xC0 + cp / 64 - 192) * 64 + (0x80 + cp % 64 - 128) = cp := by omega
    have hv : ¬ cp ≤ 0x7F := by omega
    have t := utf8_decode_two (0xC0 + cp / 64) (0x80 + cp % 64) rest (by omega) (by omega)
      (by omega) (by omega)
    rw [e, if_neg hv] at t
    rw [utf8_encode, if_neg k1, if_pos k2]
    exact t
  by_cases k3 : cp < 0x10000
  · have e : (0xE0 + cp / 4096 - 224) * 4096 + (0x80 + cp / 64 % 64 - 128) * 64
        + (0x80 + cp % 64 - 128) = cp := by omega
    have hv : ¬ cp ≤ 0x7FF := by omega
    have t := utf8_decode_three (0xE0 + cp / 4096) (0x80 + cp / 64 % 64) (0x80 + cp % 64) rest
      (by omega) (by omega) (by omega) (by omega) (by omega) (by omega)
    rw [e, if_neg hv] at t
    rw [utf8_encode, if_neg k1, if_neg k2, if_pos k3]
    exact t
  · have e : (0xF0 + cp / 262144 - 240) * 262144 + (0x80 + cp / 4096 % 64 - 128) * 4096
        + (0x80 + cp / 64 % 64 - 128) * 64 + (0x80 + cp % 64 - 128) = cp := by omega
    have hv : ¬ (0x10FFFF < cp ∨ cp ≤ 0xFFFF) := by omega
    have t := utf8_decode_four (0xF0 + cp / 262144) (0x80 + cp / 4096 % 64)
      (0x80 + cp / 64 % 64) (0x80 + cp % 64) rest
      (by omega) (by omega) (by omega) (by omega) (by omega) (by omega) (by omega) (by omega)
    rw [e, if_neg hv] at t
    rw [utf8_encode, if_neg k1, if_neg k2, if_neg k3]
    exact t

/-- Whatever `utf8_decode` accepts is the shortest-form encoding of the code
it returns, followed by the string it returns. -/
theorem utf8_decode_inv (s : List Nat) (hs : ∀ b ∈ s, b < 256) (d : Utf8Decoded)
    (h : utf8_decode s = some d) :
    ∃ cp : Nat, d.code = (cp : Int) ∧ cp ≤ 0x10FFFF ∧ s = utf8_encode cp ++ d.string := by
  cases s with
  | nil => rw [utf8_decode_nil] at h; cases h
  | cons c0 rest =>
    have hc0 : c0 < 256 := hs c0 (List.mem_cons_self _ _)
    have hb : ∀ b ∈ rest, b < 256 := fun b hb1 => hs b (List.mem_cons_of_mem _ hb1)
    by_cases k1 : c0 < 128
    · rw [utf8_decode_ascii c0 rest k1] at h
      injection h with h
      subst h
      have k : c0 ≤ 0x10FFFF := by omega
      exact ⟨c0, rfl, k, by rw [utf8_encode, if_pos k1]; rfl⟩
    have g0 : 128 ≤ c0 := Nat.le_of_not_lt k1
    by_cases k2 : c0 < 192
    · rw [utf8_decode_cont c0 rest hc0 g0 k2] at h; cases h
    have g1 : 192 ≤ c0 := Nat.le_of_not_lt k2
    by_cases k5 : 248 ≤ c0
    · rw [utf8_decode_long c0 rest hc0 k5 hb] at h; cases h
    have g5 : c0 < 248 := Nat.lt_of_not_le k5
    have hh := utf8_decode_high c0 rest g0
    by_cases k3 : c0 < 224
    · obtain ⟨a1, a2, a3⟩ := utf8_lead2 c0 hc0 g1 k3
      rcases utf8_decode_loop_need rest _ 0 0 a1 hb with e | ⟨c1, r1, rfl, h1, h1', hb1, -⟩
      · rw [hh, e] at h; cases h
      rw [utf8_decode_two c0 c1 r1 g1 k3 h1 h1'] at h
      by_cases hv : (c0 - 192) * 64 + (c1 - 128) ≤ 0x7F
      · rw [if_pos hv] at h; cases h
      · rw [if_neg hv] at h
        injection h with h
        subst h
        have hm : (c0 - 192) * 64 + (c1 - 128) ≤ 0x10FFFF := by
          clear hh a1 a2 a3 hs hb hb1; omega
        exact ⟨_, rfl, hm, by rw [utf8_encode_two c0 c1 g1 k3 h1 h1' hv]; rfl⟩
    have g3 : 224 ≤ c0 := Nat.le_of_not_lt k3
    by_cases k4 : c0 < 240
    · obtain ⟨a1, a2, a3, a4⟩ := utf8_lead3 c0 hc0 g3 k4
      rcases utf8_decode_loop_need rest _ 0 0 a1 hb with e | ⟨c1, r1, rfl, h1, h1', hb1, e1⟩
      · rw [hh, e] at h; cases h
      rcases utf8_decode_loop_need r1 _ _ _ a2 hb1 with e | ⟨c2, r2, rfl, h2, h2', hb2, -⟩
      · rw [hh, e1, e] at h; cases h
      rw [utf8_decode_three c0 c1 c2 r2 g3 k4 h1 h1' h2 h2'] at h
      by_cases hv : (c0 - 224) * 4096 + (c1 - 128) * 64 + (c2 - 128) ≤ 0x7FF
      · rw [if_pos hv] at h; cases h
      · rw [if_neg hv] at h
        injection h with h
        subst h
        have hm : (c0 - 224) * 4096 + (c1 - 128) * 64 + (c2 - 128) ≤ 0x10FFFF := by
          clear hh a1 a2 a3 a4 hs hb hb1 hb2 e1; omega
        exact ⟨_, rfl, hm, by rw [utf8_encode_three c0 c1 c2 g3 k4 h1 h1' h2 h2' hv]; rfl⟩
    · have g4 : 240 ≤ c0 := Nat.le_of_not_lt k4
      obtain ⟨a1, a2, a3, a4, a5⟩ := utf8_lead4 c0 hc0 g4 g5
      rcases utf8_decode_loop_need rest _ 0 0 a1 hb with e | ⟨c1, r1, rfl, h1, h1', hb1, e1⟩
      · rw [hh, e] at h; cases h
      rcases utf8_decode_loop_need r1 _ _ _ a2 hb1 with e | ⟨c2, r2, rfl, h2, h2', hb2, e2⟩
      · rw [hh, e1, e] at h; cases h
      rcases utf8_decode_loop_need r2 _ _ _ a3 hb2 with e | ⟨c3, r3, rfl, h3, h3', hb3, -⟩
      · rw [hh, e1, e2, e] at h; cases h
      rw [utf8_decode_four c0 c1 c2 c3 r3 g4 g5 h1 h1' h2 h2' h3 h3'] at h
      by_cases hv : 0x10FFFF < (c0 - 240) * 262144 + (c1 - 128) * 4096 + (c2 - 128) * 64
          + (c3 - 128) ∨ (c0 - 240) * 262144 + (c1 - 128) * 4096 + (c2 - 128) * 64
          + (c3 - 128) ≤ 0xFFFF
      · rw [if_pos hv] at h; cases h
      · rw [if_neg hv] at h
        injection h with h
        subst h
        have hm : (c0 - 240) * 262144 + (c1 - 128) * 4096 + (c2 - 128) * 64 + (c3 - 128)
            ≤ 0x10FFFF := Nat.le_of_not_lt (fun x => hv (Or.inl x))
        exact ⟨_, rfl, hm, by
          rw [utf8_encode_four c0 c1 c2 c3 g4 g5 h1 h1' h2 h2' h3 h3'
            (fun x => hv (Or.inr x))]; rfl⟩

/-- C26: `utf8_decode` decodes every well-formed sequence: for every code point
`cp` with `0 ≤ cp ≤ 0x10FFFF` and every byte sequence `rest`,
`utf8_decode(encode(cp) ++ rest)` returns the code `cp` and the string `rest`,
`encode` being the shortest-form UTF-8 encoding in 1 to 4 bytes. -/
theorem utf8_decode_roundtrip (cp : Nat) (rest : List Nat) (h : cp ≤ 0x10FFFF) :
    utf8_decode (utf8_encode cp ++ rest) = some { string := rest, code := (cp : Int) } :=
  utf8_decode_encode cp rest h

theorem utf8_decode_roundtrip_witness :
    8364 ≤ 0x10FFFF ∧ utf8_encode 8364 = [0xE2, 0x82, 0xAC] ∧
    utf8_decode (utf8_encode 8364 ++ [65]) = some { string := [65], code := ((8364 : Nat) : Int) } :=
  ⟨by decide, by decide, utf8_decode_roundtrip 8364 [65] (by decide)⟩

/-- C27: `utf8_decode` returns `null` on every invalid sequence: whenever it
returns an object with `code` and `string` for an array of bytes `s`, then
`code ≤ 0x10FFFF` and `s` is the shortest-form UTF-8 encoding of `code`
followed by `string`. So it returns `null` on the empty input, on an overlong
encoding, on a leading continuation byte, on a missing and on a malformed
continuation byte, on more than 3 continuation bytes and on a value above
`0x10FFFF`. -/
theorem utf8_decode_rejects_invalid (s : List Nat) (hs : ∀ b ∈ s, b < 256) :
    (∀ d : Utf8Decoded, utf8_decode s = some d →
      ∃ cp : Nat, d.code = (cp : Int) ∧ cp ≤ 0x10FFFF ∧ s = utf8_encode cp ++ d.string) ∧
    utf8_decode [] = none ∧
    utf8_decode [0xC0, 0x80] = none ∧ utf8_decode [0xE0, 0x80, 0x80] = none ∧
    utf8_decode [0xF0, 0x80, 0x80, 0x80] = none ∧
    utf8_decode [0x80, 0x41] = none ∧ utf8_decode [0xBF] = none ∧
    utf8_decode [0xE2, 0x82] = none ∧ utf8_decode [0xC3, 0x41] = none ∧
    utf8_decode [0xF8, 0x88, 0x80, 0x80, 0x80] = none ∧
    utf8_decode [0xF4, 0x90, 0x80, 0x80] = none := by
  refine ⟨fun d h => utf8_decode_inv s hs d h, utf8_decode_nil, ?_, ?_, ?_, ?_, ?_, ?_, ?_, ?_, ?_⟩
    <;> decide

theorem utf8_decode_rejects_invalid_witness :
    utf8_decode [0xC3, 0xA9, 0x21] = some { string := [0x21], code := 233 } ∧
    ∃ cp : Nat, (233 : Int) = (cp : Int) ∧ cp ≤ 0x10FFFF ∧
      [0xC3, 0xA9, 0x21] = utf8_encode cp ++ [0x21] :=
  ⟨by decide,
    (utf8_decode_rejects_invalid [0xC3, 0xA9, 0x21] (by decide)).1
      { string := [0x21], code := 233 } (by decide)⟩

/-- C28, evaluated where the code departs from it: on the one-byte string
`"a"` with the defaults `i = j = 1`, the loop of `codepoint` is guarded by
`n < pose - posi`, which is `0 < 0`: nothing is pushed and the count returned
is 0, although `utf8_decode` on the string gives the code point 97. With
`i = 1` and `j = 2` on `"ab"` it pushes 97 alone and returns 1, the character
`b` that starts at position 2 being left out. -/
theorem codepoint_stops_one_short :
    codepoint (fun _ => true) [97] none none = ([], Completion.normal 0) ∧
    utf8_decode [97] = some { string := [], code := 97 } ∧
    codepoint (fun _ => true) [97, 98] (some 1) (some 2) = ([97], Completion.normal 1) := by
  refine ⟨by decide, by decide, by decide⟩

/-- C29: `u_posrelat(pos, len)` translates a relative position: for `pos ≥ 0`
it returns `pos`; for `-len ≤ pos < 0` it returns `len + pos + 1`, which lies
in `1..len`; for `pos < -len` it returns 0; `-1` denotes the last position
`len`; and the result is never negative. -/
theorem u_posrelat_spec (pos : Int) (len : Nat) :
    (0 ≤ pos → u_posrelat pos len = pos) ∧
    (-(len : Int) ≤ pos → pos < 0 →
      u_posrelat pos len = (len : Int) + pos + 1 ∧
      1 ≤ u_posrelat pos len ∧ u_posrelat pos len ≤ (len : Int)) ∧
    (pos < -(len : Int) → u_posrelat pos len = 0) ∧
    u_posrelat (-1) len = (len : Int) ∧
    0 ≤ u_posrelat pos len := by
  unfold u_posrelat
  refine ⟨fun h => ?_, fun h1 h2 => ?_, fun h => ?_, ?_, ?_⟩
  · rw [if_pos h]
  · rw [if_neg (by omega), if_neg (by omega)]
    omega
  · rw [if_neg (by omega), if_pos (by omega)]
  · split_ifs <;> omega
  · split_ifs <;> omega

theorem u_posrelat_spec_witness :
    u_posrelat (-2) 5 = 4 ∧ 1 ≤ u_posrelat (-2) 5 ∧ u_posrelat (-2) 5 ≤ 5 :=
  (u_posrelat_spec (-2) 5).2.1 (by decide) (by decide)

/-- C30 as stated fails in its second half: a script function cannot reach
`select`, because the engine of `lvm.js` runs no native function. With a
native function (tag `LUA_TLCF`, or `LUA_TCCL`) in `R[0]` and the arguments
`"#"`, 1, 2, 3 above it, `OP_CALL` throws the error of `precall` and leaves the
stack as it was. -/
theorem OP_CALL_native_function_throws :
    OP_CALL exSelectCall 0 0 exSelectCallInstr
      = ({ exSelectCall with top := 5 }, Completion.thrown "LUA_TLCF not implemeted yet") ∧
    (precall exSelectCall 0 (TValue.mk CT.LUA_TCCL JSValue.undefined) LUA_MULTRET).2
      = Completion.thrown "LUA_TCCL not implemeted yet" := by
  refine ⟨rfl, rfl⟩

/-- C30, amended: `select` run as a native function on the arguments `"#"`,
`a1`, ..., `ak` pushes the integer `k` and returns 1, for every `k ≥ 0`, so
its result is the integer `k`: with 3 arguments after the selector, the
integer 3. -/
theorem luaB_select_count (as : List TValue) :
    luaB_select (str "#" :: as) = ([int as.length], Completion.normal 1) ∧
    nativeResults (str "#" :: as) (luaB_select (str "#" :: as)).1 1 = [int as.length] ∧
    (∀ a b c : TValue,
      nativeResults [str "#", a, b, c] (luaB_select [str "#", a, b, c]).1 1 = [int 3]) := by
  have h : luaB_select (str "#" :: as) = ([int as.length], Completion.normal 1) := by
    simp [luaB_select, lua_type_is_string, lua_tostring, lua_arg, stackGet, str, TValue.type,
      TValue.value, lua_gettop, int]
  have hr : ∀ (xs : List TValue) (v : TValue), nativeResults xs [v] 1 = [v] := by
    intro xs v
    simp [nativeResults]
  refine ⟨h, ?_, fun a b c => ?_⟩
  · rw [h, hr]
  · have h3 : luaB_select [str "#", a, b, c] = ([int 3], Completion.normal 1) := by
      simp [luaB_select, lua_type_is_string, lua_tostring, lua_arg, stackGet, str, TValue.type,
        TValue.value, lua_gettop, int]
    rw [h3, hr]

/-! ## Bitwise, unary and failing arithmetic cases -/

theorem throwBinaryOnConstants_fst (L : lua_State) (k : List TValue) (i : Instruction) :
    (throwBinaryOnConstants L k i).1 = L := by
  unfold throwBinaryOnConstants
  split <;> rfl

theorem throwBinaryOnConstants_thrown (L : lua_State) (k : List TValue) (i : Instruction) :
    ∃ e, throwBinaryOnConstants L k i = (L, Completion.thrown e) := by
  unfold throwBinaryOnConstants
  split
  · exact ⟨_, rfl⟩
  · exact ⟨_, rfl⟩

theorem OP_ADD_throw_keeps (L : lua_State) (k : List TValue) (base : Nat) (i : Instruction)
    (e : String) (h : (OP_ADD L k base i).2 = Completion.thrown e) : (OP_ADD L k base i).1 = L := by
  revert h
  simp only [OP_ADD]
  generalize RKB L base k i = op1
  generalize RKC L base k i = op2
  cases op1 <;> cases op2 <;> simp [tonumber, TValue.type, TValue.value] <;>
    (repeat' split) <;> simp

theorem OP_SUB_throw_keeps (L : lua_State) (k : List TValue) (base : Nat) (i : Instruction)
    (e : String) (h : (OP_SUB L k base i).2 = Completion.thrown e) : (OP_SUB L k base i).1 = L := by
  revert h
  simp only [OP_SUB]
  generalize RKB L base k i = op1
  generalize RKC L base k i = op2
  cases op1 <;> cases op2 <;> simp [tonumber, TValue.type, TValue.value] <;>
    (repeat' split) <;> simp

theorem OP_MUL_throw_keeps (L : lua_State) (k : List TValue) (base : Nat) (i : Instruction)
    (e : String) (h : (OP_MUL L k base i).2 = Completion.thrown e) : (OP_MUL L k base i).1 = L := by
  revert h
  simp only [OP_MUL]
  generalize RKB L base k i = op1
  generalize RKC L base k i = op2
  cases op1 <;> cases op2 <;> simp [tonumber, TValue.type, TValue.value] <;>
    (repeat' split) <;> simp

theorem OP_MOD_throw_keeps (L : lua_State) (k : List TValue) (base : Nat) (i : Instruction)
    (e : String) (h : (OP_MOD L k base i).2 = Completion.thrown e) : (OP_MOD L k base i).1 = L := by
  revert h
  simp only [OP_MOD]
  generalize RKB L base k i = op1
  generalize RKC L base k i = op2
  cases op1 <;> cases op2 <;> simp [tonumber, TValue.type, TValue.value] <;>
    (repeat' split) <;> simp [throwBinaryOnConstants_fst]

theorem OP_POW_throw_keeps (Math_pow : JSValue → JSValue → JSValue) (L : lua_State)
    (k : List TValue) (base : Nat) (i : Instruction) (e : String)
    (h : (OP_POW Math_pow L k base i).2 = Completion.thrown e) :
    (OP_POW Math_pow L k base i).1 = L := by
  revert h
  simp only [OP_POW]
  generalize RKB L base k i = op1
  generalize RKC L base k i = op2
  cases op1 <;> cases op2 <;> simp [tonumber, TValue.type, TValue.value] <;>
    (repeat' split) <;> simp [throwBinaryOnConstants_fst]

theorem OP_DIV_throw_keeps (L : lua_State) (k : List TValue) (base : Nat) (i : Instruction)
    (e : String) (h : (OP_DIV L k base i).2 = Completion.thrown e) : (OP_DIV L k base i).1 = L := by
  revert h
  simp only [OP_DIV]
  generalize RKB L base k i = op1
  generalize RKC L base k i = op2
  cases op1 <;> cases op2 <;> simp [tonumber, TValue.type, TValue.value] <;>
    (repeat' split) <;> simp [throwBinaryOnConstants_fst]

theorem OP_IDIV_throw_keeps (L : lua_State) (k : List TValue) (base : Nat) (i : Instruction)
    (e : String) (h : (OP_IDIV L k base i).2 = Completion.thrown e) :
    (OP_IDIV L k base i).1 = L := by
  revert h
  simp only [OP_IDIV]
  generalize RKB L base k i = op1
  generalize RKC L base k i = op2
  cases op1 <;> cases op2 <;> simp [tonumber, TValue.type, TValue.value] <;>
    (repeat' split) <;> simp [throwBinaryOnConstants_fst]

theorem bitwiseCase_throw_keeps (op : JSValue → JSValue → JSValue) (L : lua_State)
    (k : List TValue) (base : Nat) (i : Instruction) (e : String)
    (h : (bitwiseCase op L k base i).2 = Completion.thrown e) :
    (bitwiseCase op L k base i).1 = L := by
  revert h
  simp only [bitwiseCase]
  generalize RKB L base k i = op1
  generalize RKC L base k i = op2
  cases op1 <;> cases op2 <;> simp [tonumber, TValue.type, TValue.value] <;>
    (repeat' split) <;> simp [throwBinaryOnConstants_fst]

theorem OP_UNM_throw_keeps (L : lua_State) (base : Nat) (i : Instruction)
    (e : String) (h : (OP_UNM L base i).2 = Completion.thrown e) : (OP_UNM L base i).1 = L := by
  revert h
  simp only [OP_UNM]
  generalize stackGet L.stack (base + i.B) = op
  cases op <;> simp [tonumber, TValue.type, TValue.value] <;> (repeat' split) <;> simp

theorem OP_BNOT_throw_keeps (L : lua_State) (base : Nat) (i : Instruction)
    (e : String) (h : (OP_BNOT L base i).2 = Completion.thrown e) : (OP_BNOT L base i).1 = L := by
  revert h
  simp only [OP_BNOT]
  generalize stackGet L.stack (base + i.B) = op
  cases op <;> simp [tonumber, TValue.type, TValue.value] <;> (repeat' split) <;> simp

/-- A bitwise case on two integer-tagged operands applies the operator to the
two payloads and writes an integer-tagged value. -/
theorem bitwiseCase_int (op : JSValue → JSValue → JSValue) (L : lua_State) (k : List TValue)
    (base : Nat) (i : Instruction)
    (h1 : (RKB L base k i).type = some CT.LUA_TNUMINT)
    (h2 : (RKC L base k i).type = some CT.LUA_TNUMINT) :
    ∃ v1 v2, (RKB L base k i).value = some v1 ∧ (RKC L base k i).value = some v2 ∧
      bitwiseCase op L k base i =
        ({ L with stack := stackSet L.stack (RA base i) (TValue.mk CT.LUA_TNUMINT (op v1 v2)) },
          Completion.normal Control.break_switch) := by
  simp only [bitwiseCase]
  revert h1 h2
  generalize RKB L base k i = op1
  generalize RKC L base k i = op2
  cases op1 <;> cases op2 <;> simp [tonumber, TValue.type, TValue.value]
  intro h1 h2
  simp [h1, h2]

/-- A bitwise case throws, and writes nothing, unless both operands are
integer-tagged. -/
theorem bitwiseCase_not_int (op : JSValue → JSValue → JSValue) (L : lua_State)
    (k : List TValue) (base : Nat) (i : Instruction)
    (h : ¬ ((RKB L base k i).type = some CT.LUA_TNUMINT ∧
      (RKC L base k i).type = some CT.LUA_TNUMINT)) :
    ∃ e, bitwiseCase op L k base i = (L, Completion.thrown e) := by
  simp only [bitwiseCase]
  revert h
  generalize RKB L base k i = op1
  generalize RKC L base k i = op2
  cases op1 <;> cases op2 <;> simp [tonumber, TValue.type, TValue.value] <;>
    (repeat' split) <;> simp_all [throwBinaryOnConstants_thrown]

theorem OP_BNOT_int (L : lua_State) (base : Nat) (i : Instruction)
    (h : (stackGet L.stack (base + i.B)).type = some CT.LUA_TNUMINT) :
    ∃ v, (stackGet L.stack (base + i.B)).value = some v ∧
      OP_BNOT L base i =
        ({ L with stack := stackSet L.stack (RA base i) (TValue.mk CT.LUA_TNUMINT (jsBitNot v)) },
          Completion.normal Control.break_switch) := by
  simp only [OP_BNOT]
  revert h
  generalize stackGet L.stack (base + i.B) = op
  cases op <;> simp [tonumber, TValue.type, TValue.value]
  intro h
  simp [h]

theorem OP_BNOT_not_int (L : lua_State) (base : Nat) (i : Instruction)
    (h : ¬ (stackGet L.stack (base + i.B)).type = some CT.LUA_TNUMINT) :
    ∃ e, OP_BNOT L base i = (L, Completion.thrown e) := by
  simp only [OP_BNOT]
  revert h
  generalize stackGet L.stack (base + i.B) = op
  cases op <;> simp [tonumber, TValue.type, TValue.value] <;>
    (repeat' split) <;> simp_all

/-- C21 as stated fails: on the float-tagged operand 3, whose value is
integral, and the integer-tagged operand 1, `OP_BAND` raises an error and
writes nothing: a `TypeError` when the constant pool is empty, and its own
error, built from the constants `k[0]` and `k[1]`, otherwise. So do `OP_SHL`
on the same operands and `OP_BNOT` on the float-tagged 3. -/
theorem OP_BAND_integral_float_throws :
    OP_BAND (exArith (flt 3) (int 1)) [] 0 exArithInstr
      = (exArith (flt 3) (int 1), Completion.thrown "TypeError") ∧
    OP_BAND (exArith (flt 3) (int 1)) [int 7, int 9] 0 exArithInstr
      = (exArith (flt 3) (int 1),
          Completion.thrown "Can\x27t perform binary operation on 7 and 9") ∧
    OP_SHL (exArith (flt 3) (int 1)) [] 0 exArithInstr
      = (exArith (flt 3) (int 1), Completion.thrown "TypeError") ∧
    OP_BNOT (exArith (flt 3) (int 1)) 0 (exUnaryInstr 0)
      = (exArith (flt 3) (int 1), Completion.thrown "Can\x27t perform unary operation on 3") := by
  refine ⟨rfl, rfl, rfl, rfl⟩

/-- C21, amended: each of `OP_BAND`, `OP_BOR`, `OP_BXOR`, `OP_SHL`, `OP_SHR`
completes exactly when both operands are integer-tagged, and then writes to
`R[A]` the integer-tagged result of the JavaScript operator on the two
payloads; `OP_BNOT` completes exactly when its operand `R[B]` is
integer-tagged, and then writes the integer-tagged `~` of the payload. On any
other operand, a float with an integral value included, they raise an error
and write nothing. -/
theorem bitwise_needs_integer_tags (L : lua_State) (k : List TValue) (base : Nat)
    (i : Instruction) :
    ((RKB L base k i).type = some CT.LUA_TNUMINT ∧ (RKC L base k i).type = some CT.LUA_TNUMINT →
      ∃ v1 v2, (RKB L base k i).value = some v1 ∧ (RKC L base k i).value = some v2 ∧
        OP_BAND L k base i =
          ({ L with
              stack := stackSet L.stack (RA base i) (TValue.mk CT.LUA_TNUMINT (jsBitAnd v1 v2)) },
            Completion.normal Control.break_switch) ∧
        OP_BOR L k base i =
          ({ L with
              stack := stackSet L.stack (RA base i) (TValue.mk CT.LUA_TNUMINT (jsBitOr v1 v2)) },
            Completion.normal Control.break_switch) ∧
        OP_BXOR L k base i =
          ({ L with
              stack := stackSet L.stack (RA base i) (TValue.mk CT.LUA_TNUMINT (jsBitXor v1 v2)) },
            Completion.normal Control.break_switch) ∧
        OP_SHL L k base i =
          ({ L with
              stack := stackSet L.stack (RA base i) (TValue.mk CT.LUA_TNUMINT (jsShl v1 v2)) },
            Completion.normal Control.break_switch) ∧
        OP_SHR L k base i =
          ({ L with
              stack := stackSet L.stack (RA base i) (TValue.mk CT.LUA_TNUMINT (jsShr v1 v2)) },
            Completion.normal Control.break_switch)) ∧
    (¬ ((RKB L base k i).type = some CT.LUA_TNUMINT ∧
        (RKC L base k i).type = some CT.LUA_TNUMINT) →
      (∃ e, OP_BAND L k base i = (L, Completion.thrown e)) ∧
      (∃ e, OP_BOR L k base i = (L, Completion.thrown e)) ∧
      (∃ e, OP_BXOR L k base i = (L, Completion.thrown e)) ∧
      (∃ e, OP_SHL L k base i = (L, Completion.thrown e)) ∧
      (∃ e, OP_SHR L k base i = (L, Completion.thrown e))) ∧
    ((stackGet L.stack (base + i.B)).type = some CT.LUA_TNUMINT →
      ∃ v, (stackGet L.stack (base + i.B)).value = some v ∧
        OP_BNOT L base i =
          ({ L with
              stack := stackSet L.stack (RA base i) (TValue.mk CT.LUA_TNUMINT (jsBitNot v)) },
            Completion.normal Control.break_switch)) ∧
    (¬ (stackGet L.stack (base + i.B)).type = some CT.LUA_TNUMINT →
      ∃ e, OP_BNOT L base i = (L, Completion.thrown e)) := by
  refine ⟨fun h => ?_, fun h => ?_, OP_BNOT_int L base i, OP_BNOT_not_int L base i⟩
  · obtain ⟨v1, v2, e1, e2, _⟩ := bitwiseCase_int jsBitAnd L k base i h.1 h.2
    refine ⟨v1, v2, e1, e2, ?_, ?_, ?_, ?_, ?_⟩
    · obtain ⟨w1, w2, f1, f2, f⟩ := bitwiseCase_int jsBitAnd L k base i h.1 h.2
      rw [e1] at f1; rw [e2] at f2; cases f1; cases f2; exact f
    · obtain ⟨w1, w2, f1, f2, f⟩ := bitwiseCase_int jsBitOr L k base i h.1 h.2
      rw [e1] at f1; rw [e2] at f2; cases f1; cases f2; exact f
    · obtain ⟨w1, w2, f1, f2, f⟩ := bitwiseCase_int jsBitXor L k base i h.1 h.2
      rw [e1] at f1; rw [e2] at f2; cases f1; cases f2; exact f
    · obtain ⟨w1, w2, f1, f2, f⟩ := bitwiseCase_int jsShl L k base i h.1 h.2
      rw [e1] at f1; rw [e2] at f2; cases f1; cases f2; exact f
    · obtain ⟨w1, w2, f1, f2, f⟩ := bitwiseCase_int jsShr L k base i h.1 h.2
      rw [e1] at f1; rw [e2] at f2; cases f1; cases f2; exact f
  · exact ⟨bitwiseCase_not_int jsBitAnd L k base i h, bitwiseCase_not_int jsBitOr L k base i h,
      bitwiseCase_not_int jsBitXor L k base i h, bitwiseCase_not_int jsShl L k base i h,
      bitwiseCase_not_int jsShr L k base i h⟩

theorem bitwise_needs_integer_tags_witness :
    (∃ v1 v2, (RKB (exArith (int 6) (int 3)) 0 [] exArithInstr).value = some v1 ∧
      (RKC (exArith (int 6) (int 3)) 0 [] exArithInstr).value = some v2 ∧
      OP_BAND (exArith (int 6) (int 3)) [] 0 exArithInstr =
        ({ exArith (int 6) (int 3) with
            stack := stackSet (exArith (int 6) (int 3)).stack (RA 0 exArithInstr)
              (TValue.mk CT.LUA_TNUMINT (jsBitAnd v1 v2)) },
          Completion.normal Control.break_switch)) ∧
    (∃ e, OP_BAND (exArith (flt 3) (int 1)) [] 0 exArithInstr
      = (exArith (flt 3) (int 1), Completion.thrown e)) :=
  ⟨by
    obtain ⟨v1, v2, e1, e2, h, _⟩ :=
      (bitwise_needs_integer_tags (exArith (int 6) (int 3)) [] 0 exArithInstr).1 ⟨rfl, rfl⟩
    exact ⟨v1, v2, e1, e2, h⟩,
   ((bitwise_needs_integer_tags (exArith (flt 3) (int 1)) [] 0 exArithInstr).2.1
      (fun h => by cases h.1)).1⟩

/-- C22: `OP_NOT` on a register `R[B]` that holds a value with tag `t` and
payload `v` (a boolean payload when the tag is boolean) completes and writes
to `R[A]` the boolean `true` when the tag is nil or the value is the boolean
`false`, and the boolean `false` for every other value; no other slot is
written. -/
theorem OP_NOT_spec (L : lua_State) (base : Nat) (i : Instruction) (t : CT) (v : JSValue)
    (ht : (stackGet L.stack (base + i.B)).type = some t)
    (hv : (stackGet L.stack (base + i.B)).value = some v)
    (hwf : t = CT.LUA_TBOOLEAN → ∃ b, v = JSValue.bool b) :
    OP_NOT L base i =
      ({ L with
          stack := stackSet L.stack (RA base i)
            (TValue.mk CT.LUA_TBOOLEAN (JSValue.bool
              (decide (t = CT.LUA_TNIL ∨ (t = CT.LUA_TBOOLEAN ∧ v = JSValue.bool false))))) },
        Completion.normal Control.break_switch) := by
  simp only [OP_NOT, ht, hv]
  by_cases hb : t = CT.LUA_TBOOLEAN
  · obtain ⟨b, rfl⟩ := hwf hb
    subst hb
    cases b <;> simp [JSValue.truthy]
  · by_cases hn : t = CT.LUA_TNIL
    · subst hn
      simp
    · simp [hb, hn]

theorem OP_NOT_spec_witness :
    OP_NOT (exArith (int 0) (str "")) 0 (exUnaryInstr 0) =
      ({ exArith (int 0) (str "") with
          stack := stackSet (exArith (int 0) (str "")).stack (RA 0 (exUnaryInstr 0))
            (TValue.mk CT.LUA_TBOOLEAN (JSValue.bool
              (decide (CT.LUA_TNUMINT = CT.LUA_TNIL ∨
                (CT.LUA_TNUMINT = CT.LUA_TBOOLEAN ∧ JSValue.number 0 = JSValue.bool false))))) },
        Completion.normal Control.break_switch) ∧
    decide (CT.LUA_TNUMINT = CT.LUA_TNIL ∨
      (CT.LUA_TNUMINT = CT.LUA_TBOOLEAN ∧ JSValue.number 0 = JSValue.bool false)) = false :=
  ⟨OP_NOT_spec (exArith (int 0) (str "")) 0 (exUnaryInstr 0) CT.LUA_TNUMINT (JSValue.number 0)
      rfl rfl (fun h => by cases h),
    by decide⟩

theorem advancePc_stack (L : lua_State) (ci : Nat) : (advancePc L ci).stack = L.stack := by
  unfold advancePc
  split <;> rfl

/-- C23: whenever the instruction the dispatch loop fetches is one of the
arithmetic, bitwise or unary instructions `ADD` .. `SHR`, `UNM`, `BNOT` and it
raises an error, no stack slot has been written: the state after the failed
turn is the state before it with the saved pc advanced, so its register stack
equals the stack before the instruction. -/
theorem arithmetic_failure_writes_nothing (OpCodes : Nat → Option OpCode)
    (Math_pow : JSValue → JSValue → JSValue) (L L1 : lua_State) (ci : Nat) (fr : CallInfo)
    (clp : Proto) (i : Instruction) (oc : OpCode) (e : String)
    (hci : L.ci = some ci) (hfr : L.cis[ci]? = some fr) (hp : fr.func.p = some clp)
    (hi : fr.savedpc[fr.pcOff]? = some i) (hoc : OpCodes i.opcode = some oc)
    (harith : oc ∈ [OpCode.OP_ADD, OpCode.OP_SUB, OpCode.OP_MUL, OpCode.OP_MOD, OpCode.OP_POW,
      OpCode.OP_DIV, OpCode.OP_IDIV, OpCode.OP_BAND, OpCode.OP_BOR, OpCode.OP_BXOR,
      OpCode.OP_SHL, OpCode.OP_SHR, OpCode.OP_UNM, OpCode.OP_BNOT])
    (h : execute_step OpCodes Math_pow L = some (L1, Completion.thrown e)) :
    L1 = advancePc L ci ∧ L1.stack = L.stack := by
  have key : ∀ r : lua_State × Completion Control, some r = some (L1, Completion.thrown e) →
      (r.2 = Completion.thrown e → r.1 = advancePc L ci) → L1 = advancePc L ci := by
    intro r hr hk
    simp only [Option.some.injEq] at hr
    subst hr
    exact hk rfl
  suffices hL : L1 = advancePc L ci from ⟨hL, by rw [hL, advancePc_stack]⟩
  simp only [List.mem_cons, List.mem_singleton, List.not_mem_nil, or_false] at harith
  rcases harith with rfl | rfl | rfl | rfl | rfl | rfl | rfl | rfl | rfl | rfl | rfl | rfl |
    rfl | rfl <;> simp only [execute_step, hci, hfr, hp, hi, hoc] at h
  · exact key _ h (OP_ADD_throw_keeps _ _ _ _ e)
  · exact key _ h (OP_SUB_throw_keeps _ _ _ _ e)
  · exact key _ h (OP_MUL_throw_keeps _ _ _ _ e)
  · exact key _ h (OP_MOD_throw_keeps _ _ _ _ e)
  · exact key _ h (OP_POW_throw_keeps _ _ _ _ _ e)
  · exact key _ h (OP_DIV_throw_keeps _ _ _ _ e)
  · exact key _ h (OP_IDIV_throw_keeps _ _ _ _ e)
  · exact key _ h (bitwiseCase_throw_keeps jsBitAnd _ _ _ _ e)
  · exact key _ h (bitwiseCase_throw_keeps jsBitOr _ _ _ _ e)
  · exact key _ h (bitwiseCase_throw_keeps jsBitXor _ _ _ _ e)
  · exact key _ h (bitwiseCase_throw_keeps jsShl _ _ _ _ e)
  · exact key _ h (bitwiseCase_throw_keeps jsShr _ _ _ _ e)
  · exact key _ h (OP_UNM_throw_keeps _ _ _ e)
  · exact key _ h (OP_BNOT_throw_keeps _ _ _ e)

theorem arithmetic_failure_writes_nothing_witness :
    execute_step exOpCodes exMathPow (exRun [] [exBandInstr] [flt 3, int 1] 1)
      = some (advancePc (exRun [] [exBandInstr] [flt 3, int 1] 1) 0,
          Completion.thrown "TypeError") ∧
    advancePc (exRun [] [exBandInstr] [flt 3, int 1] 1) 0
      = advancePc (exRun [] [exBandInstr] [flt 3, int 1] 1) 0 ∧
    (advancePc (exRun [] [exBandInstr] [flt 3, int 1] 1) 0).stack
      = (exRun [] [exBandInstr] [flt 3, int 1] 1).stack :=
  ⟨rfl,
    arithmetic_failure_writes_nothing exOpCodes exMathPow (exRun [] [exBandInstr] [flt 3, int 1] 1)
      (advancePc (exRun [] [exBandInstr] [flt 3, int 1] 1) 0) 0
      { func := TValue.LClosure (Proto.mk [] [exBandInstr] [] [] 2 false 3) [], funcOff := 0,
        top := 4, previous := none, next := none, nresults := 1, base := 1,
        savedpc := [exBandInstr], pcOff := 0 }
      (Proto.mk [] [exBandInstr] [] [] 2 false 3) exBandInstr OpCode.OP_BAND "TypeError"
      rfl rfl rfl rfl rfl (by decide) rfl⟩

/-! ## `OP_CLOSURE`: the upvalue array -/

/-- With no open upvalue `findupval` allocates a new cell for the level. -/
theorem findupval_no_open (L : lua_State) (level : Nat) (h : L.openupval = none) :
    findupval L level =
      some ({ L with
              uvs := L.uvs ++ [{ v := level, refcount := 0, next := none, touched := true }] },
        Completion.normal L.uvs.length) := by
  simp [findupval, findupval_loop, h]

/-- `findupval` never assigns `L.openupval`. -/
theorem findupval_openupval (L L1 : lua_State) (level : Nat) (c : Completion Nat)
    (h : findupval L level = some (L1, c)) : L1.openupval = L.openupval := by
  unfold findupval at h
  cases hl : findupval_loop L.uvs level (L.uvs.length + 1) L.openupval with
  | none => simp [hl] at h
  | some r =>
    cases r with
    | thrown e =>
      simp only [hl, Option.some.injEq, Prod.mk.injEq] at h
      rw [← h.1]
    | normal sr =>
      cases sr with
      | found p =>
        simp only [hl, Option.some.injEq, Prod.mk.injEq] at h
        rw [← h.1]
      | notFound pp =>
        simp only [hl, Option.some.injEq, Prod.mk.injEq] at h
        rw [← h.1]

/-- With no open upvalue the loop of `OP_CLOSURE` ends without an error. -/
theorem OP_CLOSURE_loop_total (clUpvals : List (Option Nat)) (base : Nat) :
    ∀ (ds : List Upvaldesc) (i : Nat) (L : lua_State) (acc : List (Option Nat)),
      L.openupval = none →
      ∃ L1 acc1, OP_CLOSURE_loop clUpvals base ds i L acc = some (L1, acc1, none) := by
  intro ds
  induction ds with
  | nil => intro i L acc _; exact ⟨L, acc, rfl⟩
  | cons d ds ih =>
    intro i L acc h
    by_cases hin : d.instack = true
    · simp only [OP_CLOSURE_loop, hin, if_true, findupval_no_open L (base + d.idx) h]
      exact ih _ _ _ h
    · simp only [OP_CLOSURE_loop, hin]
      exact ih _ _ _ h

/-- The loop of `OP_CLOSURE` over the descriptors `ds1 ++ ds2` is the loop over
`ds1` followed, from the state and the array it leaves, by the loop over
`ds2`. -/
theorem OP_CLOSURE_loop_append (clUpvals : List (Option Nat)) (base : Nat) :
    ∀ (ds1 ds2 : List Upvaldesc) (i : Nat) (L : lua_State) (acc : List (Option Nat))
      (L1 : lua_State) (acc1 : List (Option Nat)),
      OP_CLOSURE_loop clUpvals base (ds1 ++ ds2) i L acc = some (L1, acc1, none) →
      ∃ (La : lua_State) (accA : List (Option Nat)),
        OP_CLOSURE_loop clUpvals base ds1 i L acc = some (La, accA, none) ∧
        OP_CLOSURE_loop clUpvals base ds2 (i + ds1.length) La accA = some (L1, acc1, none) := by
  intro ds1
  induction ds1 with
  | nil =>
    intro ds2 i L acc L1 acc1 h
    exact ⟨L, acc, rfl, by simpa using h⟩
  | cons d ds1 ih =>
    intro ds2 i L acc L1 acc1 h
    have e : i + (d :: ds1).length = i + 1 + ds1.length := by
      simp only [List.length_cons]
      omega
    rw [e]
    by_cases hin : d.instack = true
    · simp only [List.cons_append, OP_CLOSURE_loop, hin, if_true] at h ⊢
      cases hf : findupval L (base + d.idx) with
      | none => simp [hf] at h
      | some res =>
        obtain ⟨L2, c⟩ := res
        cases c with
        | thrown e => simp [hf] at h
        | normal r =>
          simp only [hf] at h ⊢
          exact ih ds2 (i + 1) L2 _ L1 acc1 h
    · simp only [List.cons_append, OP_CLOSURE_loop, hin] at h ⊢
      exact ih ds2 (i + 1) L _ L1 acc1 h

/-- The entries of the array that the loop of `OP_CLOSURE` leaves. Let `La` be
the state the loop has reached when it comes to the descriptor `m`, the state
left by the loop over the descriptors before it. The entry for a descriptor
marked in-stack is the reference `r` that the call `findupval(base + idx)` made
in `La` returned, and `r` is a cell of the final heap that refers to the stack
index `base + idx`; the entry for another descriptor is `cl.upvals[idx]`. -/
theorem OP_CLOSURE_loop_entries (clUpvals : List (Option Nat)) (base : Nat)
    (ds : List Upvaldesc) (i : Nat) (L : lua_State) (acc : List (Option Nat))
    (L1 : lua_State) (acc1 : List (Option Nat))
    (h : OP_CLOSURE_loop clUpvals base ds i L acc = some (L1, acc1, none))
    (m : Nat) (d : Upvaldesc) (hd : ds[m]? = some d) (hm : i + m < acc.length) :
    ∃ (La : lua_State) (accA : List (Option Nat)),
      OP_CLOSURE_loop clUpvals base (ds.take m) i L acc = some (La, accA, none) ∧
      (d.instack = true → ∃ (Lb : lua_State) (r : Nat) (u : UpVal),
        findupval La (base + d.idx) = some (Lb, Completion.normal r) ∧
        acc1[i + m]? = some (some r) ∧ L1.uvs[r]? = some u ∧ u.v = base + d.idx) ∧
      (d.instack = false → acc1[i + m]? = some (clUpvals.getD d.idx none)) := by
  have hlt : m < ds.length := by
    by_contra hge
    rw [List.getElem?_eq_none (by omega)] at hd
    cases hd
  have hsplit : ds = ds.take m ++ d :: ds.drop (m + 1) := by
    have hdrop : ds.drop m = d :: ds.drop (m + 1) := by
      rw [List.drop_eq_getElem_cons hlt]
      congr 1
      rw [List.getElem?_eq_getElem hlt] at hd
      exact Option.some.inj hd
    rw [← hdrop, List.take_append_drop]
  have hlen : (ds.take m).length = m := by
    rw [List.length_take]
    omega
  rw [hsplit] at h
  obtain ⟨La, accA, hA, hB⟩ :=
    OP_CLOSURE_loop_append clUpvals base (ds.take m) (d :: ds.drop (m + 1)) i L acc L1 acc1 h
  rw [hlen] at hB
  obtain ⟨_, _, gA3, _, _⟩ := OP_CLOSURE_loop_spec clUpvals base (ds.take m) i L acc La accA hA
  have hmA : i + m < accA.length := by omega
  refine ⟨La, accA, hA, fun hin => ?_, fun hin => ?_⟩
  · simp only [OP_CLOSURE_loop, hin, if_true] at hB
    cases hf : findupval La (base + d.idx) with
    | none => simp [hf] at hB
    | some res =>
      obtain ⟨Lb, c⟩ := res
      cases c with
      | thrown e => simp [hf] at hB
      | normal r =>
        simp only [hf] at hB
        obtain ⟨_, ⟨u, fu, fv⟩, _⟩ := findupval_spec La Lb (base + d.idx) r hf
        obtain ⟨_, g2, _, g4, _⟩ :=
          OP_CLOSURE_loop_spec clUpvals base (ds.drop (m + 1)) (i + m + 1) Lb
            (accA.set (i + m) (some r)) L1 acc1 hB
        refine ⟨Lb, r, u, rfl, ?_, g2 r u fu, fv⟩
        rw [g4 (i + m) (by omega), List.getElem?_set_eq_of_lt _ hmA]
  · have hin2 : ¬ d.instack = true := by rw [hin]; decide
    simp only [OP_CLOSURE_loop, hin2] at hB
    obtain ⟨_, _, _, g4, _⟩ :=
      OP_CLOSURE_loop_spec clUpvals base (ds.drop (m + 1)) (i + m + 1) La
        (accA.set (i + m) (clUpvals.getD d.idx none)) L1 acc1 hB
    rw [g4 (i + m) (by omega), List.getElem?_set_eq_of_lt _ hmA]

/-- C24: `OP_CLOSURE`, run by the closure `cl` with prototype `clp` and upvalue
array `clUpvals`, on the nested prototype `p = cl.p.p[Bx]`: with no upvalue
open it completes; and whenever it completes, `R[A]` holds a closure of `p`
whose upvalue array has as many entries as `p` declares upvalues. For the
descriptor `m`, let `La` be the state in which the loop of `OP_CLOSURE` comes
to it, the state left by the loop over the descriptors before `m`: when the
descriptor is marked in-stack, entry `m` is the reference `r` that the call
`findupval(base + idx)` returns in `La`, and `r` is a cell of the resulting
heap that refers to the stack index `base + idx`; otherwise entry `m` is the
very reference `cl.upvals[idx]`. -/
theorem OP_CLOSURE_builds_closure (L : lua_State) (clp p : Proto)
    (clUpvals : List (Option Nat)) (base : Nat) (i : Instruction)
    (hp : clp.p[i.Bx]? = some p) :
    (L.openupval = none →
      ∃ L1, OP_CLOSURE L (TValue.LClosure clp clUpvals) base i
        = some (L1, Completion.normal Control.break_switch)) ∧
    (∀ (L1 : lua_State) (c : Control),
      OP_CLOSURE L (TValue.LClosure clp clUpvals) base i = some (L1, Completion.normal c) →
      ∃ upvals, stackGet L1.stack (RA base i) = TValue.LClosure p upvals ∧
        upvals.length = p.upvalues.length ∧
        ∀ (m : Nat) (d : Upvaldesc), p.upvalues[m]? = some d →
          ∃ (La : lua_State) (accA : List (Option Nat)),
            OP_CLOSURE_loop clUpvals base (p.upvalues.take m) 0 L
              (List.replicate p.upvalues.length none) = some (La, accA, none) ∧
            (d.instack = true → ∃ (Lb : lua_State) (r : Nat) (u : UpVal),
              findupval La (base + d.idx) = some (Lb, Completion.normal r) ∧
              upvals[m]? = some (some r) ∧ L1.uvs[r]? = some u ∧ u.v = base + d.idx) ∧
            (d.instack = false → upvals[m]? = some (clUpvals.getD d.idx none))) := by
  refine ⟨fun hopen => ?_, fun L1 c h => ?_⟩
  · obtain ⟨L2, acc1, hl⟩ := OP_CLOSURE_loop_total clUpvals base p.upvalues 0 L
      (List.replicate p.upvalues.length none) hopen
    refine ⟨{ L2 with stack := stackSet L2.stack (RA base i) (TValue.LClosure p acc1) }, ?_⟩
    simp only [OP_CLOSURE, TValue.p, TValue.upvals, hp, hl]
  · simp only [OP_CLOSURE, TValue.p, TValue.upvals, hp] at h
    cases hloop : OP_CLOSURE_loop clUpvals base p.upvalues 0 L
        (List.replicate p.upvalues.length none) with
    | none => simp [hloop] at h
    | some res =>
      obtain ⟨L2, upvals, err⟩ := res
      cases err with
      | some e => simp [hloop] at h
      | none =>
        simp only [hloop, Option.some.injEq, Prod.mk.injEq, Completion.normal.injEq] at h
        obtain ⟨hL, _⟩ := h
        subst hL
        obtain ⟨_, _, g3, _, _⟩ :=
          OP_CLOSURE_loop_spec clUpvals base p.upvalues 0 L _ L2 upvals hloop
        refine ⟨upvals, by simp [stackGet_stackSet], by simpa using g3, fun m d hd => ?_⟩
        have hm : m < p.upvalues.length := by
          by_contra hge
          rw [List.getElem?_eq_none (by omega)] at hd
          cases hd
        have := OP_CLOSURE_loop_entries clUpvals base p.upvalues 0 L _ L2 upvals hloop m d hd
          (by simpa using hm)
        simpa using this

theorem OP_CLOSURE_builds_closure_witness :
    (∃ L1, OP_CLOSURE exUpval (TValue.LClosure exOuterProto []) 1 exClosureA
      = some (L1, Completion.normal Control.break_switch)) ∧
    (∃ upvals, stackGet exUpvalA.stack (RA 1 exClosureA) = TValue.LClosure exInnerProto upvals ∧
      upvals.length = exInnerProto.upvalues.length ∧
      ∀ (m : Nat) (d : Upvaldesc), exInnerProto.upvalues[m]? = some d →
        ∃ (La : lua_State) (accA : List (Option Nat)),
          OP_CLOSURE_loop [] 1 (exInnerProto.upvalues.take m) 0 exUpval
            (List.replicate exInnerProto.upvalues.length none) = some (La, accA, none) ∧
          (d.instack = true → ∃ (Lb : lua_State) (r : Nat) (u : UpVal),
            findupval La (1 + d.idx) = some (Lb, Completion.normal r) ∧
            upvals[m]? = some (some r) ∧ exUpvalA.uvs[r]? = some u ∧ u.v = 1 + d.idx) ∧
          (d.instack = false → upvals[m]? = some (([] : List (Option Nat)).getD d.idx none))) :=
  ⟨(OP_CLOSURE_builds_closure exUpval exOuterProto exInnerProto [] 1 exClosureA rfl).1 rfl,
   (OP_CLOSURE_builds_closure exUpval exOuterProto exInnerProto [] 1 exClosureA rfl).2
      exUpvalA Control.break_switch rfl⟩

/-! ## The dispatch loop: an addition from call to return -/

theorem advancePc_eq (L : lua_State) (ci : Nat) (fr : CallInfo) (h : L.cis[ci]? = some fr) :
    advancePc L ci = { L with cis := L.cis.set ci { fr with pcOff := fr.pcOff + 1 } } := by
  simp only [advancePc, h]

theorem getElem?_set_self_of_some {α : Type} (l : List α) (n : Nat) (a b : α)
    (h : l[n]? = some a) : (l.set n b)[n]? = some b := by
  have hlt : n < l.length := by
    by_contra hge
    rw [List.getElem?_eq_none (by omega)] at h
    cases h
  exact List.getElem?_set_eq_of_lt _ hlt

/-- `OP_RETURN` with one value (`B = 2`) in a frame that wants 1 result or all
results: the value of `R[A]` is left in the slot of the called function and
the frame of the caller is current again; the loop is left when there is no
such frame. -/
theorem OP_RETURN_one (M : lua_State) (ci base : Nat) (fr : CallInfo) (iret : Instruction)
    (hfr : M.cis[ci]? = some fr) (hretB : iret.B = 2)
    (hwanted : fr.nresults = 1 ∨ fr.nresults = LUA_MULTRET)
    (hprev : ∀ q, fr.previous = some q → ∃ prev, M.cis[q]? = some prev) :
    ∃ (L2 : lua_State) (c : Control),
      OP_RETURN M ci base iret = (L2, Completion.normal c) ∧
      stackGet L2.stack fr.funcOff = stackGet M.stack (base + iret.A) ∧
      L2.ci = fr.previous ∧
      (fr.nresults = LUA_MULTRET → L2.top = fr.funcOff + 1) ∧
      (fr.previous = none → c = Control.return_execute) := by
  simp only [OP_RETURN, postcall, hfr, RA, hretB]
  rcases hwanted with hw | hw
  · have hne : ¬ ((1 : Int) = 0) := by decide
    have hnm : ¬ ((1 : Int) = LUA_MULTRET) := by decide
    simp only [hw, moveresults, hne, if_false, if_true]
    cases hq : fr.previous with
    | none =>
      refine ⟨_, _, rfl, ?_, rfl, fun h => absurd h hnm, fun _ => rfl⟩
      simp [stackGetKey, stackGet_stackSet]
    | some q =>
      obtain ⟨prev, hprev⟩ := hprev q hq
      simp only [hprev]
      refine ⟨_, _, rfl, ?_, rfl, fun h => absurd h hnm, fun h => by cases h⟩
      simp [stackGetKey, stackGet_stackSet]
  · have hne : ¬ (LUA_MULTRET = 0) := by decide
    have hn1 : ¬ (LUA_MULTRET = 1) := by decide
    simp only [hw, moveresults, hne, hn1, if_false, if_true]
    cases hq : fr.previous with
    | none =>
      refine ⟨_, _, rfl, ?_, rfl, fun _ => rfl, fun _ => rfl⟩
      simp [forLoop, forLoopAux, stackGet_stackSet]
    | some q =>
      refine ⟨_, _, rfl, ?_, rfl, fun _ => rfl, fun h => by cases h⟩
      simp [forLoop, forLoopAux, stackGet_stackSet]

/-- A turn of the dispatch loop on `RETURN` with one value (`B = 2`), 1 result
or all results wanted. -/
theorem execute_step_return_one (OpCodes : Nat → Option OpCode)
    (Math_pow : JSValue → JSValue → JSValue) (L : lua_State) (ci : Nat) (fr : CallInfo)
    (clp : Proto) (iret : Instruction)
    (hci : L.ci = some ci) (hfr : L.cis[ci]? = some fr) (hp : fr.func.p = some clp)
    (hi : fr.savedpc[fr.pcOff]? = some iret)
    (hret : OpCodes iret.opcode = some OpCode.OP_RETURN) (hretB : iret.B = 2)
    (hwanted : fr.nresults = 1 ∨ fr.nresults = LUA_MULTRET)
    (hprev : ∀ q, fr.previous = some q → ∃ prev, L.cis[q]? = some prev) :
    ∃ (L2 : lua_State) (c : Control),
      execute_step OpCodes Math_pow L = some (L2, Completion.normal c) ∧
      stackGet L2.stack fr.funcOff = stackGet L.stack (fr.base + iret.A) ∧
      L2.ci = fr.previous ∧
      (fr.nresults = LUA_MULTRET → L2.top = fr.funcOff + 1) ∧
      (fr.previous = none → c = Control.return_execute) := by
  have hfr2 : (advancePc L ci).cis[ci]? = some { fr with pcOff := fr.pcOff + 1 } := by
    rw [advancePc_eq L ci fr hfr]
    exact getElem?_set_self_of_some _ _ _ _ hfr
  have hprev2 : ∀ q, fr.previous = some q → ∃ prev, (advancePc L ci).cis[q]? = some prev := by
    intro q hq
    obtain ⟨prev, hprev⟩ := hprev q hq
    have hlt : q < L.cis.length := by
      by_contra hge
      rw [List.getElem?_eq_none (by omega)] at hprev
      cases hprev
    have hlt2 : q < (advancePc L ci).cis.length := by
      rw [advancePc_eq L ci fr hfr]
      simpa using hlt
    exact ⟨_, List.getElem?_eq_getElem hlt2⟩
  have hstep : execute_step OpCodes Math_pow L
      = some (OP_RETURN (advancePc L ci) ci fr.base iret) := by
    simp only [execute_step, hci, hfr, hp, hi, hret]
  obtain ⟨L2, c, h1, h2, h3, h4, h5⟩ :=
    OP_RETURN_one (advancePc L ci) ci fr.base { fr with pcOff := fr.pcOff + 1 } iret hfr2 hretB
      hwanted hprev2
  refine ⟨L2, c, by rw [hstep, h1], ?_, h3, h4, h5⟩
  rw [h2, advancePc_stack]

/-- C25: the frame of `f(a,b) return a+b end` (the instructions
`ADD R2 := R0 + R1` and `RETURN R2` with one value, at the saved pc 0), with
the integer-tagged arguments 1 and 2 in `R0` and `R1` and 1 result or all
results wanted: two turns of the dispatch loop complete and leave the
integer-tagged value 3 in the slot the call occupied, with the caller's frame
current again; when all results are wanted the stack top is that slot + 1; and
when the frame has no caller `execute` returns in that state. `prev` is the
record of the caller, when there is one. -/
theorem execute_add_returns_three (OpCodes : Nat → Option OpCode)
    (Math_pow : JSValue → JSValue → JSValue) (L : lua_State) (ci : Nat) (fr : CallInfo)
    (clp : Proto) (iadd iret : Instruction) (fuel : Nat)
    (hci : L.ci = some ci) (hfr : L.cis[ci]? = some fr) (hp : fr.func.p = some clp)
    (hcode : fr.savedpc = [iadd, iret]) (hpc : fr.pcOff = 0)
    (hadd : OpCodes iadd.opcode = some OpCode.OP_ADD)
    (haddA : iadd.A = 2) (haddB : iadd.B = 0) (haddC : iadd.C = 1)
    (hret : OpCodes iret.opcode = some OpCode.OP_RETURN)
    (hretA : iret.A = 2) (hretB : iret.B = 2)
    (hr0 : stackGet L.stack fr.base = int 1) (hr1 : stackGet L.stack (fr.base + 1) = int 2)
    (hwanted : fr.nresults = 1 ∨ fr.nresults = LUA_MULTRET)
    (hprev : ∀ q, fr.previous = some q → ∃ prev, L.cis[q]? = some prev) :
    ∃ (L1 L2 : lua_State) (c : Control),
      execute_step OpCodes Math_pow L = some (L1, Completion.normal Control.break_switch) ∧
      execute_step OpCodes Math_pow L1 = some (L2, Completion.normal c) ∧
      stackGet L2.stack fr.funcOff = int 3 ∧
      L2.ci = fr.previous ∧
      (fr.nresults = LUA_MULTRET → L2.top = fr.funcOff + 1) ∧
      (fr.previous = none →
        execute OpCodes Math_pow (fuel + 2) L = some (L2, Completion.normal ())) := by
  have hi0 : fr.savedpc[fr.pcOff]? = some iadd := by rw [hcode, hpc]; rfl
  have t0 : Nat.testBit 0 8 = false := by decide
  have t1 : Nat.testBit 1 8 = false := by decide
  have hB : RKB (advancePc L ci) fr.base clp.k iadd = int 1 := by
    simp [RKB, haddB, ISK, t0, advancePc_stack, hr0]
  have hC : RKC (advancePc L ci) fr.base clp.k iadd = int 2 := by
    simp [RKC, haddC, ISK, t1, advancePc_stack, hr1]
  have hstep1 : execute_step OpCodes Math_pow L =
      some ({ advancePc L ci with stack := stackSet L.stack (fr.base + 2) (int 3) },
        Completion.normal Control.break_switch) := by
    simp only [execute_step, hci, hfr, hp, hi0, hadd]
    rw [OP_ADD_int _ _ _ _ _ _ hB hC, jsAdd_number]
    simp only [RA, haddA, int, advancePc_stack]
    norm_num
  have hfr1 : (advancePc L ci).cis[ci]? = some { fr with pcOff := fr.pcOff + 1 } := by
    rw [advancePc_eq L ci fr hfr]
    exact getElem?_set_self_of_some _ _ _ _ hfr
  have hci1 : (advancePc L ci).ci = some ci := by
    rw [advancePc_eq L ci fr hfr]
    exact hci
  have hi1 : fr.savedpc[fr.pcOff + 1]? = some iret := by rw [hcode, hpc]; rfl
  have hprev1 : ∀ q, fr.previous = some q → ∃ prev, (advancePc L ci).cis[q]? = some prev := by
    intro q hq
    obtain ⟨prev, hprev⟩ := hprev q hq
    have hlt : q < L.cis.length := by
      by_contra hge
      rw [List.getElem?_eq_none (by omega)] at hprev
      cases hprev
    have hlt2 : q < (advancePc L ci).cis.length := by
      rw [advancePc_eq L ci fr hfr]
      simpa using hlt
    exact ⟨_, List.getElem?_eq_getElem hlt2⟩
  obtain ⟨L2, c, h1, h2, h3, h4, h5⟩ :=
    execute_step_return_one OpCodes Math_pow
      { advancePc L ci with stack := stackSet L.stack (fr.base + 2) (int 3) } ci
      { fr with pcOff := fr.pcOff + 1 } clp iret hci1 hfr1 hp hi1 hret hretB hwanted hprev1
  refine ⟨_, L2, c, hstep1, h1, ?_, h3, h4, fun hnone => ?_⟩
  · rw [h2]
    simp [hretA, stackGet_stackSet]
  · have hc := h5 hnone
    subst hc
    simp only [execute, hstep1, h1]

theorem execute_add_returns_three_witness :
    ∃ (L1 L2 : lua_State) (c : Control),
      execute_step exOpCodes exMathPow (exRun [] [exArithInstr, exReturnOneInstr] [int 1, int 2] 1)
        = some (L1, Completion.normal Control.break_switch) ∧
      execute_step exOpCodes exMathPow L1 = some (L2, Completion.normal c) ∧
      stackGet L2.stack 0 = int 3 ∧
      L2.ci = none ∧
      ((1 : Int) = LUA_MULTRET → L2.top = 0 + 1) ∧
      ((none : Option Nat) = none →
        execute exOpCodes exMathPow (0 + 2)
            (exRun [] [exArithInstr, exReturnOneInstr] [int 1, int 2] 1)
          = some (L2, Completion.normal ())) :=
  execute_add_returns_three exOpCodes exMathPow
    (exRun [] [exArithInstr, exReturnOneInstr] [int 1, int 2] 1) 0
    { func := TValue.LClosure (Proto.mk [] [exArithInstr, exReturnOneInstr] [] [] 2 false 3) [],
      funcOff := 0, top := 4, previous := none, next := none, nresults := 1, base := 1,
      savedpc := [exArithInstr, exReturnOneInstr], pcOff := 0 }
    (Proto.mk [] [exArithInstr, exReturnOneInstr] [] [] 2 false 3) exArithInstr exReturnOneInstr 0
    rfl rfl rfl rfl rfl rfl rfl rfl rfl rfl rfl rfl rfl rfl (Or.inl rfl)
    (fun q h => by cases h)

/-! ## Frame bases after a call -/

/-- What `precall` on a script closure has done when it returns: the current
frame had no successor record, and a new record, with the base the argument
adjustment computed, was allocated at the end of the heap and made current. -/
theorem precall_enter (L L1 : lua_State) (off : Nat) (p : Proto)
    (upvals : List (Option Nat)) (nresults : Int) (r : JSValue)
    (h : precall L off (TValue.LClosure p upvals) nresults = (L1, Completion.normal r)) :
    ∃ (cur : Nat) (curInfo : CallInfo), L.ci = some cur ∧ L.cis[cur]? = some curInfo ∧
      r = JSValue.undefined ∧ L1.ci = some L.cis.length ∧
      L1.top = (if p.is_vararg then L.top else off + 1) + p.maxstacksize ∧
      L1.cis[L.cis.length]? =
        some { func := TValue.LClosure p upvals, funcOff := off,
               top := (if p.is_vararg then L.top else off + 1) + p.maxstacksize,
               previous := some cur, next := none, nresults := nresults,
               base := if p.is_vararg then L.top else off + 1,
               savedpc := p.code, pcOff := 0 } ∧
      L1.cis[cur]? = some { curInfo with next := some L.cis.length } ∧
      L1.cis.length = L.cis.length + 1 := by
  rw [precall_LClosure] at h
  obtain ⟨a1, a2, _, a4⟩ := precall_adjust_frames L off p
  rw [a4] at h
  generalize (precall_adjust L off p).1 = M at h a1 a2
  cases hci : M.ci with
  | none => simp [precall_next_ci, hci] at h
  | some cur =>
    cases hcur : M.cis[cur]? with
    | none => simp [precall_next_ci, hci, hcur] at h
    | some curInfo =>
      cases hnext : curInfo.next with
      | some nxt =>
        rw [precall_next_ci_reuse M off _ nresults p _ cur nxt curInfo hci hcur hnext] at h
        simp at h
      | none =>
        rw [precall_next_ci_fresh M off _ nresults p _ cur curInfo hci hcur hnext] at h
        simp only [Prod.mk.injEq, Completion.normal.injEq] at h
        obtain ⟨hL1, hr⟩ := h
        subst hL1
        rw [a2] at hcur
        have hlt : cur < L.cis.length := by
          by_contra hge
          rw [List.getElem?_eq_none (by omega)] at hcur
          cases hcur
        refine ⟨cur, curInfo, a1 ▸ hci, hcur, hr.symm, by simp [a2], rfl, ?_, ?_, by simp [a2]⟩
        · simp only [a2]
          rw [List.getElem?_append_right (by simp)]
          simp
        · simp only [a2]
          rw [List.getElem?_append_left (by simpa using hlt)]
          exact List.getElem?_set_eq_of_lt _ hlt

/-- When the replacement of the caller frame by the called frame in
`OP_TAILCALL` completes, the caller frame is current and its base lies above
its function slot by as much as the base of the called frame lay above the
called function. -/
theorem OP_TAILCALL_replace_base (M L1 : lua_State) (c : Control) (new cur : Nat)
    (nci oci : CallInfo) (hci : M.ci = some new) (hn : M.cis[new]? = some nci)
    (hprev : nci.previous = some cur) (ho : M.cis[cur]? = some oci)
    (hbase : nci.funcOff < nci.base)
    (h : OP_TAILCALL_replace M = (L1, Completion.normal c)) :
    ∃ ofr : CallInfo, L1.ci = some cur ∧ L1.cis[cur]? = some ofr ∧ ofr.funcOff < ofr.base := by
  have hb : oci.funcOff < ((oci.funcOff : Int) + ((nci.base : Int) - nci.funcOff)).toNat := by
    omega
  simp only [OP_TAILCALL_replace, hci, hn, hprev, ho] at h
  cases hp : nci.func.p with
  | none => simp [hp] at h
  | some nfuncp =>
    simp only [hp] at h
    split at h
    · simp at h
    · split at h
      · simp only [Prod.mk.injEq] at h
        obtain ⟨hL, _⟩ := h
        subst hL
        exact ⟨_, rfl, getElem?_set_self_of_some _ _ _ _ ho, hb⟩
      · simp at h

/-- C32: when `OP_CALL` or `OP_TAILCALL`, executed in a frame with base `base`
on a callee slot `R[A]` that holds a script closure, with the stack top above
`R[A]`, completes (it has entered the closure): after `OP_CALL` the current
frame is a new record for the callee slot whose base is greater than the slot,
hence at least the base of the parent frame; after `OP_TAILCALL` the current
frame is the frame of the caller, reused, and its new base is greater than its
own function slot. -/
theorem call_frame_base_above_callee (L L1 : lua_State) (ci base : Nat) (i : Instruction)
    (p : Proto) (upvals : List (Option Nat)) (c : Control)
    (hf : stackGet L.stack (base + i.A) = TValue.LClosure p upvals)
    (htop : i.B = 0 → base + i.A < L.top) :
    (OP_CALL L ci base i = (L1, Completion.normal c) →
      ∃ (new : Nat) (nfr : CallInfo), L1.ci = some new ∧ L1.cis[new]? = some nfr ∧
        nfr.funcOff = base + i.A ∧ base + i.A < nfr.base ∧ base ≤ nfr.base) ∧
    (OP_TAILCALL L ci base i = (L1, Completion.normal c) →
      ∃ (cur : Nat) (ofr : CallInfo), L.ci = some cur ∧ L1.ci = some cur ∧
        L1.cis[cur]? = some ofr ∧ ofr.funcOff < ofr.base) := by
  have key : ∀ L0 : lua_State, L0.stack = L.stack → L0.ci = L.ci → base + i.A < L0.top →
      (((match precall L0 (base + i.A) (stackGet L0.stack (base + i.A)) ((i.C : Int) - 1) with
        | (M, Completion.thrown e) => (M, Completion.thrown e)
        | (M, Completion.normal r) =>
          if r.truthy then
            match M.cis[ci]? with
            | none => (M, Completion.thrown "TypeError")
            | some fr =>
              (if (i.C : Int) - 1 ≥ 0 then { M with top := fr.top } else M,
                Completion.normal Control.break_switch)
          else (M, Completion.normal Control.continue_newframe)) = (L1, Completion.normal c)) →
        ∃ (new : Nat) (nfr : CallInfo), L1.ci = some new ∧ L1.cis[new]? = some nfr ∧
          nfr.funcOff = base + i.A ∧ base + i.A < nfr.base ∧ base ≤ nfr.base) := by
    intro L0 hs _ ht h
    rw [hs, hf] at h
    cases hpre : precall L0 (base + i.A) (TValue.LClosure p upvals) ((i.C : Int) - 1) with
    | mk M r =>
      rw [hpre] at h
      cases r with
      | thrown e => simp at h
      | normal r =>
        obtain ⟨cur, curInfo, _, _, hr, k1, _, k3, _, _⟩ :=
          precall_enter _ M (base + i.A) p upvals _ r hpre
        subst hr
        simp only [JSValue.truthy, Bool.false_eq_true, if_false, Prod.mk.injEq] at h
        obtain ⟨hM, _⟩ := h
        subst hM
        have hB : base + i.A < (if p.is_vararg then L0.top else base + i.A + 1) := by
          split
          · exact ht
          · exact Nat.lt_succ_self _
        exact ⟨_, _, k1, k3, rfl, hB, Nat.le_of_lt (Nat.lt_of_le_of_lt (Nat.le_add_right _ _) hB)⟩
  constructor
  · intro h
    by_cases hb : i.B = 0
    · exact key L rfl rfl (htop hb) (by simpa only [OP_CALL, RA, hb, ne_eq, not_true_eq_false, if_false] using h)
    · exact key { L with top := base + i.A + i.B } rfl rfl
        (Nat.lt_add_of_pos_right (Nat.pos_of_ne_zero hb))
        (by simpa only [OP_CALL, RA, hb, ne_eq, not_false_eq_true, if_true] using h)
  · intro h
    have key2 : ∀ L0 : lua_State, L0.stack = L.stack → L0.ci = L.ci → base + i.A < L0.top →
        (((match precall L0 (base + i.A) (stackGet L0.stack (base + i.A)) LUA_MULTRET with
          | (M, Completion.thrown e) => (M, Completion.thrown e)
          | (M, Completion.normal r) =>
            if r.truthy then
              match M.cis[ci]? with
              | none => (M, Completion.thrown "TypeError")
              | some _ => (M, Completion.normal Control.break_switch)
            else OP_TAILCALL_replace M) = (L1, Completion.normal c)) →
          ∃ (cur : Nat) (ofr : CallInfo), L.ci = some cur ∧ L1.ci = some cur ∧
            L1.cis[cur]? = some ofr ∧ ofr.funcOff < ofr.base) := by
      intro L0 hs hc ht h
      rw [hs, hf] at h
      cases hpre : precall L0 (base + i.A) (TValue.LClosure p upvals) LUA_MULTRET with
      | mk M r =>
        rw [hpre] at h
        cases r with
        | thrown e => simp at h
        | normal r =>
          obtain ⟨cur, curInfo, k0, _, hr, k1, _, k3, k4, _⟩ :=
            precall_enter _ M (base + i.A) p upvals _ r hpre
          subst hr
          simp only [JSValue.truthy, Bool.false_eq_true, if_false] at h
          have hB : base + i.A < (if p.is_vararg then L0.top else base + i.A + 1) := by
            split
            · exact ht
            · exact Nat.lt_succ_self _
          obtain ⟨ofr, o1, o2, o3⟩ :=
            OP_TAILCALL_replace_base M L1 c _ cur _ _ k1 k3 rfl k4 hB h
          exact ⟨cur, ofr, hc ▸ k0, o1, o2, o3⟩
    by_cases hb : i.B = 0
    · exact key2 L rfl rfl (htop hb)
        (by simpa only [OP_TAILCALL, RA, hb, ne_eq, not_true_eq_false, if_false] using h)
    · exact key2 { L with top := base + i.A + i.B } rfl rfl
        (Nat.lt_add_of_pos_right (Nat.pos_of_ne_zero hb))
        (by simpa only [OP_TAILCALL, RA, hb, ne_eq, not_false_eq_true, if_true] using h)

theorem call_frame_base_above_callee_witness :
    (∃ (new : Nat) (nfr : CallInfo), (OP_CALL exCall 0 0 exCallInstr).1.ci = some new ∧
      (OP_CALL exCall 0 0 exCallInstr).1.cis[new]? = some nfr ∧
      nfr.funcOff = 0 + exCallInstr.A ∧ 0 + exCallInstr.A < nfr.base ∧ 0 ≤ nfr.base) ∧
    (∃ (cur : Nat) (ofr : CallInfo), exTail.ci = some cur ∧
      (OP_TAILCALL exTail 0 1 exTailInstr).1.ci = some cur ∧
      (OP_TAILCALL exTail 0 1 exTailInstr).1.cis[cur]? = some ofr ∧ ofr.funcOff < ofr.base) :=
  ⟨(call_frame_base_above_callee exCall (OP_CALL exCall 0 0 exCallInstr).1 0 0 exCallInstr
      exProto [] Control.continue_newframe rfl (fun h => by cases h)).1 rfl,
   (call_frame_base_above_callee exTail (OP_TAILCALL exTail 0 1 exTailInstr).1 0 1 exTailInstr
      exProto [] Control.continue_newframe rfl (fun h => by cases h)).2 rfl⟩

/-! ## `select` with an integer selector -/

theorem luaL_checkinteger_int (i : Int) (as : List TValue) :
    luaL_checkinteger (int i :: as) 1 = Completion.normal i := by
  simp [luaL_checkinteger, lua_arg, stackGet, int]

/-- `luaB_select` on an integer selector: the count it returns, or its
argument error. -/
theorem luaB_select_int (i : Int) (as : List TValue) :
    luaB_select (int i :: as) =
      if ¬ 1 ≤ (if i < 0 then ((as.length : Int) + 1) + i
          else if i > (as.length : Int) + 1 then (as.length : Int) + 1 else i)
      then ([], Completion.thrown "index out of range")
      else ([], Completion.normal (((as.length : Int) + 1) -
        (if i < 0 then ((as.length : Int) + 1) + i
          else if i > (as.length : Int) + 1 then (as.length : Int) + 1 else i))) := by
  simp [luaB_select, lua_type_is_string, lua_arg, stackGet, int, TValue.type,
    luaL_checkinteger, lua_gettop]

theorem nativeResults_nil (args : List TValue) (n : Nat) :
    nativeResults args [] n = args.drop (args.length - n) := by
  simp [nativeResults]

/-- C31: `select(i, a1, ..., ak)` with an integer selector `i`: for
`1 ≤ i ≤ k` it returns `k - i + 1`, so its results, the values on top of the
stack, are the arguments `ai`, ..., `ak`; for `i > k` it returns 0; for
`-k ≤ i < 0` it returns `-i`, so its results are the last `-i` arguments; and
for `i = 0` or `i < -k` it raises the argument error "index out of range". It
pushes nothing. -/
theorem luaB_select_index (as : List TValue) (i : Int) :
    (1 ≤ i → i ≤ (as.length : Int) →
      luaB_select (int i :: as) = ([], Completion.normal ((as.length : Int) - i + 1)) ∧
      nativeResults (int i :: as) [] ((as.length : Int) - i + 1).toNat
        = as.drop (i - 1).toNat) ∧
    ((as.length : Int) < i → luaB_select (int i :: as) = ([], Completion.normal 0)) ∧
    (-(as.length : Int) ≤ i → i < 0 →
      luaB_select (int i :: as) = ([], Completion.normal (-i)) ∧
      nativeResults (int i :: as) [] (-i).toNat = as.drop (as.length - (-i).toNat)) ∧
    (i = 0 ∨ i < -(as.length : Int) →
      luaB_select (int i :: as) = ([], Completion.thrown "index out of range")) := by
  rw [luaB_select_int]
  refine ⟨fun h1 h2 => ⟨?_, ?_⟩, fun h => ?_, fun h1 h2 => ⟨?_, ?_⟩, fun h => ?_⟩
  · have a : ¬ i < 0 := by omega
    have b : ¬ i > (as.length : Int) + 1 := by omega
    rw [if_neg a, if_neg b, if_neg (not_not.mpr h1)]
    congr 2
    omega
  · rw [nativeResults_nil]
    have e : (int i :: as).length - ((as.length : Int) - i + 1).toNat = (i - 1).toNat + 1 := by
      simp only [List.length_cons]
      omega
    rw [e, List.drop_succ_cons]
  · have a : ¬ i < 0 := by omega
    rw [if_neg a]
    by_cases h2 : i > (as.length : Int) + 1
    · have c : (1 : Int) ≤ (as.length : Int) + 1 := by omega
      rw [if_pos h2, if_neg (not_not.mpr c)]
      congr 2
      omega
    · have c : (1 : Int) ≤ i := by omega
      rw [if_neg h2, if_neg (not_not.mpr c)]
      congr 2
      omega
  · have c : (1 : Int) ≤ (as.length : Int) + 1 + i := by omega
    rw [if_pos h2, if_neg (not_not.mpr c)]
    congr 2
    omega
  · rw [nativeResults_nil]
    have e : (int i :: as).length - (-i).toNat = (as.length - (-i).toNat) + 1 := by
      simp only [List.length_cons]
      omega
    rw [e, List.drop_succ_cons]
  · rcases h with h | h
    · subst h
      have a : ¬ (0 : Int) < 0 := by decide
      have b : ¬ (0 : Int) > (as.length : Int) + 1 := by omega
      have c : ¬ (1 : Int) ≤ 0 := by decide
      rw [if_neg a, if_neg b, if_pos c]
    · have a : i < 0 := by omega
      have c : ¬ (1 : Int) ≤ (as.length : Int) + 1 + i := by omega
      rw [if_pos a, if_pos c]

theorem luaB_select_index_witness :
    luaB_select [int 2, int 10, int 20, int 30] = ([], Completion.normal ((3 : Int) - 2 + 1)) ∧
    nativeResults [int 2, int 10, int 20, int 30] [] ((3 : Int) - 2 + 1).toNat
      = [int 10, int 20, int 30].drop ((2 : Int) - 1).toNat :=
  (luaB_select_index [int 10, int 20, int 30] 2).1 (by decide) (by decide)

/-! ## The closure of a reused frame, and floor division against remainder -/

/-- C33, evaluated where the code departs from it: the frame of `f` (constant
pool `[7]`) tail-calls `g` (constant pool `[42]`, code `LOADK R0 := K0`).
`OP_TAILCALL` completes; the reused frame 0 has the code of `g` and its
function slot holds `g`, but its field `func`, which the dispatch loop reads
as the running closure, is still `f`. The next turn of the loop therefore
runs the `LOADK` of `g` on the constants of `f`: it loads 7, not 42. -/
theorem OP_TAILCALL_keeps_caller_closure :
    (OP_TAILCALL exTailFG 0 1 exTailInstr).2 = Completion.normal Control.continue_newframe ∧
    (OP_TAILCALL exTailFG 0 1 exTailInstr).1.ci = some 0 ∧
    stackGet (OP_TAILCALL exTailFG 0 1 exTailInstr).1.stack 0
      = TValue.LClosure exCalleeProto [] ∧
    ((OP_TAILCALL exTailFG 0 1 exTailInstr).1.cis[0]?).map CallInfo.savedpc
      = some exCalleeProto.code ∧
    ((OP_TAILCALL exTailFG 0 1 exTailInstr).1.cis[0]?).map CallInfo.func
      = some (TValue.LClosure exCallerProto []) ∧
    (execute_step exOpCodes exMathPow (OP_TAILCALL exTailFG 0 1 exTailInstr).1).map
        (fun r => (stackGet r.1.stack 1, r.2))
      = some (int 7, Completion.normal Control.break_switch) := by
  refine ⟨rfl, rfl, rfl, rfl, rfl, rfl⟩

theorem ratTrunc_neg_seven_halves : ratTrunc (-(7 / 2)) = -3 := by
  have h : ⌊(7 / 2 : Rat)⌋ = 3 := by
    rw [Int.floor_eq_iff]
    norm_num
  have hneg : (-(7 / 2) : Rat) < 0 := by norm_num
  rw [ratTrunc, if_pos hneg, neg_neg, h]

/-- `OP_IDIV` on two integer-tagged operands takes its first branch. -/
theorem OP_IDIV_int (L : lua_State) (k : List TValue) (base : Nat) (i : Instruction)
    (v1 v2 : JSValue) (h1 : RKB L base k i = TValue.mk CT.LUA_TNUMINT v1)
    (h2 : RKC L base k i = TValue.mk CT.LUA_TNUMINT v2) :
    OP_IDIV L k base i =
      ({ L with
          stack := stackSet L.stack (RA base i)
            (TValue.mk CT.LUA_TNUMINT (Math_floor (jsDiv v1 v2))) },
        Completion.normal Control.break_switch) := by
  simp [OP_IDIV, h1, h2, tonumber, TValue.type, TValue.value]

/-- `OP_MOD` on two integer-tagged operands takes its first branch. -/
theorem OP_MOD_int (L : lua_State) (k : List TValue) (base : Nat) (i : Instruction)
    (v1 v2 : JSValue) (h1 : RKB L base k i = TValue.mk CT.LUA_TNUMINT v1)
    (h2 : RKC L base k i = TValue.mk CT.LUA_TNUMINT v2) :
    OP_MOD L k base i =
      ({ L with
          stack := stackSet L.stack (RA base i) (TValue.mk CT.LUA_TNUMINT (jsMod v1 v2)) },
        Completion.normal Control.break_switch) := by
  simp [OP_MOD, h1, h2, tonumber, TValue.type, TValue.value]

/-- C34, evaluated where the code departs from it: on the integer-tagged
operands `a = -7` and `b = 2`, `OP_IDIV` writes `q = -4`, the floor of the
quotient, and `OP_MOD` writes `r = -1`, the remainder of the JavaScript
operator `%`, which has the sign of the dividend; `b * q + r` is `-9`, not
`a`. -/
theorem OP_MOD_not_floored :
    stackGet (OP_IDIV (exArith (int (-7)) (int 2)) [] 0 exArithInstr).1.stack 2 = int (-4) ∧
    stackGet (OP_MOD (exArith (int (-7)) (int 2)) [] 0 exArithInstr).1.stack 2 = int (-1) ∧
    (2 : Int) * (-4) + (-1) ≠ -7 := by
  refine ⟨?_, ?_, by decide⟩
  · rw [OP_IDIV_int (exArith (int (-7)) (int 2)) [] 0 exArithInstr
      (JSValue.number ((-7 : Int) : Rat)) (JSValue.number ((2 : Int) : Rat)) rfl rfl]
    simp only [stackGet_stackSet, exArithInstr, RA, jsDiv, ToNumber, numDiv, Math_floor, int]
    norm_num
  · rw [OP_MOD_int (exArith (int (-7)) (int 2)) [] 0 exArithInstr
      (JSValue.number ((-7 : Int) : Rat)) (JSValue.number ((2 : Int) : Rat)) rfl rfl]
    simp only [stackGet_stackSet, exArithInstr, RA, jsMod, ToNumber, numMod, int]
    norm_num
    rw [ratTrunc_neg_seven_halves]
    norm_num

end LuaVM
